import Mathlib

/-!
CacheLab: a set-associative write-back cache.

A shallow embedding of `CacheLab/cache.c`.  The global variables of the C file
become the fields of `CacheState`; every C function becomes a Lean function
that takes the state and returns the new state (and the C return value).

* `uint32_t` values are natural numbers, reduced modulo `2 ^ 32` where the C
  arithmetic can wrap; the `int` globals are integers.
* `uint8_t data[BLOCK_SIZE]` is a list of natural numbers; the four bytes of a
  word are in little-endian order.
* `rand()` is an extra argument `rnd` of `replace`, `cache_read`, `cache_write`.
* The contents of freshly `malloc`ed lines are an extra argument `heap` of
  `init_cache`, which does not write the data blocks.
* `exp2`, which `init_cache` calls, is not defined in the sources; it is
  modelled from the spec as the exact power of two.
* A value outside the range of `int` that is stored in an `int` is undefined in
  C; `init_cache` returns `none` there.
* The backing memory and the statistics counters belong to other modules; they
  are part of the state, with the behaviour the interface description gives.
-/

namespace CacheLab

/-! ## Constants of `common.h` -/

/-- Modelled from the spec: the macro `BLOCK_WIDTH` of `common.h`, which is not
part of the sources.  The spec fixes `blockWidth = 6`, and `cache.c` itself
shifts by the literal `6` where it decodes the set index and the tag. -/
def BLOCK_WIDTH : Nat := 6

/-- Modelled from the spec: the macro `BLOCK_SIZE` of `common.h`
(`blockSize = 64` bytes). -/
def BLOCK_SIZE : Nat := 64

/-! ## Data model -/

/-- The C struct `CacheRow`: the two one-bit flags, the tag and the data block. -/
structure CacheRow where
  valid : Bool
  dirty : Bool
  tag : Nat
  data : List Nat
deriving DecidableEq

instance : Inhabited CacheRow := ⟨⟨false, false, 0, []⟩⟩

/-- One call of the backing memory made by the cache. -/
inductive MemEvent where
  | read (block_num : Nat)
  | write (block_num : Nat) (buf : List Nat)
deriving DecidableEq

/-- The global state: the five globals of `cache.c`, the backing memory and the
two statistics counters of the collaborating modules, and the sequence of
`mem_read` / `mem_write` calls made so far (oldest first). -/
structure CacheState where
  row_num : Int
  group_num : Int
  group_id_width : Int
  tag_width : Int
  cache : List (List CacheRow)
  mem : Nat → List Nat
  mem_calls : List MemEvent
  try_count : Nat
  hit_count : Nat

/-! ## Collaborators -/

/-- Modelled from the spec: `mem_read(block_num, buf)` of the backing memory,
which is only declared in `cache.c`.  It "fills `buf` with the contents of the
block-granularity address `blockNumber`".  Returns the buffer and records the
call. -/
def mem_read (s : CacheState) (block_num : Nat) : List Nat × CacheState :=
  (s.mem block_num, { s with mem_calls := s.mem_calls ++ [MemEvent.read block_num] })

/-- Modelled from the spec: `mem_write(block_num, buf)` of the backing memory,
which is only declared in `cache.c`.  It "persists `buf` as the block at
`blockNumber`". -/
def mem_write (s : CacheState) (block_num : Nat) (buf : List Nat) : CacheState :=
  { s with
    mem := fun b => if b = block_num then buf else s.mem b
    mem_calls := s.mem_calls ++ [MemEvent.write block_num buf] }

/-- Modelled from the spec: `try_increase(n)` of the statistics module
"increments total-access counter by `n`". -/
def try_increase (s : CacheState) (n : Nat) : CacheState :=
  { s with try_count := s.try_count + n }

/-- Modelled from the spec: `hit_increase(n)` of the statistics module
"increments hit counter by `n`". -/
def hit_increase (s : CacheState) (n : Nat) : CacheState :=
  { s with hit_count := s.hit_count + n }

/-! ## Array access -/

/-- The row `cache[set_id][i]`. -/
def get_row (c : List (List CacheRow)) (set_id i : Nat) : CacheRow :=
  (c.getD set_id []).getD i default

/-- Assignment to the row `cache[set_id][i]`. -/
def set_row (c : List (List CacheRow)) (set_id i : Nat) (r : CacheRow) :
    List (List CacheRow) :=
  c.set set_id ((c.getD set_id []).set i r)

/-! ## Address decoding -/

/-- The C expression `~(~0 << w)` on `int`: `~0` is `-1`, the left shift
multiplies by `2 ^ w`, and the outer complement gives the mask of the `w` low
bits. -/
def low_mask (w : Int) : Nat :=
  (~~~((~~~(0 : Int)) * 2 ^ w.toNat)).toNat

/-- The C statement `uint32_t addr_temp = addr & ~0x3;`: the two low bits are
cleared and the result is stored in 32 bits. -/
def addr_temp (addr : Nat) : Nat :=
  (addr % 2 ^ 32) &&& 0xFFFFFFFC

/-- The C expression `addr_temp & ~(~0 << BLOCK_WIDTH)`. -/
def block_offset (addr : Nat) : Nat :=
  addr_temp addr &&& low_mask BLOCK_WIDTH

/-- The C expression `(addr_temp >> 6) & ~(~0 << group_id_width)`. -/
def set_id (s : CacheState) (addr : Nat) : Nat :=
  (addr_temp addr >>> 6) &&& low_mask s.group_id_width

/-- The C expression `(addr_temp >> (6 + group_id_width)) & ~(~0 << tag_width)`. -/
def tag_of (s : CacheState) (addr : Nat) : Nat :=
  (addr_temp addr >>> (6 + s.group_id_width).toNat) &&& low_mask s.tag_width

/-! ## Block accessor -/

/-- The C function `block_read`: the four bytes at `block_offset` read through
the union as one 32-bit value (little-endian, as the spec fixes). -/
def block_read (row : CacheRow) (block_offset : Nat) : Nat :=
  row.data.getD block_offset 0
    + row.data.getD (block_offset + 1) 0 * 2 ^ 8
    + row.data.getD (block_offset + 2) 0 * 2 ^ 16
    + row.data.getD (block_offset + 3) 0 * 2 ^ 24

/-- The C expression `~x` on `uint32_t`: the complement of a 32-bit value is
`UINT32_MAX - x`. -/
def not32 (x : Nat) : Nat := 2 ^ 32 - 1 - x % 2 ^ 32

/-- The C function `block_write`: read the word, merge `data` under `wmask`,
and store the four bytes of the result. -/
def block_write (row : CacheRow) (block_offset data wmask : Nat) : CacheRow :=
  let val := (block_read row block_offset &&& not32 wmask) ||| (data &&& wmask)
  { row with
    data := (((row.data.set block_offset (val % 256)).set
      (block_offset + 1) (val / 2 ^ 8 % 256)).set
      (block_offset + 2) (val / 2 ^ 16 % 256)).set
      (block_offset + 3) (val / 2 ^ 24 % 256) }

/-! ## Lookup and replacement -/

/-- The C function `replace`.  `rnd` is the value returned by `rand()`.  A dirty
victim is written back at block `(tag << group_id_width) + set_id` (32-bit
arithmetic); then the new block is read into the victim, which becomes valid
and clean with tag `block_num >> group_id_width`.  Returns the chosen row. -/
def replace (s : CacheState) (block_num set_id rnd : Nat) : Nat × CacheState :=
  let row := rnd % s.row_num.toNat
  let victim := get_row s.cache set_id row
  let s1 := if victim.dirty = true then
      mem_write s ((victim.tag <<< s.group_id_width.toNat + set_id) % 2 ^ 32) victim.data
    else s
  let rd := mem_read s1 block_num
  let line : CacheRow :=
    { valid := true, dirty := false, tag := block_num >>> s.group_id_width.toNat, data := rd.1 }
  (row, { rd.2 with cache := set_row rd.2.cache set_id row line })

/-- The `for` loop shared by `cache_read` and `cache_write`: rows
`i, i+1, ..., i+n-1` of the set are scanned in this order, invalid rows are
skipped, and the index of the first row whose tag is `tag` is returned. -/
def find_row (c : List (List CacheRow)) (set_id tag : Nat) : Nat → Nat → Option Nat
  | _, 0 => none
  | i, n + 1 =>
    if (get_row c set_id i).valid = false then find_row c set_id tag (i + 1) n
    else if (get_row c set_id i).tag = tag then some i
    else find_row c set_id tag (i + 1) n

/-- The loop of `cache_read` / `cache_write` run on the state `s` for `addr`:
the index of the row that hits, if any. -/
def hit_row (s : CacheState) (addr : Nat) : Option Nat :=
  find_row s.cache (set_id s addr) (tag_of s addr) 0 s.row_num.toNat

/-- The C function `cache_read`; returns the word read and the new state. -/
def cache_read (s : CacheState) (addr rnd : Nat) : Nat × CacheState :=
  let s1 := try_increase s 1
  match hit_row s1 addr with
  | some i =>
    let s2 := hit_increase s1 1
    (block_read (get_row s2.cache (set_id s1 addr) i) (block_offset addr), s2)
  | none =>
    let p := replace s1 (addr_temp addr >>> BLOCK_WIDTH) (set_id s1 addr) rnd
    (block_read (get_row p.2.cache (set_id s1 addr) p.1) (block_offset addr), p.2)

/-- The two statements `row.flag.dirty = 1; block_write(&row, ...)` applied to
`cache[set_id][i]`, which end both branches of `cache_write`. -/
def mark_and_write (s : CacheState) (set_id i block_offset data wmask : Nat) : CacheState :=
  let c1 := set_row s.cache set_id i { get_row s.cache set_id i with dirty := true }
  { s with cache :=
      set_row c1 set_id i (block_write (get_row c1 set_id i) block_offset data wmask) }

/-- The C function `cache_write`. -/
def cache_write (s : CacheState) (addr data wmask rnd : Nat) : CacheState :=
  let s1 := try_increase s 1
  match hit_row s1 addr with
  | some i =>
    mark_and_write (hit_increase s1 1) (set_id s1 addr) i (block_offset addr) data wmask
  | none =>
    let p := replace s1 (addr_temp addr >>> BLOCK_WIDTH) (set_id s1 addr) rnd
    mark_and_write p.2 (set_id s1 addr) p.1 (block_offset addr) data wmask

/-! ## Initialisation -/

/-- A value stored in a C `int`: defined when it lies in the 32-bit range, and
undefined (`none`) otherwise. -/
def to_int (x : Int) : Option Int :=
  if -(2 ^ 31) ≤ x ∧ x < 2 ^ 31 then some x else none

/-- Modelled from the spec: `exp2`, which `init_cache` calls and which no file
of the sources defines or declares (`cache.c` includes only `common.h` and
`time.h`).  The spec gives `wayCount = 2^associativityWidth` and `setCount =
2^(totalSizeWidth - blockWidth - associativityWidth)`, so `exp2(x)` is the exact
power `2 ^ x`, as a fraction (numerator, denominator).  For `0 ≤ x ≤ 30` every
reading of the name gives this value: the function of the C library, and an
`int` macro `1 << x`.  For `x < 0` and for `31 ≤ x` these readings differ from
one another (a shift by such an `x` is not even defined), and what is stated
here for such arguments holds for the exact power only. -/
def exp2 (x : Int) : Nat × Nat :=
  if 0 ≤ x then (2 ^ x.toNat, 1) else (1, 2 ^ (-x).toNat)

/-- The non-negative quotient `num / den` stored in an `int`: the quotient is
truncated (for whole operands the floating-point and the integer division
truncate to the same value); a division by zero leaves no defined `int`, nor
does a value outside the range of `int`. -/
def double_to_int (num den : Nat) : Option Int :=
  if den = 0 then none else to_int ((num / den : Nat) : Int)

/-- A line as `init_cache` leaves it: the flags and the tag are cleared, and the
data block keeps what `malloc` returned (`junk k` is the byte at index `k`). -/
def fresh_row (junk : Nat → Nat) : CacheRow :=
  { valid := false, dirty := false, tag := 0,
    data := (List.range BLOCK_SIZE).map (fun k => junk k % 256) }

/-- The C function `init_cache`.  `heap i j k` is the content of byte `k` of the
line `cache[i][j]` as `malloc` returned it; the function does not write the
data blocks.  The result is `none` where a value stored in an `int` is
undefined.  The two statements that call `exp2` use the model `exp2` above. -/
def init_cache (total_size_width associativity_width : Int)
    (heap : Nat → Nat → Nat → Nat) (s : CacheState) : Option CacheState :=
  (double_to_int (exp2 associativity_width).1 (exp2 associativity_width).2).bind fun row_num =>
  (double_to_int (exp2 total_size_width).1
    ((exp2 total_size_width).2 * row_num.toNat * BLOCK_SIZE)).bind fun group_num =>
  (to_int (total_size_width - BLOCK_WIDTH)).bind fun w =>
  (to_int (w - associativity_width)).bind fun group_id_width =>
  (to_int (32 - BLOCK_WIDTH - group_id_width)).bind fun tag_width =>
  some { s with
    row_num := row_num
    group_num := group_num
    group_id_width := group_id_width
    tag_width := tag_width
    cache := (List.range group_num.toNat).map fun i =>
      (List.range row_num.toNat).map fun j => fresh_row (heap i j) }

/-- The C function `init_cache` with its two calls of `exp2` left open: `rn` and
`gn` are the values that the statements `row_num = exp2(..)` and `group_num =
exp2(..) / row_num / BLOCK_SIZE` store, whatever `exp2` is, and everything else
is as in `init_cache`.  The variables are `int`s, so the values are in the range
of `int`. -/
def init_cache_of (rn gn : Int) (total_size_width associativity_width : Int)
    (heap : Nat → Nat → Nat → Nat) (s : CacheState) : Option CacheState :=
  (to_int rn).bind fun row_num =>
  (to_int gn).bind fun group_num =>
  (to_int (total_size_width - BLOCK_WIDTH)).bind fun w =>
  (to_int (w - associativity_width)).bind fun group_id_width =>
  (to_int (32 - BLOCK_WIDTH - group_id_width)).bind fun tag_width =>
  some { s with
    row_num := row_num
    group_num := group_num
    group_id_width := group_id_width
    tag_width := tag_width
    cache := (List.range group_num.toNat).map fun i =>
      (List.range row_num.toNat).map fun j => fresh_row (heap i j) }

/-! ## Runs -/

/-- A request to the cache, with the value `rand()` returns if it misses. -/
inductive Op where
  | read (addr rnd : Nat)
  | write (addr data wmask rnd : Nat)
deriving DecidableEq

/-- The address of a request. -/
def Op.addr : Op → Nat
  | Op.read addr _ => addr
  | Op.write addr _ _ _ => addr

/-- The state after one request. -/
def step (s : CacheState) : Op → CacheState
  | Op.read addr rnd => (cache_read s addr rnd).2
  | Op.write addr data wmask rnd => cache_write s addr data wmask rnd

/-- The state after a sequence of requests. -/
def run (s : CacheState) : List Op → CacheState
  | [] => s
  | op :: ops => run (step s op) ops

/-- The value of `rand()` that comes with a request. -/
def Op.rnd : Op → Nat
  | Op.read _ rnd => rnd
  | Op.write _ _ _ rnd => rnd

/-- Whether a request is a `cache_write`. -/
def Op.is_write : Op → Bool
  | Op.read _ _ => false
  | Op.write _ _ _ _ => true

/-- The line a request reads or writes in the state `s`: its set, and the row
that hits or, on a miss, the victim `rand() % row_num`. -/
def accessed (s : CacheState) (op : Op) : Nat × Nat :=
  (set_id s op.addr,
    match hit_row s op.addr with
    | some i => i
    | none => op.rnd % s.row_num.toNat)

/-- The request `op` misses in `s` and `replace` selects the line `(sid, w)`. -/
def evicts (sid w : Nat) (s : CacheState) (op : Op) : Prop :=
  hit_row s op.addr = none ∧ accessed s op = (sid, w)

/-- The request `op` is a `cache_write` that writes the line `(sid, w)`. -/
def writes_line (sid w : Nat) (s : CacheState) (op : Op) : Prop :=
  op.is_write = true ∧ accessed s op = (sid, w)

/-- No request of the run from `s` is `bad` in the state it is made in. -/
def RunAvoids (bad : CacheState → Op → Prop) : CacheState → List Op → Prop
  | _, [] => True
  | s, op :: ops => ¬ bad s op ∧ RunAvoids bad (step s op) ops

/-- The addressed set of `s` contains a valid line whose tag is the tag decoded
from `addr` (stated on the set as a list, without the lookup loop). -/
def set_has_match (s : CacheState) (addr : Nat) : Bool :=
  (s.cache.getD (set_id s addr) []).any fun r => r.valid && r.tag == tag_of s addr

/-- The number of requests of a run from `s` that find, when they are made, a
valid line with the decoded tag in the addressed set. -/
def count_matches : CacheState → List Op → Nat
  | _, [] => 0
  | s, op :: ops => (if set_has_match s op.addr then 1 else 0) + count_matches (step s op) ops

/-! ## Well-formed and reachable states -/

/-- The backing memory holds blocks of `BLOCK_SIZE` bytes. -/
def MemOk (mem : Nat → List Nat) : Prop :=
  ∀ bn, (mem bn).length = BLOCK_SIZE ∧ ∀ b ∈ mem bn, b < 256

/-- A state with a well-formed configuration: the widths are those of a
configuration with `6 + associativity_width ≤ total_size_width ≤ 31`, the store
has `group_num` sets of `row_num` lines of `BLOCK_SIZE` bytes, and so has the
backing memory. -/
structure WellFormed (s : CacheState) : Prop where
  row_pos : 0 < s.row_num
  width_nonneg : 0 ≤ s.group_id_width
  width_le : s.group_id_width ≤ 25
  tag_width_eq : s.tag_width = 32 - 6 - s.group_id_width
  group_num_eq : s.group_num = 2 ^ s.group_id_width.toNat
  sets : s.cache.length = s.group_num.toNat
  rows : ∀ i < s.cache.length, (s.cache.getD i []).length = s.row_num.toNat
  data_len : ∀ i < s.cache.length, ∀ j < s.row_num.toNat,
    (get_row s.cache i j).data.length = BLOCK_SIZE
  data_byte : ∀ i < s.cache.length, ∀ j < s.row_num.toNat,
    ∀ b ∈ (get_row s.cache i j).data, b < 256
  mem_ok : MemOk s.mem

/-- A configuration the cache is meant for. -/
def valid_config (total_size_width associativity_width : Int) : Prop :=
  0 ≤ associativity_width ∧ 6 + associativity_width ≤ total_size_width ∧
    total_size_width ≤ 31

/-- The states of the runs that start from `init_cache` with a valid
configuration, over a backing memory of `BLOCK_SIZE`-byte blocks. -/
inductive Reachable : CacheState → Prop where
  | init (t a : Int) (heap : Nat → Nat → Nat → Nat) (s0 s : CacheState) :
      valid_config t a → MemOk s0.mem → init_cache t a heap s0 = some s → Reachable s
  | step (s : CacheState) (op : Op) : Reachable s → Reachable (step s op)

/-- Row `m` of set `sid` is valid and carries `tag`: the test of the lookup loop. -/
def Matches (c : List (List CacheRow)) (sid tag m : Nat) : Prop :=
  (get_row c sid m).valid = true ∧ (get_row c sid m).tag = tag

/-- The invariant of the reachable states: the state is well formed, a dirty
line is valid, and the tag of a valid line fits in `tag_width` bits. -/
structure Inv (s : CacheState) : Prop where
  wf : WellFormed s
  dirty_valid : ∀ i < s.cache.length, ∀ j < s.row_num.toNat,
    (get_row s.cache i j).dirty = true → (get_row s.cache i j).valid = true
  tag_lt : ∀ i < s.cache.length, ∀ j < s.row_num.toNat,
    (get_row s.cache i j).valid = true → (get_row s.cache i j).tag < 2 ^ s.tag_width.toNat

/-! ## A small instance -/

/-- A backing memory: byte `k` of block `bn` is `(bn + k) % 256`. -/
def sample_mem : Nat → List Nat :=
  fun bn => (List.range BLOCK_SIZE).map fun k => (bn + k) % 256

/-- The content of the heap before `init_cache`: byte `k` of line `(i, j)`. -/
def sample_heap : Nat → Nat → Nat → Nat :=
  fun i j k => i + j + k

/-- The globals before `init_cache` has run, over `sample_mem`. -/
def blank_state : CacheState :=
  { row_num := 0, group_num := 0, group_id_width := 0, tag_width := 0, cache := [],
    mem := sample_mem, mem_calls := [], try_count := 0, hit_count := 0 }

/-- The state after `init_cache(8, 1)`: two sets of two lines. -/
def sample_state : CacheState :=
  (init_cache 8 1 sample_heap blank_state).getD blank_state

/-! ## Coherence of the store with the backing memory -/

/-- The invariant of the reachable states that makes the cache transparent:
besides `Inv`, no set holds two valid lines with the same tag, and a valid
clean line holds the block of the backing memory whose number is
`tag * 2 ^ group_id_width + set`. -/
structure Coherent (s : CacheState) : Prop where
  inv : Inv s
  no_dup : ∀ i < s.cache.length, ∀ j < s.row_num.toNat, ∀ k < s.row_num.toNat,
    (get_row s.cache i j).valid = true → (get_row s.cache i k).valid = true →
    (get_row s.cache i j).tag = (get_row s.cache i k).tag → j = k
  mirror : ∀ i < s.cache.length, ∀ j < s.row_num.toNat,
    (get_row s.cache i j).valid = true → (get_row s.cache i j).dirty = false →
    (get_row s.cache i j).data
      = s.mem ((get_row s.cache i j).tag * 2 ^ s.group_id_width.toNat + i)

/-- The block number `b` as the cache holds it: the data of the line of set
`b % 2 ^ group_id_width` that the lookup loop finds for the tag
`b / 2 ^ group_id_width`, and the block of the backing memory if there is no
such line. -/
def block_view (s : CacheState) (b : Nat) : List Nat :=
  match find_row s.cache (b % 2 ^ s.group_id_width.toNat) (b / 2 ^ s.group_id_width.toNat)
      0 s.row_num.toNat with
  | some i => (get_row s.cache (b % 2 ^ s.group_id_width.toNat) i).data
  | none => s.mem b

/-! ## The flat memory the cache stands for -/

/-- The little-endian word at the byte address `a` of a byte-addressed
memory `m`. -/
def flat_read (m : Nat → Nat) (a : Nat) : Nat :=
  m a + m (a + 1) * 2 ^ 8 + m (a + 2) * 2 ^ 16 + m (a + 3) * 2 ^ 24

/-- The word a masked write leaves at the byte address `a`:
`(old & ~wmask) | (data & wmask)` on 32 bits. -/
def merged_word (m : Nat → Nat) (a data wmask : Nat) : Nat :=
  (flat_read m a &&& (0xFFFFFFFF - wmask)) ||| (data &&& wmask)

/-- A masked word write at the byte address `a` of a byte-addressed memory:
the four bytes at `a` become those of the merged word, in little-endian
order, and no other byte changes. -/
def flat_write (m : Nat → Nat) (a data wmask : Nat) : Nat → Nat :=
  fun x =>
    if x = a then merged_word m a data wmask % 2 ^ 8
    else if x = a + 1 then merged_word m a data wmask / 2 ^ 8 % 2 ^ 8
    else if x = a + 2 then merged_word m a data wmask / 2 ^ 16 % 2 ^ 8
    else if x = a + 3 then merged_word m a data wmask / 2 ^ 24 % 2 ^ 8
    else m x

/-- The byte-addressed memory that a memory of `BLOCK_SIZE`-byte blocks holds:
byte `x` is byte `x % BLOCK_SIZE` of block `x / BLOCK_SIZE`. -/
def flat_of_blocks (mem : Nat → List Nat) : Nat → Nat :=
  fun x => (mem (x / BLOCK_SIZE)).getD (x % BLOCK_SIZE) 0

/-- The operands of a request are 32-bit values, as their C types say. -/
def Op.fits : Op → Bool
  | Op.read addr _ => decide (addr < 2 ^ 32)
  | Op.write addr data wmask _ =>
    decide (addr < 2 ^ 32) && decide (data < 2 ^ 32) && decide (wmask < 2 ^ 32)

/-- The values the `cache_read` calls of a run from `s` return, in order. -/
def run_reads : CacheState → List Op → List Nat
  | _, [] => []
  | s, Op.read addr rnd :: ops =>
    (cache_read s addr rnd).1 :: run_reads (cache_read s addr rnd).2 ops
  | s, Op.write addr data wmask rnd :: ops => run_reads (cache_write s addr data wmask rnd) ops

/-- The values the same requests read from a flat memory: a read of `addr`
returns the word at `addr & ~0x3`, a write merges its data into that word
under its mask; the victim choices play no part. -/
def flat_reads : (Nat → Nat) → List Op → List Nat
  | _, [] => []
  | m, Op.read addr _ :: ops => flat_read m (addr - addr % 4) :: flat_reads m ops
  | m, Op.write addr data wmask _ :: ops =>
    flat_reads (flat_write m (addr - addr % 4) data wmask) ops

/-! # Theorems -/

/-! ### Masks and address arithmetic -/

theorem low_mask_eq (w : Int) : low_mask w = 2 ^ w.toNat - 1 := by
  unfold low_mask
  generalize w.toNat = n
  have hp : 0 < 2 ^ n := Nat.pos_of_ne_zero (by positivity)
  have h : (~~~(0 : Int)) * 2 ^ n = Int.negSucc (2 ^ n - 1) := by
    have h0 : (~~~(0:Int)) = -1 := rfl
    rw [h0, Int.negSucc_eq]
    have : ((2 ^ n - 1 : Nat) : Int) = 2 ^ n - 1 := by
      rw [Nat.cast_sub hp]; simp
    rw [this]; ring
  rw [h]
  rfl

/-! ### Rows of the store -/

theorem getD_set_eq {α : Type} (l : List α) (i : Nat) (a d : α) (h : i < l.length) :
    (l.set i a).getD i d = a := by
  simp [List.getD_eq_getElem?_getD, List.getElem?_set, h]

theorem getD_set_ne {α : Type} (l : List α) (i k : Nat) (a d : α) (h : k ≠ i) :
    (l.set i a).getD k d = l.getD k d := by
  simp [List.getD_eq_getElem?_getD, List.getElem?_set, Ne.symm h]

theorem length_set_row (c : List (List CacheRow)) (i j : Nat) (r : CacheRow) :
    (set_row c i j r).length = c.length := by
  simp [set_row]

theorem getD_set_row_length (c : List (List CacheRow)) (i j k : Nat) (r : CacheRow) :
    ((set_row c i j r).getD k []).length = (c.getD k []).length := by
  unfold set_row
  by_cases hk : k = i
  · subst hk
    by_cases hl : k < c.length
    · rw [getD_set_eq _ _ _ _ hl]; simp
    · rw [List.set_eq_of_length_le (by omega)]
  · rw [getD_set_ne _ _ _ _ _ hk]

theorem get_row_set_row_eq (c : List (List CacheRow)) (i j : Nat) (r : CacheRow)
    (hi : i < c.length) (hj : j < (c.getD i []).length) :
    get_row (set_row c i j r) i j = r := by
  unfold get_row set_row
  rw [getD_set_eq _ _ _ _ hi, getD_set_eq _ _ _ _ hj]

theorem get_row_set_row_ne (c : List (List CacheRow)) (i j i' j' : Nat) (r : CacheRow)
    (h : i' ≠ i ∨ j' ≠ j) :
    get_row (set_row c i j r) i' j' = get_row c i' j' := by
  unfold get_row set_row
  by_cases hi : i' = i
  · subst hi
    have hj : j' ≠ j := by
      rcases h with h | h
      · exact absurd rfl h
      · exact h
    by_cases hl : i' < c.length
    · rw [getD_set_eq _ _ _ _ hl, getD_set_ne _ _ _ _ _ hj]
    · rw [List.set_eq_of_length_le (by omega)]
  · rw [getD_set_ne _ _ _ _ _ hi]

/-! ### Decoding and the block accessor -/

theorem addr_temp_lt (addr : Nat) : addr_temp addr < 2 ^ 32 := by
  unfold addr_temp
  exact lt_of_le_of_lt Nat.and_le_left (Nat.mod_lt _ (by norm_num))

theorem addr_temp_mod_four (addr : Nat) : addr_temp addr % 4 = 0 := by
  unfold addr_temp
  have h := Nat.and_pow_two_sub_one_eq_mod ((addr % 2 ^ 32) &&& 0xFFFFFFFC) 2
  have h2 : (2 ^ 2 : Nat) = 4 := by norm_num
  rw [h2] at h
  rw [← h, Nat.and_assoc]
  have : (0xFFFFFFFC &&& (4 - 1) : Nat) = 0 := by decide
  rw [this]; simp

theorem addr_temp_idem (addr : Nat) : addr_temp (addr_temp addr) = addr_temp addr := by
  have h := addr_temp_lt addr
  unfold addr_temp at *
  rw [Nat.mod_eq_of_lt h, Nat.and_assoc, Nat.and_self]

theorem block_offset_eq (addr : Nat) : block_offset addr = addr_temp addr % 64 := by
  unfold block_offset
  rw [low_mask_eq]
  exact Nat.and_pow_two_sub_one_eq_mod _ 6

theorem block_offset_bound (addr : Nat) : block_offset addr + 4 ≤ BLOCK_SIZE := by
  rw [block_offset_eq]
  have := addr_temp_mod_four addr
  unfold BLOCK_SIZE
  omega

theorem not32_lt (x : Nat) : not32 x < 2 ^ 32 := by
  unfold not32
  norm_num
  omega

theorem not32_of_lt (x : Nat) (h : x < 2 ^ 32) : not32 x = 0xFFFFFFFF - x := by
  unfold not32
  rw [Nat.mod_eq_of_lt h]
  norm_num

theorem not32_full : not32 0xFFFFFFFF = 0 := by decide

theorem word_bytes (v : Nat) (h : v < 2 ^ 32) :
    v % 256 + v / 2 ^ 8 % 256 * 2 ^ 8 + v / 2 ^ 16 % 256 * 2 ^ 16 + v / 2 ^ 24 % 256 * 2 ^ 24 = v := by
  norm_num at h ⊢
  omega

theorem block_read_block_write (row : CacheRow) (off data wmask : Nat)
    (hlen : off + 4 ≤ row.data.length) (hm : wmask < 2 ^ 32) :
    block_read (block_write row off data wmask) off
      = (block_read row off &&& not32 wmask) ||| (data &&& wmask) := by
  have hv : (block_read row off &&& not32 wmask) ||| (data &&& wmask) < 2 ^ 32 :=
    Nat.or_lt_two_pow (Nat.and_lt_two_pow _ (not32_lt _)) (Nat.and_lt_two_pow _ hm)
  have e := word_bytes _ hv
  unfold block_write
  generalize (block_read row off &&& not32 wmask) ||| (data &&& wmask) = v at e ⊢
  unfold block_read
  simp only []
  rw [getD_set_ne _ _ _ _ _ (by omega), getD_set_ne _ _ _ _ _ (by omega),
    getD_set_ne _ _ _ _ _ (by omega), getD_set_eq _ _ _ _ (by omega),
    getD_set_ne _ _ _ _ _ (by omega), getD_set_ne _ _ _ _ _ (by omega),
    getD_set_eq _ _ _ _ (by simp; omega),
    getD_set_ne _ _ _ _ _ (by omega), getD_set_eq _ _ _ _ (by simp; omega),
    getD_set_eq _ _ _ _ (by simp; omega)]
  exact e

theorem block_write_flags (row : CacheRow) (off data wmask : Nat) :
    (block_write row off data wmask).valid = row.valid ∧
    (block_write row off data wmask).dirty = row.dirty ∧
    (block_write row off data wmask).tag = row.tag ∧
    (block_write row off data wmask).data.length = row.data.length := by
  simp [block_write]

theorem mem_set_imp {α : Type} (l : List α) (i : Nat) (a x : α) (P : α → Prop)
    (hl : ∀ y ∈ l, P y) (ha : P a) (hx : x ∈ l.set i a) : P x := by
  rcases List.mem_or_eq_of_mem_set hx with h | h
  · exact hl x h
  · exact h ▸ ha

theorem block_write_byte (row : CacheRow) (off data wmask : Nat)
    (h : ∀ b ∈ row.data, b < 256) : ∀ b ∈ (block_write row off data wmask).data, b < 256 := by
  intro b hb
  unfold block_write at hb
  simp only [] at hb
  refine mem_set_imp _ _ _ _ (fun x => x < 256) ?_ (Nat.mod_lt _ (by norm_num)) hb
  intro y hy
  refine mem_set_imp _ _ _ _ (fun x => x < 256) ?_ (Nat.mod_lt _ (by norm_num)) hy
  intro y hy
  refine mem_set_imp _ _ _ _ (fun x => x < 256) ?_ (Nat.mod_lt _ (by norm_num)) hy
  intro y hy
  exact mem_set_imp _ _ _ _ (fun x => x < 256) h (Nat.mod_lt _ (by norm_num)) hy

theorem block_read_lt (row : CacheRow) (off : Nat) (h : ∀ b ∈ row.data, b < 256) :
    block_read row off < 2 ^ 32 := by
  have hb : ∀ k, row.data.getD k 0 < 256 := by
    intro k
    rw [List.getD_eq_getElem?_getD]
    cases hk : row.data[k]? with
    | none => simp
    | some x => simpa using h x (List.getElem?_mem hk)
  unfold block_read
  have h0 := hb off
  have h1 := hb (off + 1)
  have h2 := hb (off + 2)
  have h3 := hb (off + 3)
  generalize row.data.getD off 0 = a0 at h0 ⊢
  generalize row.data.getD (off + 1) 0 = a1 at h1 ⊢
  generalize row.data.getD (off + 2) 0 = a2 at h2 ⊢
  generalize row.data.getD (off + 3) 0 = a3 at h3 ⊢
  norm_num
  omega

/-! ### The lookup loop -/

theorem find_row_some (c : List (List CacheRow)) (sid tag : Nat) :
    ∀ n i k, find_row c sid tag i n = some k →
      i ≤ k ∧ k < i + n ∧ Matches c sid tag k ∧ ∀ m, i ≤ m → m < k → ¬ Matches c sid tag m := by
  intro n
  induction n with
  | zero => intro i k h; simp [find_row] at h
  | succ n ih =>
    intro i k h
    unfold find_row at h
    by_cases hv : (get_row c sid i).valid = false
    · rw [if_pos hv] at h
      obtain ⟨h1, h2, h3, h4⟩ := ih (i + 1) k h
      refine ⟨by omega, by omega, h3, ?_⟩
      intro m hm1 hm2 hm
      by_cases hmi : m = i
      · subst hmi; rw [hm.1] at hv; exact absurd hv (by simp)
      · exact h4 m (by omega) hm2 hm
    · rw [if_neg hv] at h
      by_cases ht : (get_row c sid i).tag = tag
      · rw [if_pos ht] at h
        have hk : i = k := Option.some.inj h
        subst hk
        refine ⟨le_refl _, by omega, ⟨by simpa using hv, ht⟩, ?_⟩
        intro m hm1 hm2; omega
      · rw [if_neg ht] at h
        obtain ⟨h1, h2, h3, h4⟩ := ih (i + 1) k h
        refine ⟨by omega, by omega, h3, ?_⟩
        intro m hm1 hm2 hm
        by_cases hmi : m = i
        · subst hmi; exact ht hm.2
        · exact h4 m (by omega) hm2 hm

theorem find_row_none (c : List (List CacheRow)) (sid tag : Nat) :
    ∀ n i, find_row c sid tag i n = none ↔ ∀ m, i ≤ m → m < i + n → ¬ Matches c sid tag m := by
  intro n
  induction n with
  | zero =>
    intro i
    simp only [find_row, true_iff]
    intro m h1 h2; omega
  | succ n ih =>
    intro i
    unfold find_row
    by_cases hv : (get_row c sid i).valid = false
    · rw [if_pos hv, ih]
      constructor
      · intro h m hm1 hm2 hm
        by_cases hmi : m = i
        · subst hmi; rw [hm.1] at hv; exact absurd hv (by simp)
        · exact h m (by omega) (by omega) hm
      · intro h m hm1 hm2
        exact h m (by omega) (by omega)
    · rw [if_neg hv]
      by_cases ht : (get_row c sid i).tag = tag
      · rw [if_pos ht]
        simp only [false_iff, reduceCtorEq]
        intro h
        exact h i (le_refl _) (by omega) ⟨by simpa using hv, ht⟩
      · rw [if_neg ht, ih]
        constructor
        · intro h m hm1 hm2 hm
          by_cases hmi : m = i
          · subst hmi; exact ht hm.2
          · exact h m (by omega) (by omega) hm
        · intro h m hm1 hm2
          exact h m (by omega) (by omega)

theorem find_row_first (c : List (List CacheRow)) (sid tag : Nat) (n i k : Nat)
    (h1 : i ≤ k) (h2 : k < i + n) (hk : Matches c sid tag k)
    (hm : ∀ m, i ≤ m → m < k → ¬ Matches c sid tag m) :
    find_row c sid tag i n = some k := by
  cases h : find_row c sid tag i n with
  | none =>
    exact absurd hk ((find_row_none c sid tag n i).1 h k h1 h2)
  | some k' =>
    obtain ⟨a1, a2, a3, a4⟩ := find_row_some c sid tag n i k' h
    have : k' = k := by
      rcases Nat.lt_trichotomy k' k with hlt | heq | hgt
      · exact absurd a3 (hm k' a1 hlt)
      · exact heq
      · exact absurd hk (a4 k h1 hgt)
    rw [this]

theorem get_row_set_row_cases (c : List (List CacheRow)) (i j i' j' : Nat) (r : CacheRow) :
    get_row (set_row c i j r) i' j' = r ∨ get_row (set_row c i j r) i' j' = get_row c i' j' := by
  by_cases h : i' ≠ i ∨ j' ≠ j
  · exact Or.inr (get_row_set_row_ne c i j i' j' r h)
  · have h1 : i' = i := by
      by_contra hne; exact h (Or.inl hne)
    have h2 : j' = j := by
      by_contra hne; exact h (Or.inr hne)
    subst h1; subst h2
    by_cases hi : i' < c.length
    · by_cases hj : j' < (c.getD i' []).length
      · exact Or.inl (get_row_set_row_eq c i' j' r hi hj)
      · right
        unfold set_row
        rw [List.set_eq_of_length_le (l := c.getD i' []) (by omega)]
        unfold get_row
        rw [getD_set_eq _ _ _ _ hi]
    · right
      unfold set_row
      rw [List.set_eq_of_length_le (by omega)]

theorem set_row_set_row (c : List (List CacheRow)) (i j : Nat) (r1 r2 : CacheRow) :
    set_row (set_row c i j r1) i j r2 = set_row c i j r2 := by
  unfold set_row
  by_cases hi : i < c.length
  · rw [getD_set_eq _ _ _ _ hi, List.set_set, List.set_set]
  · simp only [List.set_eq_of_length_le (l := c) (Nat.le_of_not_lt hi)]

theorem set_id_eq (s : CacheState) (addr : Nat) :
    set_id s addr = addr_temp addr / 64 % 2 ^ s.group_id_width.toNat := by
  unfold set_id
  rw [low_mask_eq, Nat.and_pow_two_sub_one_eq_mod, Nat.shiftRight_eq_div_pow]

theorem set_id_lt (s : CacheState) (addr : Nat) : set_id s addr < 2 ^ s.group_id_width.toNat := by
  rw [set_id_eq]
  exact Nat.mod_lt _ (Nat.pos_of_ne_zero (by positivity))

theorem tag_of_eq (s : CacheState) (addr : Nat) (h0 : 0 ≤ s.group_id_width)
    (h1 : s.tag_width = 32 - 6 - s.group_id_width) (h2 : s.group_id_width ≤ 26) :
    tag_of s addr = addr_temp addr / 64 / 2 ^ s.group_id_width.toNat := by
  unfold tag_of
  rw [low_mask_eq, Nat.and_pow_two_sub_one_eq_mod, Nat.shiftRight_eq_div_pow]
  have hg : (6 + s.group_id_width).toNat = 6 + s.group_id_width.toNat := by omega
  have ht : s.tag_width.toNat = 26 - s.group_id_width.toNat := by omega
  rw [hg, ht, pow_add, ← Nat.div_div_eq_div_mul]
  have hlt := addr_temp_lt addr
  apply Nat.mod_eq_of_lt
  have hle : s.group_id_width.toNat ≤ 26 := by omega
  have hpow : 2 ^ s.group_id_width.toNat * 2 ^ (26 - s.group_id_width.toNat) = 2 ^ 26 := by
    rw [← pow_add]; congr 1; omega
  have hpos : 0 < 2 ^ s.group_id_width.toNat := Nat.pos_of_ne_zero (by positivity)
  rw [Nat.div_lt_iff_lt_mul hpos, Nat.mul_comm, hpow]
  norm_num at hlt ⊢
  omega

/-! ### `replace` -/

theorem replace_fst (s : CacheState) (bn sid rnd : Nat) :
    (replace s bn sid rnd).1 = rnd % s.row_num.toNat := rfl

theorem replace_config (s : CacheState) (bn sid rnd : Nat) :
    (replace s bn sid rnd).2.row_num = s.row_num ∧
    (replace s bn sid rnd).2.group_num = s.group_num ∧
    (replace s bn sid rnd).2.group_id_width = s.group_id_width ∧
    (replace s bn sid rnd).2.tag_width = s.tag_width ∧
    (replace s bn sid rnd).2.try_count = s.try_count ∧
    (replace s bn sid rnd).2.hit_count = s.hit_count := by
  unfold replace mem_read mem_write
  by_cases h : (get_row s.cache sid (rnd % s.row_num.toNat)).dirty = true <;> simp [h]

theorem replace_mem_clean (s : CacheState) (bn sid rnd : Nat)
    (h : (get_row s.cache sid (rnd % s.row_num.toNat)).dirty = false) :
    (replace s bn sid rnd).2.mem = s.mem ∧
    (replace s bn sid rnd).2.mem_calls = s.mem_calls ++ [MemEvent.read bn] := by
  unfold replace mem_read mem_write
  simp [h]

theorem replace_mem_dirty (s : CacheState) (bn sid rnd : Nat)
    (h : (get_row s.cache sid (rnd % s.row_num.toNat)).dirty = true) :
    (replace s bn sid rnd).2.mem = (fun b =>
      if b = ((get_row s.cache sid (rnd % s.row_num.toNat)).tag <<< s.group_id_width.toNat + sid)
          % 2 ^ 32
      then (get_row s.cache sid (rnd % s.row_num.toNat)).data else s.mem b) ∧
    (replace s bn sid rnd).2.mem_calls = s.mem_calls ++
      [MemEvent.write
        (((get_row s.cache sid (rnd % s.row_num.toNat)).tag <<< s.group_id_width.toNat + sid)
          % 2 ^ 32)
        (get_row s.cache sid (rnd % s.row_num.toNat)).data, MemEvent.read bn] := by
  unfold replace mem_read mem_write
  simp [h]

theorem replace_cache (s : CacheState) (bn sid rnd : Nat) :
    (replace s bn sid rnd).2.cache = set_row s.cache sid (rnd % s.row_num.toNat)
      { valid := true, dirty := false, tag := bn >>> s.group_id_width.toNat,
        data := (replace s bn sid rnd).2.mem bn } := by
  unfold replace mem_read mem_write
  by_cases h : (get_row s.cache sid (rnd % s.row_num.toNat)).dirty = true <;> simp [h]

/-! ### `mark_and_write` -/

theorem mark_and_write_cache (s : CacheState) (sid i off data wmask : Nat)
    (hi : sid < s.cache.length) (hj : i < (s.cache.getD sid []).length) :
    (mark_and_write s sid i off data wmask).cache = set_row s.cache sid i
      (block_write { get_row s.cache sid i with dirty := true } off data wmask) := by
  unfold mark_and_write
  simp only []
  rw [get_row_set_row_eq _ _ _ _ hi hj, set_row_set_row]

/-! ### `cache_read` and `cache_write` by cases -/

theorem cache_read_hit (s : CacheState) (addr rnd i : Nat) (h : hit_row s addr = some i) :
    cache_read s addr rnd =
      (block_read (get_row s.cache (set_id s addr) i) (block_offset addr),
        hit_increase (try_increase s 1) 1) := by
  have h' : hit_row (try_increase s 1) addr = some i := h
  unfold cache_read
  simp only [h']
  rfl

theorem replace_try_increase (s : CacheState) (n bn sid rnd : Nat) :
    (replace (try_increase s n) bn sid rnd).2 = try_increase (replace s bn sid rnd).2 n := by
  unfold replace mem_read mem_write try_increase
  by_cases h : (get_row s.cache sid (rnd % s.row_num.toNat)).dirty = true <;> simp [h]

theorem cache_read_miss (s : CacheState) (addr rnd : Nat) (h : hit_row s addr = none) :
    cache_read s addr rnd =
      (block_read (get_row
          (replace s (addr_temp addr >>> BLOCK_WIDTH) (set_id s addr) rnd).2.cache
          (set_id s addr) (rnd % s.row_num.toNat)) (block_offset addr),
        try_increase (replace s (addr_temp addr >>> BLOCK_WIDTH) (set_id s addr) rnd).2 1) := by
  have h' : hit_row (try_increase s 1) addr = none := h
  unfold cache_read
  simp only [h']
  have e : set_id (try_increase s 1) addr = set_id s addr := rfl
  rw [e, replace_try_increase]
  rfl

theorem cache_write_hit (s : CacheState) (addr data wmask rnd i : Nat)
    (h : hit_row s addr = some i) :
    cache_write s addr data wmask rnd =
      hit_increase (try_increase
        (mark_and_write s (set_id s addr) i (block_offset addr) data wmask) 1) 1 := by
  have h' : hit_row (try_increase s 1) addr = some i := h
  unfold cache_write
  simp only [h']
  rfl

theorem cache_write_miss (s : CacheState) (addr data wmask rnd : Nat)
    (h : hit_row s addr = none) :
    cache_write s addr data wmask rnd =
      try_increase (mark_and_write
        (replace s (addr_temp addr >>> BLOCK_WIDTH) (set_id s addr) rnd).2
        (set_id s addr) (rnd % s.row_num.toNat) (block_offset addr) data wmask) 1 := by
  have h' : hit_row (try_increase s 1) addr = none := h
  unfold cache_write
  simp only [h']
  have e : set_id (try_increase s 1) addr = set_id s addr := rfl
  rw [e, replace_try_increase]
  rfl

/-! ### Preservation of well-formedness -/

theorem rows_set_row (c : List (List CacheRow)) (a b n : Nat) (r : CacheRow)
    (P : CacheRow → Prop) (h : ∀ i < c.length, ∀ j < n, P (get_row c i j)) (hr : P r) :
    ∀ i < (set_row c a b r).length, ∀ j < n, P (get_row (set_row c a b r) i j) := by
  intro i hi j hj
  rw [length_set_row] at hi
  rcases get_row_set_row_cases c a b i j r with e | e
  · rw [e]; exact hr
  · rw [e]; exact h i hi j hj

theorem wf_set_id_lt (s : CacheState) (h : WellFormed s) (addr : Nat) :
    set_id s addr < s.cache.length := by
  have h1 := set_id_lt s addr
  have h2 := h.sets
  have h3 := h.group_num_eq
  have : s.group_num.toNat = 2 ^ s.group_id_width.toNat := by
    rw [h3]
    have e : ((2 : Int) ^ s.group_id_width.toNat) = ((2 ^ s.group_id_width.toNat : Nat) : Int) := by
      push_cast; rfl
    rw [e, Int.toNat_ofNat]
  omega

theorem wf_victim_lt (s : CacheState) (h : WellFormed s) (rnd : Nat) :
    rnd % s.row_num.toNat < s.row_num.toNat := by
  have := h.row_pos
  exact Nat.mod_lt _ (by omega)

theorem wf_tag_of (s : CacheState) (h : WellFormed s) (addr : Nat) :
    tag_of s addr = addr_temp addr / 64 / 2 ^ s.group_id_width.toNat :=
  tag_of_eq s addr h.width_nonneg h.tag_width_eq (le_trans h.width_le (by norm_num))

theorem wf_try_increase (s : CacheState) (n : Nat) (h : WellFormed s) :
    WellFormed (try_increase s n) :=
  ⟨h.row_pos, h.width_nonneg, h.width_le, h.tag_width_eq, h.group_num_eq, h.sets, h.rows,
    h.data_len, h.data_byte, h.mem_ok⟩

theorem wf_hit_increase (s : CacheState) (n : Nat) (h : WellFormed s) :
    WellFormed (hit_increase s n) :=
  ⟨h.row_pos, h.width_nonneg, h.width_le, h.tag_width_eq, h.group_num_eq, h.sets, h.rows,
    h.data_len, h.data_byte, h.mem_ok⟩

theorem wf_replace_mem (s : CacheState) (bn sid rnd : Nat) (h : WellFormed s)
    (hs : sid < s.cache.length) : MemOk (replace s bn sid rnd).2.mem := by
  by_cases hd : (get_row s.cache sid (rnd % s.row_num.toNat)).dirty = true
  · rw [(replace_mem_dirty s bn sid rnd hd).1]
    intro b
    by_cases hb : b = ((get_row s.cache sid (rnd % s.row_num.toNat)).tag
        <<< s.group_id_width.toNat + sid) % 2 ^ 32
    · simp only [hb, if_true]
      exact ⟨h.data_len sid hs _ (wf_victim_lt s h rnd), h.data_byte sid hs _ (wf_victim_lt s h rnd)⟩
    · simp only [hb, if_false]
      exact h.mem_ok b
  · rw [(replace_mem_clean s bn sid rnd (by simpa using hd)).1]
    exact h.mem_ok

theorem wf_replace (s : CacheState) (bn sid rnd : Nat) (h : WellFormed s)
    (hs : sid < s.cache.length) : WellFormed (replace s bn sid rnd).2 := by
  obtain ⟨c1, c2, c3, c4, _, _⟩ := replace_config s bn sid rnd
  have hm := wf_replace_mem s bn sid rnd h hs
  have hc := replace_cache s bn sid rnd
  refine ⟨by rw [c1]; exact h.row_pos, by rw [c3]; exact h.width_nonneg,
    by rw [c3]; exact h.width_le, by rw [c4, c3]; exact h.tag_width_eq,
    by rw [c2, c3]; exact h.group_num_eq, ?_, ?_, ?_, ?_, hm⟩
  · rw [hc, length_set_row, c2]; exact h.sets
  · rw [hc, c1]
    intro i hi
    rw [length_set_row] at hi
    rw [getD_set_row_length]; exact h.rows i hi
  · rw [hc, c1]
    exact rows_set_row _ _ _ _ _ (fun r => r.data.length = BLOCK_SIZE) h.data_len (hm bn).1
  · rw [hc, c1]
    exact rows_set_row _ _ _ _ _ (fun r => ∀ b ∈ r.data, b < 256) h.data_byte (hm bn).2

theorem wf_mark_and_write (s : CacheState) (sid i off data wmask : Nat) (h : WellFormed s)
    (hs : sid < s.cache.length) (hi : i < s.row_num.toNat) :
    WellFormed (mark_and_write s sid i off data wmask) := by
  have hj : i < (s.cache.getD sid []).length := by rw [h.rows sid hs]; exact hi
  have hc := mark_and_write_cache s sid i off data wmask hs hj
  have e1 : (mark_and_write s sid i off data wmask).row_num = s.row_num := rfl
  have e2 : (mark_and_write s sid i off data wmask).group_num = s.group_num := rfl
  have e3 : (mark_and_write s sid i off data wmask).group_id_width = s.group_id_width := rfl
  have e4 : (mark_and_write s sid i off data wmask).tag_width = s.tag_width := rfl
  have e5 : (mark_and_write s sid i off data wmask).mem = s.mem := rfl
  refine ⟨h.row_pos, h.width_nonneg, h.width_le, h.tag_width_eq, h.group_num_eq, ?_, ?_, ?_, ?_,
    h.mem_ok⟩
  · rw [hc, length_set_row, e2]; exact h.sets
  · rw [hc, e1]
    intro k hk
    rw [length_set_row] at hk
    rw [getD_set_row_length]; exact h.rows k hk
  · rw [hc, e1]
    refine rows_set_row _ _ _ _ _ (fun r => r.data.length = BLOCK_SIZE) h.data_len ?_
    show (block_write _ _ _ _).data.length = BLOCK_SIZE
    rw [(block_write_flags _ _ _ _).2.2.2]
    exact h.data_len sid hs i hi
  · rw [hc, e1]
    refine rows_set_row _ _ _ _ _ (fun r => ∀ b ∈ r.data, b < 256) h.data_byte ?_
    exact block_write_byte _ _ _ _ (h.data_byte sid hs i hi)

theorem hit_row_lt (s : CacheState) (addr i : Nat) (h : hit_row s addr = some i) :
    i < s.row_num.toNat ∧ Matches s.cache (set_id s addr) (tag_of s addr) i ∧
      ∀ m, m < i → ¬ Matches s.cache (set_id s addr) (tag_of s addr) m := by
  obtain ⟨_, h2, h3, h4⟩ := find_row_some _ _ _ _ _ _ h
  exact ⟨by omega, h3, fun m hm => h4 m (Nat.zero_le _) hm⟩

theorem hit_row_none (s : CacheState) (addr : Nat) (h : hit_row s addr = none) :
    ∀ m, m < s.row_num.toNat → ¬ Matches s.cache (set_id s addr) (tag_of s addr) m := by
  intro m hm
  exact (find_row_none _ _ _ _ _).1 h m (Nat.zero_le _) (by omega)

theorem wf_cache_read (s : CacheState) (addr rnd : Nat) (h : WellFormed s) :
    WellFormed (cache_read s addr rnd).2 := by
  cases hh : hit_row s addr with
  | some i =>
    rw [cache_read_hit s addr rnd i hh]
    exact wf_hit_increase _ _ (wf_try_increase _ _ h)
  | none =>
    rw [cache_read_miss s addr rnd hh]
    exact wf_try_increase _ _ (wf_replace _ _ _ _ h (wf_set_id_lt s h addr))

theorem wf_cache_write (s : CacheState) (addr data wmask rnd : Nat) (h : WellFormed s) :
    WellFormed (cache_write s addr data wmask rnd) := by
  cases hh : hit_row s addr with
  | some i =>
    rw [cache_write_hit s addr data wmask rnd i hh]
    exact wf_hit_increase _ _ (wf_try_increase _ _ (wf_mark_and_write _ _ _ _ _ _ h
      (wf_set_id_lt s h addr) (hit_row_lt s addr i hh).1))
  | none =>
    rw [cache_write_miss s addr data wmask rnd hh]
    have hw := wf_replace s (addr_temp addr >>> BLOCK_WIDTH) (set_id s addr) rnd
      h (wf_set_id_lt s h addr)
    refine wf_try_increase _ _ (wf_mark_and_write _ _ _ _ _ _ hw ?_ ?_)
    · rw [hw.sets, (replace_config _ _ _ _).2.1]
      have := wf_set_id_lt s h addr
      rw [h.sets] at this
      exact this
    · rw [(replace_config _ _ _ _).1]
      exact wf_victim_lt s h rnd

theorem wf_step (s : CacheState) (op : Op) (h : WellFormed s) : WellFormed (step s op) := by
  cases op with
  | read addr rnd => exact wf_cache_read s addr rnd h
  | write addr data wmask rnd => exact wf_cache_write s addr data wmask rnd h

theorem wf_run (ops : List Op) : ∀ s, WellFormed s → WellFormed (run s ops) := by
  induction ops with
  | nil => intro s h; exact h
  | cons op ops ih => intro s h; exact ih _ (wf_step s op h)

/-! ### The configuration is constant -/

theorem set_id_congr (s s' : CacheState) (addr : Nat)
    (h : s'.group_id_width = s.group_id_width) : set_id s' addr = set_id s addr := by
  unfold set_id; rw [h]

theorem tag_of_congr (s s' : CacheState) (addr : Nat)
    (h : s'.group_id_width = s.group_id_width) (h' : s'.tag_width = s.tag_width) :
    tag_of s' addr = tag_of s addr := by
  unfold tag_of; rw [h, h']

theorem cache_read_config (s : CacheState) (addr rnd : Nat) :
    (cache_read s addr rnd).2.row_num = s.row_num ∧
    (cache_read s addr rnd).2.group_num = s.group_num ∧
    (cache_read s addr rnd).2.group_id_width = s.group_id_width ∧
    (cache_read s addr rnd).2.tag_width = s.tag_width := by
  cases hh : hit_row s addr with
  | some i =>
    rw [cache_read_hit s addr rnd i hh]
    exact ⟨rfl, rfl, rfl, rfl⟩
  | none =>
    rw [cache_read_miss s addr rnd hh]
    obtain ⟨c1, c2, c3, c4, _, _⟩ := replace_config s
      (addr_temp addr >>> BLOCK_WIDTH) (set_id s addr) rnd
    exact ⟨c1, c2, c3, c4⟩

theorem cache_write_config (s : CacheState) (addr data wmask rnd : Nat) :
    (cache_write s addr data wmask rnd).row_num = s.row_num ∧
    (cache_write s addr data wmask rnd).group_num = s.group_num ∧
    (cache_write s addr data wmask rnd).group_id_width = s.group_id_width ∧
    (cache_write s addr data wmask rnd).tag_width = s.tag_width := by
  cases hh : hit_row s addr with
  | some i =>
    rw [cache_write_hit s addr data wmask rnd i hh]
    exact ⟨rfl, rfl, rfl, rfl⟩
  | none =>
    rw [cache_write_miss s addr data wmask rnd hh]
    obtain ⟨c1, c2, c3, c4, _, _⟩ := replace_config s
      (addr_temp addr >>> BLOCK_WIDTH) (set_id s addr) rnd
    exact ⟨c1, c2, c3, c4⟩

theorem hit_row_congr (s s' : CacheState) (addr : Nat)
    (h1 : s'.row_num = s.row_num) (h3 : s'.group_id_width = s.group_id_width)
    (h4 : s'.tag_width = s.tag_width) :
    hit_row s' addr = find_row s'.cache (set_id s addr) (tag_of s addr) 0 s.row_num.toNat := by
  unfold hit_row
  rw [set_id_congr s s' addr h3, tag_of_congr s s' addr h3 h4, h1]

/-! ### The line a write leaves behind -/

theorem wf_block_num_tag (s : CacheState) (h : WellFormed s) (addr : Nat) :
    (addr_temp addr >>> BLOCK_WIDTH) >>> s.group_id_width.toNat = tag_of s addr := by
  rw [wf_tag_of s h, Nat.shiftRight_eq_div_pow, Nat.shiftRight_eq_div_pow]
  rfl

theorem set_row_matches_first (c : List (List CacheRow)) (sid tag i n : Nat) (r : CacheRow)
    (hs : sid < c.length) (hi : i < (c.getD sid []).length) (hn : i < n)
    (hv : r.valid = true) (ht : r.tag = tag)
    (hm : ∀ m, m < i → ¬ Matches c sid tag m) :
    find_row (set_row c sid i r) sid tag 0 n = some i := by
  apply find_row_first _ _ _ _ _ _ (Nat.zero_le _) (by omega)
  · unfold Matches
    rw [get_row_set_row_eq c sid i r hs hi]
    exact ⟨hv, ht⟩
  · intro m _ hmi hmm
    apply hm m hmi
    unfold Matches at hmm ⊢
    rw [get_row_set_row_ne c sid i sid m r (Or.inr (by omega))] at hmm
    exact hmm

theorem cache_write_hit_line (s : CacheState) (addr data wmask rnd i : Nat)
    (h : WellFormed s) (hh : hit_row s addr = some i) :
    hit_row (cache_write s addr data wmask rnd) addr = some i ∧
    get_row (cache_write s addr data wmask rnd).cache (set_id s addr) i =
      block_write { get_row s.cache (set_id s addr) i with dirty := true }
        (block_offset addr) data wmask := by
  obtain ⟨c1, _, c3, c4⟩ := cache_write_config s addr data wmask rnd
  rw [hit_row_congr s _ addr c1 c3 c4]
  obtain ⟨hi, hm, hfirst⟩ := hit_row_lt s addr i hh
  have hs := wf_set_id_lt s h addr
  have hj : i < (s.cache.getD (set_id s addr) []).length := by rw [h.rows _ hs]; exact hi
  rw [cache_write_hit s addr data wmask rnd i hh]
  have hc := mark_and_write_cache s (set_id s addr) i (block_offset addr) data wmask hs hj
  show find_row (mark_and_write s (set_id s addr) i (block_offset addr) data wmask).cache _ _ _ _
      = _ ∧
    get_row (mark_and_write s (set_id s addr) i (block_offset addr) data wmask).cache _ _ = _
  rw [hc]
  constructor
  · apply set_row_matches_first _ _ _ _ _ _ hs hj hi
    · rw [(block_write_flags _ _ _ _).1]; exact hm.1
    · rw [(block_write_flags _ _ _ _).2.2.1]; exact hm.2
    · exact hfirst
  · exact get_row_set_row_eq _ _ _ _ hs hj

theorem cache_write_miss_line (s : CacheState) (addr data wmask rnd : Nat)
    (h : WellFormed s) (hh : hit_row s addr = none) :
    hit_row (cache_write s addr data wmask rnd) addr = some (rnd % s.row_num.toNat) ∧
    get_row (cache_write s addr data wmask rnd).cache (set_id s addr) (rnd % s.row_num.toNat) =
      block_write ⟨true, true, tag_of s addr,
          (replace s (addr_temp addr >>> BLOCK_WIDTH)
            (set_id s addr) rnd).2.mem (addr_temp addr >>> BLOCK_WIDTH)⟩
        (block_offset addr) data wmask := by
  obtain ⟨c1, _, c3, c4⟩ := cache_write_config s addr data wmask rnd
  rw [hit_row_congr s _ addr c1 c3 c4]
  have hs := wf_set_id_lt s h addr
  have hw := wf_victim_lt s h rnd
  have hj : rnd % s.row_num.toNat < (s.cache.getD (set_id s addr) []).length := by
    rw [h.rows _ hs]; exact hw
  have hnone := hit_row_none s addr hh
  rw [cache_write_miss s addr data wmask rnd hh]
  have hrc := replace_cache s (addr_temp addr >>> BLOCK_WIDTH) (set_id s addr) rnd
  rw [wf_block_num_tag s h addr] at hrc
  have hs' : set_id s addr <
      (replace s (addr_temp addr >>> BLOCK_WIDTH) (set_id s addr) rnd).2.cache.length := by
    rw [hrc, length_set_row]; exact hs
  have hj' : rnd % s.row_num.toNat <
      ((replace s (addr_temp addr >>> BLOCK_WIDTH) (set_id s addr)
        rnd).2.cache.getD (set_id s addr) []).length := by
    rw [hrc, getD_set_row_length]; exact hj
  have hc := mark_and_write_cache _ (set_id s addr) (rnd % s.row_num.toNat)
    (block_offset addr) data wmask hs' hj'
  show find_row (mark_and_write _ _ _ _ _ _).cache _ _ _ _ = _ ∧
    get_row (mark_and_write _ _ _ _ _ _).cache _ _ = _
  rw [hc, hrc, get_row_set_row_eq _ _ _ _ hs hj, set_row_set_row]
  constructor
  · apply set_row_matches_first _ _ _ _ _ _ hs hj hw
    · rw [(block_write_flags _ _ _ _).1]
    · rw [(block_write_flags _ _ _ _).2.2.1]
    · intro m hm
      exact hnone m (by omega)
  · exact get_row_set_row_eq _ _ _ _ hs hj

/-! ### `init_cache` -/

theorem to_int_some (x : Int) (h1 : -(2 ^ 31) ≤ x) (h2 : x < 2 ^ 31) : to_int x = some x := by
  unfold to_int
  rw [if_pos ⟨h1, h2⟩]

theorem pow_two_cast (n : Nat) : ((2 ^ n : Nat) : Int) = 2 ^ n := by
  push_cast; rfl

theorem pow_two_toNat (n : Nat) : ((2 : Int) ^ n).toNat = 2 ^ n := by
  rw [← pow_two_cast, Int.toNat_ofNat]

theorem pow_two_lt_int (n : Nat) (h : n ≤ 30) : ((2 : Int) ^ n) < 2 ^ 31 := by
  have : (2 : Nat) ^ n < 2 ^ 31 := Nat.pow_lt_pow_right (by norm_num) (by omega)
  have h2 : ((2 ^ n : Nat) : Int) < ((2 ^ 31 : Nat) : Int) := by exact_mod_cast this
  rw [pow_two_cast, pow_two_cast] at h2
  exact h2

theorem pow_two_nonneg_int (n : Nat) : -(2 ^ 31) ≤ ((2 : Int) ^ n) := by
  have : (0 : Int) ≤ 2 ^ n := by positivity
  have h2 : (0 : Int) ≤ 2 ^ 31 := by positivity
  omega

/-- The state `init_cache` produces for the widths `t` and `a`. -/
theorem init_cache_some (t a : Int) (heap : Nat → Nat → Nat → Nat) (s0 : CacheState)
    (ha : 0 ≤ a) (ha' : a ≤ 30) (ht : 6 + a ≤ t) (ht' : t - a ≤ 36) :
    init_cache t a heap s0 = some { s0 with
      row_num := 2 ^ a.toNat
      group_num := 2 ^ (t - 6 - a).toNat
      group_id_width := t - 6 - a
      tag_width := 32 - 6 - (t - 6 - a)
      cache := (List.range (2 ^ (t - 6 - a).toNat)).map fun i =>
        (List.range (2 ^ a.toNat)).map fun j => fresh_row (heap i j) } := by
  have hexa : exp2 a = (2 ^ a.toNat, 1) := by unfold exp2; rw [if_pos ha]
  have hext : exp2 t = (2 ^ t.toNat, 1) := by unfold exp2; rw [if_pos (by omega)]
  have hrow : double_to_int (exp2 a).1 (exp2 a).2 = some (2 ^ a.toNat) := by
    rw [hexa]
    unfold double_to_int
    simp only [Nat.div_one, one_ne_zero, if_false]
    rw [pow_two_cast]
    exact to_int_some _ (pow_two_nonneg_int _) (pow_two_lt_int _ (by omega))
  have hq : 2 ^ t.toNat / (1 * 2 ^ a.toNat * BLOCK_SIZE) = 2 ^ (t - 6 - a).toNat := by
    have e : t.toNat = (t - 6 - a).toNat + (a.toNat + 6) := by omega
    have hb : (1 * 2 ^ a.toNat * BLOCK_SIZE) = 2 ^ (a.toNat + 6) := by
      unfold BLOCK_SIZE; rw [pow_add]; norm_num
    rw [hb, e, pow_add, Nat.mul_div_cancel _ (Nat.pos_of_ne_zero (by positivity))]
  have hgrp : double_to_int (exp2 t).1 ((exp2 t).2 * ((2 : Int) ^ a.toNat).toNat * BLOCK_SIZE)
      = some (2 ^ (t - 6 - a).toNat) := by
    rw [hext, pow_two_toNat]
    unfold double_to_int
    have hne : (1 * 2 ^ a.toNat * BLOCK_SIZE) ≠ 0 := by unfold BLOCK_SIZE; positivity
    simp only [hne, if_false]
    rw [hq, pow_two_cast]
    exact to_int_some _ (pow_two_nonneg_int _) (pow_two_lt_int _ (by omega))
  have hw : to_int (t - (BLOCK_WIDTH : Nat)) = some (t - 6) := by
    have : ((BLOCK_WIDTH : Nat) : Int) = 6 := rfl
    rw [this]
    exact to_int_some _ (by norm_num; omega) (by norm_num; omega)
  have hg : to_int (t - 6 - a) = some (t - 6 - a) :=
    to_int_some _ (by norm_num; omega) (by norm_num; omega)
  have htw : to_int (32 - (BLOCK_WIDTH : Nat) - (t - 6 - a)) = some (32 - 6 - (t - 6 - a)) := by
    have : ((BLOCK_WIDTH : Nat) : Int) = 6 := rfl
    rw [this]
    exact to_int_some _ (by norm_num; omega) (by norm_num; omega)
  unfold init_cache
  rw [hrow, Option.some_bind, hgrp, Option.some_bind, hw, Option.some_bind, hg, Option.some_bind,
    htw, Option.some_bind, pow_two_toNat, pow_two_toNat]

theorem getD_map_range {α : Type} (f : Nat → α) (n i : Nat) (d : α) (h : i < n) :
    ((List.range n).map f).getD i d = f i := by
  simp [List.getD_eq_getElem?_getD, List.getElem?_map, List.getElem?_range h]

theorem fresh_row_data (junk : Nat → Nat) :
    (fresh_row junk).data.length = BLOCK_SIZE ∧ ∀ b ∈ (fresh_row junk).data, b < 256 := by
  unfold fresh_row
  constructor
  · simp
  · intro b hb
    simp only [List.mem_map] at hb
    obtain ⟨k, _, hk⟩ := hb
    rw [← hk]
    exact Nat.mod_lt _ (by norm_num)

theorem init_cache_inv (t a : Int) (heap : Nat → Nat → Nat → Nat) (s0 s : CacheState)
    (hc : valid_config t a) (hm : MemOk s0.mem) (h : init_cache t a heap s0 = some s) :
    Inv s := by
  obtain ⟨ha, ht, ht'⟩ := hc
  rw [init_cache_some t a heap s0 ha (by omega) ht (by omega)] at h
  have hs := Option.some.inj h
  subst hs
  have hrow : ∀ i < 2 ^ (t - 6 - a).toNat, ∀ j < 2 ^ a.toNat,
      get_row ((List.range (2 ^ (t - 6 - a).toNat)).map fun i =>
        (List.range (2 ^ a.toNat)).map fun j => fresh_row (heap i j)) i j
        = fresh_row (heap i j) := by
    intro i hi j hj
    unfold get_row
    rw [getD_map_range _ _ _ _ hi, getD_map_range _ _ _ _ hj]
  refine ⟨⟨?_, ?_, ?_, rfl, rfl, ?_, ?_, ?_, ?_, hm⟩, ?_, ?_⟩
  · show (0 : Int) < 2 ^ a.toNat
    positivity
  · show (0 : Int) ≤ t - 6 - a
    omega
  · show t - 6 - a ≤ 25
    omega
  · show List.length _ = Int.toNat (2 ^ (t - 6 - a).toNat)
    rw [pow_two_toNat]; simp
  · intro i hi
    simp only [List.length_map, List.length_range] at hi
    show List.length (List.getD _ i []) = Int.toNat (2 ^ a.toNat)
    rw [pow_two_toNat, getD_map_range _ _ _ _ hi]; simp
  · intro i hi j hj
    simp only [List.length_map, List.length_range] at hi
    have hj' : j < 2 ^ a.toNat := by
      have e : Int.toNat (2 ^ a.toNat) = 2 ^ a.toNat := pow_two_toNat _
      exact e ▸ hj
    show (get_row _ i j).data.length = BLOCK_SIZE
    rw [hrow i hi j hj']
    exact (fresh_row_data _).1
  · intro i hi j hj
    simp only [List.length_map, List.length_range] at hi
    have hj' : j < 2 ^ a.toNat := by
      have e : Int.toNat (2 ^ a.toNat) = 2 ^ a.toNat := pow_two_toNat _
      exact e ▸ hj
    show ∀ b ∈ (get_row _ i j).data, b < 256
    rw [hrow i hi j hj']
    exact (fresh_row_data _).2
  · intro i hi j hj
    simp only [List.length_map, List.length_range] at hi
    have hj' : j < 2 ^ a.toNat := by
      have e : Int.toNat (2 ^ a.toNat) = 2 ^ a.toNat := pow_two_toNat _
      exact e ▸ hj
    show (get_row _ i j).dirty = true → (get_row _ i j).valid = true
    rw [hrow i hi j hj']
    intro hd
    exact absurd hd (by simp [fresh_row])
  · intro i hi j hj
    simp only [List.length_map, List.length_range] at hi
    have hj' : j < 2 ^ a.toNat := by
      have e : Int.toNat (2 ^ a.toNat) = 2 ^ a.toNat := pow_two_toNat _
      exact e ▸ hj
    show (get_row _ i j).valid = true → _
    rw [hrow i hi j hj']
    intro hd
    exact absurd hd (by simp [fresh_row])

/-! ### Preservation of the invariant -/

theorem inv_try_increase (s : CacheState) (n : Nat) (h : Inv s) : Inv (try_increase s n) :=
  ⟨wf_try_increase s n h.wf, h.dirty_valid, h.tag_lt⟩

theorem inv_hit_increase (s : CacheState) (n : Nat) (h : Inv s) : Inv (hit_increase s n) :=
  ⟨wf_hit_increase s n h.wf, h.dirty_valid, h.tag_lt⟩

theorem block_num_lt (addr : Nat) : addr_temp addr >>> BLOCK_WIDTH < 2 ^ 26 := by
  rw [Nat.shiftRight_eq_div_pow]
  have := addr_temp_lt addr
  unfold BLOCK_WIDTH
  norm_num at this ⊢
  omega

theorem wf_tag_lt (s : CacheState) (h : WellFormed s) (bn : Nat) (hbn : bn < 2 ^ 26) :
    bn >>> s.group_id_width.toNat < 2 ^ s.tag_width.toNat := by
  have h0 := h.width_nonneg
  have h1 := h.width_le
  have h2 := h.tag_width_eq
  have ht : s.tag_width.toNat = 26 - s.group_id_width.toNat := by omega
  have hpow : 2 ^ s.group_id_width.toNat * 2 ^ (26 - s.group_id_width.toNat) = 2 ^ 26 := by
    rw [← pow_add]; congr 1; omega
  rw [ht, Nat.shiftRight_eq_div_pow,
    Nat.div_lt_iff_lt_mul (Nat.pos_of_ne_zero (by positivity)), Nat.mul_comm, hpow]
  exact hbn

theorem inv_replace (s : CacheState) (bn sid rnd : Nat) (h : Inv s)
    (hs : sid < s.cache.length) (hbn : bn < 2 ^ 26) : Inv (replace s bn sid rnd).2 := by
  obtain ⟨c1, c2, c3, c4, _, _⟩ := replace_config s bn sid rnd
  have hc := replace_cache s bn sid rnd
  refine ⟨wf_replace s bn sid rnd h.wf hs, ?_, ?_⟩
  · rw [hc, c1]
    refine rows_set_row _ _ _ _ _ (fun r => r.dirty = true → r.valid = true) h.dirty_valid ?_
    intro _; rfl
  · rw [hc, c1, c4]
    refine rows_set_row _ _ _ _ _ (fun r => r.valid = true → r.tag < 2 ^ s.tag_width.toNat)
      h.tag_lt ?_
    intro _
    exact wf_tag_lt s h.wf bn hbn

theorem inv_mark_and_write (s : CacheState) (sid i off data wmask : Nat) (h : Inv s)
    (hs : sid < s.cache.length) (hi : i < s.row_num.toNat)
    (hv : (get_row s.cache sid i).valid = true) :
    Inv (mark_and_write s sid i off data wmask) := by
  have hj : i < (s.cache.getD sid []).length := by rw [h.wf.rows sid hs]; exact hi
  have hc := mark_and_write_cache s sid i off data wmask hs hj
  have e1 : (mark_and_write s sid i off data wmask).row_num = s.row_num := rfl
  have e4 : (mark_and_write s sid i off data wmask).tag_width = s.tag_width := rfl
  refine ⟨wf_mark_and_write s sid i off data wmask h.wf hs hi, ?_, ?_⟩
  · rw [hc, e1]
    refine rows_set_row _ _ _ _ _ (fun r => r.dirty = true → r.valid = true) h.dirty_valid ?_
    intro _
    rw [(block_write_flags _ _ _ _).1]
    exact hv
  · rw [hc, e1, e4]
    refine rows_set_row _ _ _ _ _ (fun r => r.valid = true → r.tag < 2 ^ s.tag_width.toNat)
      h.tag_lt ?_
    intro _
    rw [(block_write_flags _ _ _ _).2.2.1]
    exact h.tag_lt sid hs i hi hv

theorem inv_cache_read (s : CacheState) (addr rnd : Nat) (h : Inv s) :
    Inv (cache_read s addr rnd).2 := by
  cases hh : hit_row s addr with
  | some i =>
    rw [cache_read_hit s addr rnd i hh]
    exact inv_hit_increase _ _ (inv_try_increase _ _ h)
  | none =>
    rw [cache_read_miss s addr rnd hh]
    exact inv_try_increase _ _ (inv_replace _ _ _ _ h (wf_set_id_lt s h.wf addr)
      (block_num_lt addr))

theorem inv_cache_write (s : CacheState) (addr data wmask rnd : Nat) (h : Inv s) :
    Inv (cache_write s addr data wmask rnd) := by
  cases hh : hit_row s addr with
  | some i =>
    rw [cache_write_hit s addr data wmask rnd i hh]
    exact inv_hit_increase _ _ (inv_try_increase _ _ (inv_mark_and_write _ _ _ _ _ _ h
      (wf_set_id_lt s h.wf addr) (hit_row_lt s addr i hh).1 (hit_row_lt s addr i hh).2.1.1))
  | none =>
    rw [cache_write_miss s addr data wmask rnd hh]
    have hs := wf_set_id_lt s h.wf addr
    have hw := wf_victim_lt s h.wf rnd
    have hv := inv_replace s (addr_temp addr >>> BLOCK_WIDTH) (set_id s addr) rnd
      h hs (block_num_lt addr)
    have hrc := replace_cache s (addr_temp addr >>> BLOCK_WIDTH) (set_id s addr) rnd
    have hj : rnd % s.row_num.toNat < (s.cache.getD (set_id s addr) []).length := by
      rw [h.wf.rows _ hs]; exact hw
    refine inv_try_increase _ _ (inv_mark_and_write _ _ _ _ _ _ hv ?_ ?_ ?_)
    · rw [hrc, length_set_row]; exact hs
    · rw [(replace_config _ _ _ _).1]; exact hw
    · rw [hrc, get_row_set_row_eq s.cache (set_id s addr) (rnd % s.row_num.toNat) _ hs hj]

theorem inv_step (s : CacheState) (op : Op) (h : Inv s) : Inv (step s op) := by
  cases op with
  | read addr rnd => exact inv_cache_read s addr rnd h
  | write addr data wmask rnd => exact inv_cache_write s addr data wmask rnd h

theorem inv_run (ops : List Op) : ∀ s, Inv s → Inv (run s ops) := by
  induction ops with
  | nil => intro s h; exact h
  | cons op ops ih => intro s h; exact ih _ (inv_step s op h)

theorem reachable_inv (s : CacheState) (h : Reachable s) : Inv s := by
  induction h with
  | init t a heap s0 s hc hm hi => exact init_cache_inv t a heap s0 s hc hm hi
  | step s op _ ih => exact inv_step s op ih

theorem reachable_run (ops : List Op) : ∀ s, Reachable s → Reachable (run s ops) := by
  induction ops with
  | nil => intro s h; exact h
  | cons op ops ih => intro s h; exact ih _ (Reachable.step s op h)

/-! ### Bit operations -/

theorem shiftRight_and (a b k : Nat) : (a &&& b) >>> k = (a >>> k) &&& (b >>> k) := by
  apply Nat.eq_of_testBit_eq
  intro i
  simp only [Nat.testBit_shiftRight, Nat.testBit_and]

theorem shiftRight_or (a b k : Nat) : (a ||| b) >>> k = (a >>> k) ||| (b >>> k) := by
  apply Nat.eq_of_testBit_eq
  intro i
  simp only [Nat.testBit_shiftRight, Nat.testBit_or]

theorem or_and_right (a b c : Nat) : (a ||| b) &&& c = (a &&& c) ||| (b &&& c) := by
  apply Nat.eq_of_testBit_eq
  intro i
  simp only [Nat.testBit_or, Nat.testBit_and, Bool.and_or_distrib_right]

theorem half_word_merge (old : Nat) (h : old < 2 ^ 32) :
    ((old &&& not32 0xFFFF) ||| (0xABCD1234 &&& 0xFFFF)) &&& 0xFFFF = 0x1234 ∧
    ((old &&& not32 0xFFFF) ||| (0xABCD1234 &&& 0xFFFF)) >>> 16 = old >>> 16 := by
  have e1 : not32 0xFFFF = 0xFFFF0000 := by decide
  have e2 : (0xABCD1234 &&& 0xFFFF : Nat) = 0x1234 := by decide
  rw [e1, e2]
  constructor
  · rw [or_and_right, Nat.and_assoc]
    have e3 : (0xFFFF0000 &&& 0xFFFF : Nat) = 0 := by decide
    have e4 : (0x1234 &&& 0xFFFF : Nat) = 0x1234 := by decide
    rw [e3, e4, Nat.and_zero, Nat.zero_or]
  · rw [shiftRight_or, shiftRight_and]
    have e3 : (0xFFFF0000 >>> 16 : Nat) = 2 ^ 16 - 1 := by decide
    have e4 : (0x1234 >>> 16 : Nat) = 0 := by decide
    rw [e3, e4, Nat.or_zero]
    apply Nat.and_pow_two_sub_one_of_lt_two_pow
    rw [Nat.shiftRight_eq_div_pow]
    norm_num at h ⊢
    omega

/-! ### A miss does not write the requested block back -/

theorem wf_block_num_eq (s : CacheState) (h : WellFormed s) (addr : Nat) :
    addr_temp addr >>> BLOCK_WIDTH
      = tag_of s addr * 2 ^ s.group_id_width.toNat + set_id s addr := by
  rw [wf_tag_of s h, set_id_eq, Nat.shiftRight_eq_div_pow]
  have e : (2 : Nat) ^ BLOCK_WIDTH = 64 := by decide
  rw [e, Nat.mul_comm]
  exact (Nat.div_add_mod _ _).symm

theorem write_back_block (s : CacheState) (h : WellFormed s) (sid tag : Nat)
    (hs : sid < 2 ^ s.group_id_width.toNat) (ht : tag < 2 ^ s.tag_width.toNat) :
    (tag <<< s.group_id_width.toNat + sid) % 2 ^ 32 = tag * 2 ^ s.group_id_width.toNat + sid := by
  have h0 := h.width_nonneg
  have h1 := h.width_le
  have h2 := h.tag_width_eq
  have hw : s.tag_width.toNat = 26 - s.group_id_width.toNat := by omega
  have hpow : 2 ^ (26 - s.group_id_width.toNat) * 2 ^ s.group_id_width.toNat = 2 ^ 26 := by
    rw [← pow_add]; congr 1; omega
  rw [Nat.shiftLeft_eq]
  apply Nat.mod_eq_of_lt
  rw [hw] at ht
  have : (tag + 1) * 2 ^ s.group_id_width.toNat ≤ 2 ^ 26 := by
    rw [← hpow]
    exact Nat.mul_le_mul_right _ ht
  have h26 : (2 : Nat) ^ 26 < 2 ^ 32 := by norm_num
  rw [Nat.add_mul] at this
  omega

theorem miss_write_back_ne (s : CacheState) (h : Inv s) (addr j : Nat)
    (hh : hit_row s addr = none) (hj : j < s.row_num.toNat)
    (hd : (get_row s.cache (set_id s addr) j).dirty = true) :
    ((get_row s.cache (set_id s addr) j).tag <<< s.group_id_width.toNat + set_id s addr) % 2 ^ 32
      ≠ addr_temp addr >>> BLOCK_WIDTH := by
  have hs := wf_set_id_lt s h.wf addr
  have hv := h.dirty_valid _ hs j hj hd
  have ht := h.tag_lt _ hs j hj hv
  have hne : (get_row s.cache (set_id s addr) j).tag ≠ tag_of s addr := by
    intro e
    exact hit_row_none s addr hh j hj ⟨hv, e⟩
  rw [write_back_block s h.wf _ _ (set_id_lt s addr) ht, wf_block_num_eq s h.wf addr]
  intro e
  have hpos : 0 < 2 ^ s.group_id_width.toNat := Nat.pos_of_ne_zero (by positivity)
  have e' := Nat.add_right_cancel e
  exact hne (Nat.eq_of_mul_eq_mul_right hpos e')

theorem miss_mem_block (s : CacheState) (h : Inv s) (addr rnd : Nat)
    (hh : hit_row s addr = none) :
    (replace s (addr_temp addr >>> BLOCK_WIDTH) (set_id s addr) rnd).2.mem
      (addr_temp addr >>> BLOCK_WIDTH) = s.mem (addr_temp addr >>> BLOCK_WIDTH) := by
  by_cases hd : (get_row s.cache (set_id s addr) (rnd % s.row_num.toNat)).dirty = true
  · rw [(replace_mem_dirty s _ _ rnd hd).1]
    have hne := miss_write_back_ne s h addr _ hh (wf_victim_lt s h.wf rnd) hd
    show (if _ = _ then _ else _) = _
    rw [if_neg (Ne.symm hne)]
  · rw [(replace_mem_clean s _ _ rnd (by simpa using hd)).1]

theorem block_read_congr (r r' : CacheRow) (off : Nat) (h : r.data = r'.data) :
    block_read r off = block_read r' off := by
  unfold block_read; rw [h]

/-- The word a read returns is the word of a line of the resulting store. -/
theorem cache_read_line (s : CacheState) (addr rnd : Nat) (h : WellFormed s) :
    ∃ i, i < s.row_num.toNat ∧ (cache_read s addr rnd).1 =
      block_read (get_row (cache_read s addr rnd).2.cache (set_id s addr) i) (block_offset addr) := by
  cases hh : hit_row s addr with
  | some i =>
    rw [cache_read_hit s addr rnd i hh]
    exact ⟨i, (hit_row_lt s addr i hh).1, rfl⟩
  | none =>
    rw [cache_read_miss s addr rnd hh]
    exact ⟨_, wf_victim_lt s h rnd, rfl⟩

theorem cache_read_lt (s : CacheState) (addr rnd : Nat) (h : WellFormed s) :
    (cache_read s addr rnd).1 < 2 ^ 32 := by
  obtain ⟨i, hi, e⟩ := cache_read_line s addr rnd h
  rw [e]
  have hw := wf_cache_read s addr rnd h
  have hs := wf_set_id_lt s h addr
  apply block_read_lt
  refine hw.data_byte _ ?_ i ?_
  · rw [hw.sets, (cache_read_config s addr rnd).2.1, ← h.sets]; exact hs
  · rw [(cache_read_config s addr rnd).1]; exact hi

theorem full_mask_merge (x data : Nat) (hd : data < 2 ^ 32) :
    (x &&& not32 0xFFFFFFFF) ||| (data &&& 0xFFFFFFFF) = data := by
  rw [not32_full, Nat.and_zero, Nat.zero_or]
  exact Nat.and_pow_two_sub_one_of_lt_two_pow (n := 32) hd

theorem round_trip_aux (s : CacheState) (addr data wmask rnd rnd' i : Nat) (L : CacheRow)
    (hm : wmask < 2 ^ 32) (hL : L.data.length = BLOCK_SIZE)
    (hh : hit_row (cache_write s addr data wmask rnd) addr = some i)
    (hl : get_row (cache_write s addr data wmask rnd).cache (set_id s addr) i =
      block_write L (block_offset addr) data wmask) :
    cache_read (cache_write s addr data wmask rnd) addr rnd' =
      ((block_read L (block_offset addr) &&& not32 wmask) ||| (data &&& wmask),
        hit_increase (try_increase (cache_write s addr data wmask rnd) 1) 1) := by
  rw [cache_read_hit _ addr rnd' i hh]
  rw [set_id_congr s _ addr (cache_write_config s addr data wmask rnd).2.2.1, hl]
  rw [block_read_block_write L _ data wmask (by rw [hL]; exact block_offset_bound addr) hm]

theorem cache_read_miss_value (s : CacheState) (addr rnd : Nat) (h : WellFormed s)
    (hh : hit_row s addr = none) :
    (cache_read s addr rnd).1 = block_read
      ⟨true, false, tag_of s addr,
        (replace s (addr_temp addr >>> BLOCK_WIDTH) (set_id s addr) rnd).2.mem
          (addr_temp addr >>> BLOCK_WIDTH)⟩ (block_offset addr) := by
  rw [cache_read_miss s addr rnd hh]
  have hs := wf_set_id_lt s h addr
  have hj : rnd % s.row_num.toNat < (s.cache.getD (set_id s addr) []).length := by
    rw [h.rows _ hs]; exact wf_victim_lt s h rnd
  have hrc := replace_cache s (addr_temp addr >>> BLOCK_WIDTH) (set_id s addr) rnd
  rw [wf_block_num_tag s h addr] at hrc
  show block_read (get_row _ _ _) _ = _
  rw [hrc, get_row_set_row_eq _ _ _ _ hs hj]

theorem merge_after_write (s : CacheState) (addr data wmask rnd0 rnd rnd' : Nat)
    (hr : Inv s) (hm : wmask < 2 ^ 32) :
    (cache_read (cache_write s addr data wmask rnd) addr rnd').1 =
      ((cache_read s addr rnd0).1 &&& not32 wmask) ||| (data &&& wmask) := by
  have hwf := hr.wf
  cases hh : hit_row s addr with
  | some i =>
    obtain ⟨h1, h2⟩ := cache_write_hit_line s addr data wmask rnd i hwf hh
    have hL : ({ get_row s.cache (set_id s addr) i with dirty := true } : CacheRow).data.length
        = BLOCK_SIZE :=
      hwf.data_len _ (wf_set_id_lt s hwf addr) i (hit_row_lt s addr i hh).1
    rw [round_trip_aux s addr data wmask rnd rnd' i _ hm hL h1 h2, cache_read_hit s addr rnd0 i hh]
    rfl
  | none =>
    obtain ⟨h1, h2⟩ := cache_write_miss_line s addr data wmask rnd hwf hh
    have hL := (wf_replace_mem s (addr_temp addr >>> BLOCK_WIDTH) (set_id s addr)
      rnd hwf (wf_set_id_lt s hwf addr) (addr_temp addr >>> BLOCK_WIDTH)).1
    rw [round_trip_aux s addr data wmask rnd rnd' _ ⟨true, true, tag_of s addr, _⟩ hm hL h1 h2,
      cache_read_miss_value s addr rnd0 hwf hh]
    have e : block_read ⟨true, true, tag_of s addr,
          (replace s (addr_temp addr >>> BLOCK_WIDTH) (set_id s addr) rnd).2.mem
            (addr_temp addr >>> BLOCK_WIDTH)⟩ (block_offset addr)
        = block_read ⟨true, false, tag_of s addr,
          (replace s (addr_temp addr >>> BLOCK_WIDTH) (set_id s addr) rnd0).2.mem
            (addr_temp addr >>> BLOCK_WIDTH)⟩ (block_offset addr) := by
      apply block_read_congr
      rw [miss_mem_block s hr addr rnd hh, miss_mem_block s hr addr rnd0 hh]
    rw [e]

/-! ### The small instance -/

theorem sample_mem_ok : MemOk sample_mem := by
  intro bn
  unfold sample_mem
  constructor
  · simp
  · intro b hb
    simp only [List.mem_map] at hb
    obtain ⟨k, _, hk⟩ := hb
    rw [← hk]
    exact Nat.mod_lt _ (by norm_num)

theorem sample_init : init_cache 8 1 sample_heap blank_state = some sample_state := rfl

theorem sample_reachable : Reachable sample_state :=
  Reachable.init 8 1 sample_heap blank_state sample_state
    ⟨by decide, by decide, by decide⟩ sample_mem_ok sample_init

theorem sample_wf : WellFormed sample_state := (reachable_inv _ sample_reachable).wf

/-! ### The store after a request -/

theorem cache_read_miss_cache (s : CacheState) (addr rnd : Nat) (h : WellFormed s)
    (hh : hit_row s addr = none) :
    (cache_read s addr rnd).2.cache = set_row s.cache (set_id s addr) (rnd % s.row_num.toNat)
      ⟨true, false, tag_of s addr,
        (replace s (addr_temp addr >>> BLOCK_WIDTH) (set_id s addr) rnd).2.mem
          (addr_temp addr >>> BLOCK_WIDTH)⟩ := by
  rw [cache_read_miss s addr rnd hh]
  have hrc := replace_cache s (addr_temp addr >>> BLOCK_WIDTH) (set_id s addr) rnd
  rw [wf_block_num_tag s h addr] at hrc
  exact hrc

theorem cache_write_hit_cache (s : CacheState) (addr data wmask rnd i : Nat)
    (h : WellFormed s) (hh : hit_row s addr = some i) :
    (cache_write s addr data wmask rnd).cache = set_row s.cache (set_id s addr) i
      (block_write { get_row s.cache (set_id s addr) i with dirty := true }
        (block_offset addr) data wmask) := by
  have hs := wf_set_id_lt s h addr
  have hj : i < (s.cache.getD (set_id s addr) []).length := by
    rw [h.rows _ hs]; exact (hit_row_lt s addr i hh).1
  rw [cache_write_hit s addr data wmask rnd i hh]
  exact mark_and_write_cache s (set_id s addr) i (block_offset addr) data wmask hs hj

theorem cache_write_miss_cache (s : CacheState) (addr data wmask rnd : Nat)
    (h : WellFormed s) (hh : hit_row s addr = none) :
    (cache_write s addr data wmask rnd).cache =
      set_row s.cache (set_id s addr) (rnd % s.row_num.toNat)
        (block_write ⟨true, true, tag_of s addr,
          (replace s (addr_temp addr >>> BLOCK_WIDTH) (set_id s addr) rnd).2.mem
            (addr_temp addr >>> BLOCK_WIDTH)⟩ (block_offset addr) data wmask) := by
  have hs := wf_set_id_lt s h addr
  have hj : rnd % s.row_num.toNat < (s.cache.getD (set_id s addr) []).length := by
    rw [h.rows _ hs]; exact wf_victim_lt s h rnd
  rw [cache_write_miss s addr data wmask rnd hh]
  have hrc := replace_cache s (addr_temp addr >>> BLOCK_WIDTH) (set_id s addr) rnd
  rw [wf_block_num_tag s h addr] at hrc
  have hs' : set_id s addr <
      (replace s (addr_temp addr >>> BLOCK_WIDTH) (set_id s addr) rnd).2.cache.length := by
    rw [hrc, length_set_row]; exact hs
  have hj' : rnd % s.row_num.toNat <
      ((replace s (addr_temp addr >>> BLOCK_WIDTH) (set_id s addr)
        rnd).2.cache.getD (set_id s addr) []).length := by
    rw [hrc, getD_set_row_length]; exact hj
  have hc := mark_and_write_cache _ (set_id s addr) (rnd % s.row_num.toNat)
    (block_offset addr) data wmask hs' hj'
  show (mark_and_write _ _ _ _ _ _).cache = _
  rw [hc, hrc, get_row_set_row_eq _ _ _ _ hs hj, set_row_set_row]

theorem accessed_eq_hit (s : CacheState) (op : Op) (i : Nat) (h : hit_row s op.addr = some i) :
    accessed s op = (set_id s op.addr, i) := by
  unfold accessed; rw [h]

theorem accessed_eq_miss (s : CacheState) (op : Op) (h : hit_row s op.addr = none) :
    accessed s op = (set_id s op.addr, op.rnd % s.row_num.toNat) := by
  unfold accessed; rw [h]

/-- A request leaves every line but the accessed one as it is. -/
theorem step_other_rows (s : CacheState) (op : Op) (i j : Nat) (h : WellFormed s)
    (hne : accessed s op ≠ (i, j)) :
    get_row (step s op).cache i j = get_row s.cache i j := by
  have key : ∀ k r, accessed s op = (set_id s op.addr, k) →
      get_row (set_row s.cache (set_id s op.addr) k r) i j = get_row s.cache i j := by
    intro k r hk
    apply get_row_set_row_ne
    by_contra hc
    push_neg at hc
    apply hne
    rw [hk, hc.1, hc.2]
  cases op with
  | read addr rnd =>
    show get_row (cache_read s addr rnd).2.cache i j = _
    cases hh : hit_row s addr with
    | some k => rw [cache_read_hit s addr rnd k hh]; rfl
    | none =>
      rw [cache_read_miss_cache s addr rnd h hh]
      exact key _ _ (accessed_eq_miss s (Op.read addr rnd) hh)
  | write addr data wmask rnd =>
    show get_row (cache_write s addr data wmask rnd).cache i j = _
    cases hh : hit_row s addr with
    | some k =>
      rw [cache_write_hit_cache s addr data wmask rnd k h hh]
      exact key _ _ (accessed_eq_hit s (Op.write addr data wmask rnd) k hh)
    | none =>
      rw [cache_write_miss_cache s addr data wmask rnd h hh]
      exact key _ _ (accessed_eq_miss s (Op.write addr data wmask rnd) hh)

theorem step_config (s : CacheState) (op : Op) :
    (step s op).row_num = s.row_num ∧ (step s op).group_num = s.group_num ∧
    (step s op).group_id_width = s.group_id_width ∧ (step s op).tag_width = s.tag_width := by
  cases op with
  | read addr rnd => exact cache_read_config s addr rnd
  | write addr data wmask rnd => exact cache_write_config s addr data wmask rnd

theorem run_config (ops : List Op) : ∀ s : CacheState,
    (run s ops).row_num = s.row_num ∧ (run s ops).group_num = s.group_num ∧
    (run s ops).group_id_width = s.group_id_width ∧ (run s ops).tag_width = s.tag_width := by
  induction ops with
  | nil => intro s; exact ⟨rfl, rfl, rfl, rfl⟩
  | cons op ops ih =>
    intro s
    obtain ⟨a1, a2, a3, a4⟩ := ih (step s op)
    obtain ⟨b1, b2, b3, b4⟩ := step_config s op
    exact ⟨a1.trans b1, a2.trans b2, a3.trans b3, a4.trans b4⟩

/-! ### Address decomposition -/

theorem init_cache_assoc_nonneg (t a : Int) (heap : Nat → Nat → Nat → Nat) (s0 s : CacheState)
    (h : init_cache t a heap s0 = some s) : 0 ≤ a := by
  by_contra hneg
  have hexa : exp2 a = (1, 2 ^ (-a).toNat) := by unfold exp2; rw [if_neg hneg]
  have hlt : 1 < 2 ^ (-a).toNat := Nat.one_lt_two_pow (by omega)
  have hrow : double_to_int (exp2 a).1 (exp2 a).2 = some 0 := by
    rw [hexa]
    unfold double_to_int
    have hne : 2 ^ (-a).toNat ≠ 0 := by positivity
    simp only [hne, if_false]
    rw [Nat.div_eq_of_lt hlt]
    rfl
  unfold init_cache at h
  rw [hrow, Option.some_bind] at h
  have hgrp : double_to_int (exp2 t).1 ((exp2 t).2 * (0 : Int).toNat * BLOCK_SIZE) = none := by
    unfold double_to_int
    simp
  rw [hgrp] at h
  exact absurd h (by simp)

theorem addr_temp_of_lt (addr : Nat) (h : addr < 2 ^ 32) :
    addr_temp addr = addr &&& 0xFFFFFFFC := by
  unfold addr_temp
  rw [Nat.mod_eq_of_lt h]

theorem widths_decomposition (s : CacheState) (addr : Nat) (h0 : 0 ≤ s.group_id_width)
    (h1 : s.group_id_width ≤ 26) (h2 : s.tag_width = 32 - 6 - s.group_id_width) :
    block_offset addr + (set_id s addr <<< BLOCK_WIDTH)
      + (tag_of s addr <<< (BLOCK_WIDTH + s.group_id_width.toNat)) = addr_temp addr := by
  rw [block_offset_eq, tag_of_eq s addr h0 h2 h1, set_id_eq, Nat.shiftLeft_eq, Nat.shiftLeft_eq, pow_add]
  have e : (2 : Nat) ^ BLOCK_WIDTH = 64 := by decide
  rw [e]
  generalize addr_temp addr = x
  generalize 2 ^ s.group_id_width.toNat = p
  have h1 := Nat.div_add_mod x 64
  have h2 := Nat.div_add_mod (x / 64) p
  calc x % 64 + x / 64 % p * 64 + x / 64 / p * (64 * p)
      = 64 * (p * (x / 64 / p) + x / 64 % p) + x % 64 := by ring
    _ = x := by rw [h2, h1]

/-! ### Lines that stay dirty, lines that stay clean -/

theorem addr_temp_shift (addr : Nat) (h : addr < 2 ^ 32) :
    addr_temp addr >>> BLOCK_WIDTH = addr >>> BLOCK_WIDTH := by
  rw [addr_temp_of_lt addr h, shiftRight_and]
  have e : (0xFFFFFFFC >>> BLOCK_WIDTH : Nat) = 2 ^ 26 - 1 := by decide
  rw [e]
  apply Nat.and_pow_two_sub_one_of_lt_two_pow
  rw [Nat.shiftRight_eq_div_pow]
  have e2 : (2 : Nat) ^ BLOCK_WIDTH = 64 := by decide
  rw [e2]
  norm_num at h ⊢
  omega

/-- What a request does to the line it accesses when it hits. -/
theorem step_hit_row (s : CacheState) (op : Op) (i j : Nat) (h : WellFormed s)
    (hacc : accessed s op = (i, j)) (hhit : hit_row s op.addr ≠ none) :
    (get_row (step s op).cache i j).tag = (get_row s.cache i j).tag ∧
    (get_row (step s op).cache i j).valid = (get_row s.cache i j).valid ∧
    (get_row (step s op).cache i j).dirty = (op.is_write || (get_row s.cache i j).dirty) := by
  cases hh : hit_row s op.addr with
  | none => exact absurd hh hhit
  | some k =>
    rw [accessed_eq_hit s op k hh] at hacc
    have hi : set_id s op.addr = i := congrArg Prod.fst hacc
    have hk : k = j := congrArg Prod.snd hacc
    subst hk
    cases op with
    | read addr rnd =>
      have e : (step s (Op.read addr rnd)).cache = s.cache := by
        show (cache_read s addr rnd).2.cache = _
        rw [cache_read_hit s addr rnd k hh]; rfl
      rw [e]
      simp [Op.is_write]
    | write addr data wmask rnd =>
      have hs := wf_set_id_lt s h addr
      have hj : k < (s.cache.getD (set_id s addr) []).length := by
        rw [h.rows _ hs]; exact (hit_row_lt s addr k hh).1
      have hi' : set_id s addr = i := hi
      have e : get_row (step s (Op.write addr data wmask rnd)).cache i k =
          block_write { get_row s.cache i k with dirty := true } (block_offset addr) data wmask := by
        show get_row (cache_write s addr data wmask rnd).cache i k = _
        rw [cache_write_hit_cache s addr data wmask rnd k h hh, ← hi']
        exact get_row_set_row_eq _ _ _ _ hs hj
      rw [e]
      obtain ⟨f1, f2, f3, _⟩ := block_write_flags
        { get_row s.cache i k with dirty := true } (block_offset addr) data wmask
      rw [f1, f2, f3]
      simp [Op.is_write]

theorem run_keeps_dirty (sid w T : Nat) (ops : List Op) :
    ∀ s : CacheState, WellFormed s →
      (get_row s.cache sid w).dirty = true → (get_row s.cache sid w).tag = T →
      RunAvoids (evicts sid w) s ops →
      (get_row (run s ops).cache sid w).dirty = true ∧ (get_row (run s ops).cache sid w).tag = T := by
  induction ops with
  | nil => intro s _ hd ht _; exact ⟨hd, ht⟩
  | cons op ops ih =>
    intro s hwf hd ht hrun
    obtain ⟨hno, hrest⟩ := hrun
    have key : (get_row (step s op).cache sid w).dirty = true ∧
        (get_row (step s op).cache sid w).tag = T := by
      by_cases hacc : accessed s op = (sid, w)
      · have hhit : hit_row s op.addr ≠ none := fun hn => hno ⟨hn, hacc⟩
        obtain ⟨e1, _, e3⟩ := step_hit_row s op sid w hwf hacc hhit
        rw [e1, e3, hd]
        exact ⟨by simp, ht⟩
      · rw [step_other_rows s op sid w hwf hacc]
        exact ⟨hd, ht⟩
    exact ih (step s op) (wf_step s op hwf) key.1 key.2 hrest

theorem step_clean_row (s : CacheState) (op : Op) (i j : Nat) (h : WellFormed s)
    (hc : (get_row s.cache i j).dirty = false) (hno : ¬ writes_line i j s op) :
    (get_row (step s op).cache i j).dirty = false := by
  by_cases hacc : accessed s op = (i, j)
  · cases op with
    | write addr data wmask rnd => exact absurd ⟨rfl, hacc⟩ hno
    | read addr rnd =>
      cases hh : hit_row s addr with
      | some k =>
        have e : (step s (Op.read addr rnd)).cache = s.cache := by
          show (cache_read s addr rnd).2.cache = _
          rw [cache_read_hit s addr rnd k hh]; rfl
        rw [e]; exact hc
      | none =>
        have hs := wf_set_id_lt s h addr
        have hj : rnd % s.row_num.toNat < (s.cache.getD (set_id s addr) []).length := by
          rw [h.rows _ hs]; exact wf_victim_lt s h rnd
        rw [accessed_eq_miss s (Op.read addr rnd) hh] at hacc
        have hi : set_id s addr = i := congrArg Prod.fst hacc
        have hk : rnd % s.row_num.toNat = j := congrArg Prod.snd hacc
        show (get_row (cache_read s addr rnd).2.cache i j).dirty = false
        rw [cache_read_miss_cache s addr rnd h hh, ← hi, ← hk,
          get_row_set_row_eq _ _ _ _ hs hj]
  · rw [step_other_rows s op i j h hacc]
    exact hc

theorem run_keeps_clean (sid w : Nat) (ops : List Op) :
    ∀ s : CacheState, WellFormed s → (get_row s.cache sid w).dirty = false →
      RunAvoids (writes_line sid w) s ops →
      (get_row (run s ops).cache sid w).dirty = false := by
  induction ops with
  | nil => intro s _ hd _; exact hd
  | cons op ops ih =>
    intro s hwf hd hrun
    obtain ⟨hno, hrest⟩ := hrun
    exact ih (step s op) (wf_step s op hwf) (step_clean_row s op sid w hwf hd hno) hrest

/-! ### Statistics -/

theorem getD_eq_getElem {α : Type} (l : List α) (i : Nat) (d : α) (h : i < l.length) :
    l.getD i d = l[i] := by
  simp [List.getD_eq_getElem?_getD, List.getElem?_eq_getElem h]

theorem hit_row_isSome (s : CacheState) (addr : Nat) (h : WellFormed s) :
    (hit_row s addr).isSome = set_has_match s addr := by
  have hs := wf_set_id_lt s h addr
  have hlen := h.rows _ hs
  cases hh : hit_row s addr with
  | some i =>
    obtain ⟨hi, hm, _⟩ := hit_row_lt s addr i hh
    have hi' : i < (s.cache.getD (set_id s addr) []).length := by rw [hlen]; exact hi
    symm
    simp only [Option.isSome_some]
    unfold set_has_match
    rw [List.any_eq_true]
    refine ⟨(s.cache.getD (set_id s addr) [])[i], List.getElem_mem _, ?_⟩
    have e : get_row s.cache (set_id s addr) i = (s.cache.getD (set_id s addr) [])[i] :=
      getD_eq_getElem _ _ _ hi'
    rw [← e]
    simp [hm.1, hm.2]
  | none =>
    have hn := hit_row_none s addr hh
    symm
    simp only [Option.isSome_none]
    unfold set_has_match
    rw [Bool.eq_false_iff]
    intro hany
    rw [List.any_eq_true] at hany
    obtain ⟨r, hr, hp⟩ := hany
    obtain ⟨k, hk, hrk⟩ := List.getElem_of_mem hr
    have e : get_row s.cache (set_id s addr) k = r := by
      rw [← hrk]; exact getD_eq_getElem _ _ _ hk
    apply hn k (by rw [← hlen]; exact hk)
    unfold Matches
    rw [e]
    simpa using hp

theorem step_counters (s : CacheState) (op : Op) :
    (step s op).try_count = s.try_count + 1 ∧
    (step s op).hit_count = s.hit_count + (if (hit_row s op.addr).isSome then 1 else 0) := by
  cases op with
  | read addr rnd =>
    show (cache_read s addr rnd).2.try_count = _ ∧ (cache_read s addr rnd).2.hit_count = _
    cases hh : hit_row s addr with
    | some i =>
      rw [cache_read_hit s addr rnd i hh]
      simp [Op.addr, hh, hit_increase, try_increase]
    | none =>
      rw [cache_read_miss s addr rnd hh]
      obtain ⟨_, _, _, _, c5, c6⟩ := replace_config s (addr_temp addr >>> BLOCK_WIDTH)
        (set_id s addr) rnd
      simp [Op.addr, hh, try_increase, c5, c6]
  | write addr data wmask rnd =>
    show (cache_write s addr data wmask rnd).try_count = _ ∧
      (cache_write s addr data wmask rnd).hit_count = _
    cases hh : hit_row s addr with
    | some i =>
      rw [cache_write_hit s addr data wmask rnd i hh]
      simp [Op.addr, hh, hit_increase, try_increase, mark_and_write]
    | none =>
      rw [cache_write_miss s addr data wmask rnd hh]
      obtain ⟨_, _, _, _, c5, c6⟩ := replace_config s (addr_temp addr >>> BLOCK_WIDTH)
        (set_id s addr) rnd
      simp [Op.addr, hh, try_increase, mark_and_write, c5, c6]

/-! ### Reading twice, and the fresh store -/

theorem cache_read_miss_line (s : CacheState) (addr rnd : Nat)
    (h : WellFormed s) (hh : hit_row s addr = none) :
    hit_row (cache_read s addr rnd).2 addr = some (rnd % s.row_num.toNat) ∧
    get_row (cache_read s addr rnd).2.cache (set_id s addr) (rnd % s.row_num.toNat) =
      ⟨true, false, tag_of s addr,
        (replace s (addr_temp addr >>> BLOCK_WIDTH) (set_id s addr) rnd).2.mem
          (addr_temp addr >>> BLOCK_WIDTH)⟩ := by
  obtain ⟨c1, _, c3, c4⟩ := cache_read_config s addr rnd
  rw [hit_row_congr s _ addr c1 c3 c4]
  have hs := wf_set_id_lt s h addr
  have hw := wf_victim_lt s h rnd
  have hj : rnd % s.row_num.toNat < (s.cache.getD (set_id s addr) []).length := by
    rw [h.rows _ hs]; exact hw
  have hnone := hit_row_none s addr hh
  rw [cache_read_miss_cache s addr rnd h hh]
  constructor
  · apply set_row_matches_first _ _ _ _ _ _ hs hj hw rfl rfl
    intro m hm
    exact hnone m (by omega)
  · exact get_row_set_row_eq _ _ _ _ hs hj

theorem cache_read_twice (s : CacheState) (addr rnd rnd' : Nat) (h : WellFormed s) :
    (hit_row (cache_read s addr rnd).2 addr).isSome = true ∧
    cache_read (cache_read s addr rnd).2 addr rnd' =
      ((cache_read s addr rnd).1, hit_increase (try_increase (cache_read s addr rnd).2 1) 1) := by
  have hsid : set_id (cache_read s addr rnd).2 addr = set_id s addr :=
    set_id_congr s _ addr (cache_read_config s addr rnd).2.2.1
  cases hh : hit_row s addr with
  | some i =>
    have h1 : hit_row (cache_read s addr rnd).2 addr = some i := by
      rw [cache_read_hit s addr rnd i hh]; exact hh
    refine ⟨by rw [h1]; rfl, ?_⟩
    rw [cache_read_hit _ addr rnd' i h1, hsid]
    rw [cache_read_hit s addr rnd i hh]
    rfl
  | none =>
    obtain ⟨h1, h2⟩ := cache_read_miss_line s addr rnd h hh
    refine ⟨by rw [h1]; rfl, ?_⟩
    rw [cache_read_hit _ addr rnd' _ h1, hsid, h2, cache_read_miss_value s addr rnd h hh]

theorem init_cache_fresh (t a : Int) (heap : Nat → Nat → Nat → Nat) (s0 s : CacheState)
    (hc : valid_config t a) (h : init_cache t a heap s0 = some s) :
    ∀ i < s.group_num.toNat, ∀ j < s.row_num.toNat,
      get_row s.cache i j = fresh_row (heap i j) := by
  obtain ⟨ha, ht, ht'⟩ := hc
  rw [init_cache_some t a heap s0 ha (by omega) ht (by omega)] at h
  have hs := Option.some.inj h
  subst hs
  intro i hi j hj
  have hi' : i < 2 ^ (t - 6 - a).toNat := by
    have e : Int.toNat (2 ^ (t - 6 - a).toNat) = 2 ^ (t - 6 - a).toNat := pow_two_toNat _
    exact e ▸ hi
  have hj' : j < 2 ^ a.toNat := by
    have e : Int.toNat (2 ^ a.toNat) = 2 ^ a.toNat := pow_two_toNat _
    exact e ▸ hj
  show get_row ((List.range (2 ^ (t - 6 - a).toNat)).map fun i =>
    (List.range (2 ^ a.toNat)).map fun j => fresh_row (heap i j)) i j = _
  unfold get_row
  rw [getD_map_range _ _ _ _ hi', getD_map_range _ _ _ _ hj']

theorem init_cache_miss (t a : Int) (heap : Nat → Nat → Nat → Nat) (s0 s : CacheState)
    (hc : valid_config t a) (hm : MemOk s0.mem) (h : init_cache t a heap s0 = some s)
    (addr : Nat) : hit_row s addr = none := by
  have hwf := (init_cache_inv t a heap s0 s hc hm h).wf
  have hs := wf_set_id_lt s hwf addr
  rw [hwf.sets] at hs
  apply (find_row_none _ _ _ _ _).2
  intro m _ hm2 hmatch
  have e := init_cache_fresh t a heap s0 s hc h _ hs m (by omega)
  unfold Matches at hmatch
  rw [e] at hmatch
  exact absurd hmatch.1 (by simp [fresh_row])

theorem init_cache_mem (t a : Int) (heap : Nat → Nat → Nat → Nat) (s0 s : CacheState)
    (h : init_cache t a heap s0 = some s) :
    s.mem = s0.mem ∧ s.mem_calls = s0.mem_calls ∧ s.try_count = s0.try_count ∧
      s.hit_count = s0.hit_count := by
  unfold init_cache at h
  simp only [Option.bind_eq_some] at h
  obtain ⟨_, _, _, _, _, _, _, _, _, _, h⟩ := h
  have hs := Option.some.inj h
  subst hs
  exact ⟨rfl, rfl, rfl, rfl⟩

/-! ### Memory traffic and alignment -/

theorem mark_and_write_mem (s : CacheState) (sid i off data wmask : Nat) :
    (mark_and_write s sid i off data wmask).mem = s.mem ∧
    (mark_and_write s sid i off data wmask).mem_calls = s.mem_calls := ⟨rfl, rfl⟩

theorem hit_mem (s : CacheState) (addr data wmask rnd i : Nat) (hh : hit_row s addr = some i) :
    ((cache_read s addr rnd).2.mem = s.mem ∧ (cache_read s addr rnd).2.mem_calls = s.mem_calls) ∧
    ((cache_write s addr data wmask rnd).mem = s.mem ∧
      (cache_write s addr data wmask rnd).mem_calls = s.mem_calls) := by
  rw [cache_read_hit s addr rnd i hh, cache_write_hit s addr data wmask rnd i hh]
  exact ⟨⟨rfl, rfl⟩, ⟨rfl, rfl⟩⟩

theorem miss_mem (s : CacheState) (addr data wmask rnd : Nat) (hh : hit_row s addr = none) :
    ((cache_read s addr rnd).2.mem
        = (replace s (addr_temp addr >>> BLOCK_WIDTH) (set_id s addr) rnd).2.mem ∧
      (cache_read s addr rnd).2.mem_calls
        = (replace s (addr_temp addr >>> BLOCK_WIDTH) (set_id s addr) rnd).2.mem_calls) ∧
    ((cache_write s addr data wmask rnd).mem
        = (replace s (addr_temp addr >>> BLOCK_WIDTH) (set_id s addr) rnd).2.mem ∧
      (cache_write s addr data wmask rnd).mem_calls
        = (replace s (addr_temp addr >>> BLOCK_WIDTH) (set_id s addr) rnd).2.mem_calls) := by
  rw [cache_read_miss s addr rnd hh, cache_write_miss s addr data wmask rnd hh]
  exact ⟨⟨rfl, rfl⟩, ⟨rfl, rfl⟩⟩

theorem and_mask_idem (addr : Nat) : addr_temp (addr &&& 0xFFFFFFFC) = addr_temp addr := by
  unfold addr_temp
  have h1 : (addr &&& 0xFFFFFFFC) % 2 ^ 32 = addr &&& 0xFFFFFFFC :=
    Nat.mod_eq_of_lt (lt_of_le_of_lt Nat.and_le_right (by norm_num))
  have h2 : addr % 2 ^ 32 = addr &&& (2 ^ 32 - 1) := (Nat.and_pow_two_sub_one_eq_mod addr 32).symm
  have h3 : ((2 ^ 32 - 1) &&& 0xFFFFFFFC : Nat) = 0xFFFFFFFC := by decide
  rw [h1, h2, Nat.and_assoc, Nat.and_assoc, Nat.and_self, h3]

theorem addr_temp_eq_arith (addr : Nat) : addr_temp addr = addr % 2 ^ 32 / 4 * 4 := by
  have h0 := addr_temp_mod_four addr
  have hlt : addr % 2 ^ 32 < 2 ^ 32 := Nat.mod_lt _ (by norm_num)
  have h1 : addr_temp addr >>> 2 = (addr % 2 ^ 32) >>> 2 := by
    unfold addr_temp
    rw [shiftRight_and]
    have e : (0xFFFFFFFC >>> 2 : Nat) = 2 ^ 30 - 1 := by decide
    rw [e]
    apply Nat.and_pow_two_sub_one_of_lt_two_pow
    rw [Nat.shiftRight_eq_div_pow]
    norm_num at hlt ⊢
    omega
  rw [Nat.shiftRight_eq_div_pow, Nat.shiftRight_eq_div_pow] at h1
  norm_num at h1
  omega

theorem sub_mod_four_idem (addr : Nat) : addr_temp (addr - addr % 4) = addr_temp addr := by
  rw [addr_temp_eq_arith, addr_temp_eq_arith]
  norm_num
  omega

theorem cache_read_congr (s : CacheState) (a b rnd : Nat) (h : addr_temp a = addr_temp b) :
    cache_read s a rnd = cache_read s b rnd := by
  unfold cache_read hit_row set_id tag_of block_offset
  simp only [h]

theorem cache_write_congr (s : CacheState) (a b data wmask rnd : Nat)
    (h : addr_temp a = addr_temp b) :
    cache_write s a data wmask rnd = cache_write s b data wmask rnd := by
  unfold cache_write hit_row set_id tag_of block_offset
  simp only [h]

/-- C1 (write/read round trip): in a well-formed state, for every address,
every 32-bit `data` and every victim choice, a `cache_write` with the full
mask followed at once by a `cache_read` of the same address returns `data`, and
that read is a hit: it finds a matching line, makes no call to the backing
memory, leaves the store as it is and counts one access and one hit. -/
theorem write_read_round_trip (s : CacheState) (addr data rnd rnd' : Nat)
    (hwf : WellFormed s) (hd : data < 2 ^ 32) :
    (cache_read (cache_write s addr data 0xFFFFFFFF rnd) addr rnd').1 = data ∧
    (hit_row (cache_write s addr data 0xFFFFFFFF rnd) addr).isSome = true ∧
    (cache_read (cache_write s addr data 0xFFFFFFFF rnd) addr rnd').2 =
      hit_increase (try_increase (cache_write s addr data 0xFFFFFFFF rnd) 1) 1 := by
  have hm : (0xFFFFFFFF : Nat) < 2 ^ 32 := by norm_num
  cases hh : hit_row s addr with
  | some i =>
    obtain ⟨h1, h2⟩ := cache_write_hit_line s addr data 0xFFFFFFFF rnd i hwf hh
    have hL : ({ get_row s.cache (set_id s addr) i with dirty := true } : CacheRow).data.length
        = BLOCK_SIZE :=
      hwf.data_len _ (wf_set_id_lt s hwf addr) i (hit_row_lt s addr i hh).1
    have e := round_trip_aux s addr data 0xFFFFFFFF rnd rnd' i _ hm hL h1 h2
    rw [e, h1]
    exact ⟨full_mask_merge _ data hd, rfl, rfl⟩
  | none =>
    obtain ⟨h1, h2⟩ := cache_write_miss_line s addr data 0xFFFFFFFF rnd hwf hh
    have hL := (wf_replace_mem s (addr_temp addr >>> BLOCK_WIDTH) (set_id s addr)
      rnd hwf (wf_set_id_lt s hwf addr) (addr_temp addr >>> BLOCK_WIDTH)).1
    have e := round_trip_aux s addr data 0xFFFFFFFF rnd rnd' _
      ⟨true, true, tag_of s addr, _⟩ hm hL h1 h2
    rw [e, h1]
    exact ⟨full_mask_merge _ data hd, rfl, rfl⟩

/-- Witness of C1 on the two-by-two cache: the word `7` written at `0x44` is
read back. -/
theorem write_read_round_trip_witness :
    WellFormed sample_state ∧ (7 : Nat) < 2 ^ 32 ∧
    (cache_read (cache_write sample_state 0x44 7 0xFFFFFFFF 3) 0x44 5).1 = 7 ∧
    (hit_row (cache_write sample_state 0x44 7 0xFFFFFFFF 3) 0x44).isSome = true ∧
    (cache_read (cache_write sample_state 0x44 7 0xFFFFFFFF 3) 0x44 5).2 =
      hit_increase (try_increase (cache_write sample_state 0x44 7 0xFFFFFFFF 3) 1) 1 :=
  ⟨sample_wf, by norm_num, write_read_round_trip sample_state 0x44 7 3 5 sample_wf (by norm_num)⟩

/-- C2 (masked write): in a reachable state, for every address, data, 32-bit
write mask and victim choices, if `old` is the word `cache_read` would return,
then `cache_write` followed by `cache_read` of the same address returns
`(old & ~wmask) | (data & wmask)`, where `~wmask` is `0xFFFFFFFF - wmask`.  In particular, after writing `0xABCD1234`
under the mask `0x0000FFFF`, the low 16 bits read back as `0x1234` and the high
16 bits are those of the word before the write. -/
theorem masked_write (s : CacheState) (addr data wmask rnd0 rnd rnd' : Nat)
    (hr : Reachable s) (hm : wmask < 2 ^ 32) :
    (cache_read (cache_write s addr data wmask rnd) addr rnd').1 =
      ((cache_read s addr rnd0).1 &&& (0xFFFFFFFF - wmask)) ||| (data &&& wmask) ∧
    (cache_read (cache_write s addr 0xABCD1234 0x0000FFFF rnd) addr rnd').1 &&& 0xFFFF
      = 0x1234 ∧
    (cache_read (cache_write s addr 0xABCD1234 0x0000FFFF rnd) addr rnd').1 >>> 16
      = (cache_read s addr rnd0).1 >>> 16 := by
  have hi := reachable_inv s hr
  refine ⟨by rw [← not32_of_lt wmask hm]; exact merge_after_write s addr data wmask rnd0 rnd rnd' hi hm,
    ?_⟩
  rw [merge_after_write s addr 0xABCD1234 0x0000FFFF rnd0 rnd rnd' hi (by norm_num)]
  exact half_word_merge _ (cache_read_lt s addr rnd0 hi.wf)

/-- Witness of C2 on the two-by-two cache, at address `0x44` with the mask
`0x00FF00FF`. -/
theorem masked_write_witness :
    Reachable sample_state ∧ (0x00FF00FF : Nat) < 2 ^ 32 ∧
    ((cache_read (cache_write sample_state 0x44 0x11223344 0x00FF00FF 3) 0x44 5).1 =
      ((cache_read sample_state 0x44 1).1 &&& (0xFFFFFFFF - 0x00FF00FF))
        ||| (0x11223344 &&& 0x00FF00FF) ∧
    (cache_read (cache_write sample_state 0x44 0xABCD1234 0x0000FFFF 3) 0x44 5).1 &&& 0xFFFF
      = 0x1234 ∧
    (cache_read (cache_write sample_state 0x44 0xABCD1234 0x0000FFFF 3) 0x44 5).1 >>> 16
      = (cache_read sample_state 0x44 1).1 >>> 16) :=
  ⟨sample_reachable, by norm_num,
    masked_write sample_state 0x44 0x11223344 0x00FF00FF 1 3 5 sample_reachable (by norm_num)⟩

/-- C3 (decomposition correctness): after `init_cache` with
`6 + associativity_width ≤ total_size_width ≤ 31`, and after any run of
requests, for every 32-bit address the block offset, set index and tag that
`cache_read` / `cache_write` compute satisfy
`block_offset + (set_id << BLOCK_WIDTH) + (tag << (BLOCK_WIDTH + group_id_width))
= addr & ~0x3`. -/
theorem decomposition_correct (t a : Int) (heap : Nat → Nat → Nat → Nat) (s0 s : CacheState)
    (ops : List Op) (addr : Nat) (hinit : init_cache t a heap s0 = some s)
    (h1 : 6 + a ≤ t) (h2 : t ≤ 31) (haddr : addr < 2 ^ 32) :
    block_offset addr + (set_id (run s ops) addr <<< BLOCK_WIDTH)
      + (tag_of (run s ops) addr <<< (BLOCK_WIDTH + (run s ops).group_id_width.toNat))
      = addr &&& 0xFFFFFFFC := by
  have ha := init_cache_assoc_nonneg t a heap s0 s hinit
  rw [init_cache_some t a heap s0 ha (by omega) h1 (by omega)] at hinit
  have hs := Option.some.inj hinit
  have hg : s.group_id_width = t - 6 - a := by rw [← hs]
  have hw : s.tag_width = 32 - 6 - (t - 6 - a) := by rw [← hs]
  obtain ⟨_, _, c3, c4⟩ := run_config ops s
  rw [← addr_temp_of_lt addr haddr]
  apply widths_decomposition
  · rw [c3, hg]; omega
  · rw [c3, hg]; omega
  · rw [c4, c3, hw, hg]

/-- Witness of C3: the two-by-two cache after a write and a read, at the
unaligned address `0x12345677`. -/
theorem decomposition_correct_witness :
    init_cache 8 1 sample_heap blank_state = some sample_state ∧
    (6 : Int) + 1 ≤ 8 ∧ (8 : Int) ≤ 31 ∧ 0x12345677 < 2 ^ 32 ∧
    block_offset 0x12345677
      + (set_id (run sample_state [Op.write 0x44 7 0xFF 0, Op.read 0x1044 1]) 0x12345677
          <<< BLOCK_WIDTH)
      + (tag_of (run sample_state [Op.write 0x44 7 0xFF 0, Op.read 0x1044 1]) 0x12345677
          <<< (BLOCK_WIDTH
            + (run sample_state [Op.write 0x44 7 0xFF 0, Op.read 0x1044 1]).group_id_width.toNat))
      = 0x12345677 &&& 0xFFFFFFFC :=
  ⟨sample_init, by decide, by decide, by decide,
    decomposition_correct 8 1 sample_heap blank_state sample_state
      [Op.write 0x44 7 0xFF 0, Op.read 0x1044 1] 0x12345677 sample_init (by decide) (by decide)
      (by decide)⟩

/-- C4 (dirty propagation): in a reachable state, let `(set_id, w)` be the line
a `cache_write` to the 32-bit address `addr` accesses.  After the write that
line holds `addr`'s block and is dirty.  After any further run in which no
request evicts that line, a `replace` that selects it as victim makes exactly
one `mem_write` call (followed by the `mem_read` of the new block): its block
number `(tag << group_id_width) + set_id` is `addr >> BLOCK_WIDTH`, and its
buffer is the data of the line at that moment. -/
theorem dirty_propagation (s : CacheState) (addr data wmask rnd : Nat) (ops : List Op)
    (bn rnd' : Nat) (hr : Reachable s) (haddr : addr < 2 ^ 32)
    (hrun : RunAvoids (evicts (set_id s addr) (accessed s (Op.write addr data wmask rnd)).2)
      (cache_write s addr data wmask rnd) ops)
    (hsel : rnd' % s.row_num.toNat = (accessed s (Op.write addr data wmask rnd)).2) :
    hit_row (cache_write s addr data wmask rnd) addr
      = some (accessed s (Op.write addr data wmask rnd)).2 ∧
    (get_row (cache_write s addr data wmask rnd).cache (set_id s addr)
      (accessed s (Op.write addr data wmask rnd)).2).dirty = true ∧
    ((get_row (run (cache_write s addr data wmask rnd) ops).cache (set_id s addr)
        (accessed s (Op.write addr data wmask rnd)).2).tag <<< s.group_id_width.toNat
      + set_id s addr) % 2 ^ 32 = addr >>> BLOCK_WIDTH ∧
    (replace (run (cache_write s addr data wmask rnd) ops) bn (set_id s addr) rnd').2.mem_calls
      = (run (cache_write s addr data wmask rnd) ops).mem_calls ++
        [MemEvent.write (addr >>> BLOCK_WIDTH)
          (get_row (run (cache_write s addr data wmask rnd) ops).cache (set_id s addr)
            (accessed s (Op.write addr data wmask rnd)).2).data,
         MemEvent.read bn] := by
  have hinv := reachable_inv s hr
  have hwf := hinv.wf
  have hwf1 := wf_cache_write s addr data wmask rnd hwf
  -- the line after the write
  have hline : hit_row (cache_write s addr data wmask rnd) addr
        = some (accessed s (Op.write addr data wmask rnd)).2 ∧
      (get_row (cache_write s addr data wmask rnd).cache (set_id s addr)
        (accessed s (Op.write addr data wmask rnd)).2).dirty = true ∧
      (get_row (cache_write s addr data wmask rnd).cache (set_id s addr)
        (accessed s (Op.write addr data wmask rnd)).2).tag = tag_of s addr := by
    cases hh : hit_row s addr with
    | some i =>
      have ha : (accessed s (Op.write addr data wmask rnd)).2 = i := by
        rw [accessed_eq_hit s (Op.write addr data wmask rnd) i hh]
      obtain ⟨h1, h2⟩ := cache_write_hit_line s addr data wmask rnd i hwf hh
      rw [ha, h2]
      obtain ⟨_, f2, f3, _⟩ := block_write_flags
        { get_row s.cache (set_id s addr) i with dirty := true } (block_offset addr) data wmask
      exact ⟨h1, f2, f3.trans (hit_row_lt s addr i hh).2.1.2⟩
    | none =>
      have ha : (accessed s (Op.write addr data wmask rnd)).2 = rnd % s.row_num.toNat := by
        rw [accessed_eq_miss s (Op.write addr data wmask rnd) hh]; rfl
      obtain ⟨h1, h2⟩ := cache_write_miss_line s addr data wmask rnd hwf hh
      rw [ha, h2]
      obtain ⟨_, f2, f3, _⟩ := block_write_flags
        ⟨true, true, tag_of s addr, (replace s (addr_temp addr >>> BLOCK_WIDTH) (set_id s addr)
          rnd).2.mem (addr_temp addr >>> BLOCK_WIDTH)⟩ (block_offset addr) data wmask
      exact ⟨h1, f2, f3⟩
  obtain ⟨hl1, hl2, hl3⟩ := hline
  -- the line when it is evicted
  obtain ⟨hd, ht⟩ := run_keeps_dirty (set_id s addr) _ (tag_of s addr) ops
    (cache_write s addr data wmask rnd) hwf1 hl2 hl3 hrun
  obtain ⟨c1, _, c3, _⟩ := cache_write_config s addr data wmask rnd
  obtain ⟨r1, _, r3, _⟩ := run_config ops (cache_write s addr data wmask rnd)
  have hblk : ((get_row (run (cache_write s addr data wmask rnd) ops).cache (set_id s addr)
        (accessed s (Op.write addr data wmask rnd)).2).tag <<< s.group_id_width.toNat
      + set_id s addr) % 2 ^ 32 = addr >>> BLOCK_WIDTH := by
    rw [ht, write_back_block s hwf _ _ (set_id_lt s addr), ← wf_block_num_eq s hwf addr,
      addr_temp_shift addr haddr]
    rw [← wf_block_num_tag s hwf addr]
    exact wf_tag_lt s hwf _ (block_num_lt addr)
  refine ⟨hl1, hl2, hblk, ?_⟩
  have hsel' : rnd' % (run (cache_write s addr data wmask rnd) ops).row_num.toNat
      = (accessed s (Op.write addr data wmask rnd)).2 := by
    rw [r1, c1]; exact hsel
  have hd' : (get_row (run (cache_write s addr data wmask rnd) ops).cache (set_id s addr)
      (rnd' % (run (cache_write s addr data wmask rnd) ops).row_num.toNat)).dirty = true := by
    rw [hsel']; exact hd
  rw [(replace_mem_dirty _ bn (set_id s addr) rnd' hd').2, hsel', r3, c3, hblk]

/-- Witness of C4 on the two-by-two cache: the line `(1, 1)` is written, then
read, another line of the set is written, and the line is evicted. -/
theorem dirty_propagation_witness :
    Reachable sample_state ∧ 0x44 < 2 ^ 32 ∧
    RunAvoids (evicts (set_id sample_state 0x44)
        (accessed sample_state (Op.write 0x44 7 0xFF 3)).2)
      (cache_write sample_state 0x44 7 0xFF 3) [Op.read 0x44 0, Op.write 0x1040 1 0xFF 0] ∧
    5 % sample_state.row_num.toNat = (accessed sample_state (Op.write 0x44 7 0xFF 3)).2 ∧
    (hit_row (cache_write sample_state 0x44 7 0xFF 3) 0x44
      = some (accessed sample_state (Op.write 0x44 7 0xFF 3)).2 ∧
    (get_row (cache_write sample_state 0x44 7 0xFF 3).cache (set_id sample_state 0x44)
      (accessed sample_state (Op.write 0x44 7 0xFF 3)).2).dirty = true ∧
    ((get_row (run (cache_write sample_state 0x44 7 0xFF 3)
          [Op.read 0x44 0, Op.write 0x1040 1 0xFF 0]).cache (set_id sample_state 0x44)
        (accessed sample_state (Op.write 0x44 7 0xFF 3)).2).tag
          <<< sample_state.group_id_width.toNat
      + set_id sample_state 0x44) % 2 ^ 32 = 0x44 >>> BLOCK_WIDTH ∧
    (replace (run (cache_write sample_state 0x44 7 0xFF 3)
        [Op.read 0x44 0, Op.write 0x1040 1 0xFF 0]) 9 (set_id sample_state 0x44) 5).2.mem_calls
      = (run (cache_write sample_state 0x44 7 0xFF 3)
          [Op.read 0x44 0, Op.write 0x1040 1 0xFF 0]).mem_calls ++
        [MemEvent.write (0x44 >>> BLOCK_WIDTH)
          (get_row (run (cache_write sample_state 0x44 7 0xFF 3)
            [Op.read 0x44 0, Op.write 0x1040 1 0xFF 0]).cache (set_id sample_state 0x44)
            (accessed sample_state (Op.write 0x44 7 0xFF 3)).2).data,
         MemEvent.read 9]) :=
  ⟨sample_reachable, by decide, by simp only [RunAvoids, evicts]; decide, by decide,
    dirty_propagation sample_state 0x44 7 0xFF 3 [Op.read 0x44 0, Op.write 0x1040 1 0xFF 0] 9 5
      sample_reachable (by decide) (by simp only [RunAvoids, evicts]; decide) (by decide)⟩

/-- C5 (clean eviction): in a reachable state, let a `cache_read` miss allocate
a line.  After any further run in which no `cache_write` accesses that line
(reads may hit it, and other lines may be read, written and replaced), a
`replace` that selects the line as victim makes no `mem_write` call: the
backing memory is unchanged and the only memory call is the `mem_read` of the
new block. -/
theorem clean_eviction (s : CacheState) (addr rnd : Nat) (ops : List Op) (bn rnd' : Nat)
    (hr : Reachable s) (hmiss : hit_row s addr = none)
    (hrun : RunAvoids (writes_line (set_id s addr) (rnd % s.row_num.toNat))
      (cache_read s addr rnd).2 ops)
    (hsel : rnd' % s.row_num.toNat = rnd % s.row_num.toNat) :
    (replace (run (cache_read s addr rnd).2 ops) bn (set_id s addr) rnd').2.mem
      = (run (cache_read s addr rnd).2 ops).mem ∧
    (replace (run (cache_read s addr rnd).2 ops) bn (set_id s addr) rnd').2.mem_calls
      = (run (cache_read s addr rnd).2 ops).mem_calls ++ [MemEvent.read bn] := by
  have hwf := (reachable_inv s hr).wf
  have hwf1 := wf_cache_read s addr rnd hwf
  have hs := wf_set_id_lt s hwf addr
  have hj : rnd % s.row_num.toNat < (s.cache.getD (set_id s addr) []).length := by
    rw [hwf.rows _ hs]; exact wf_victim_lt s hwf rnd
  have h0 : (get_row (cache_read s addr rnd).2.cache (set_id s addr)
      (rnd % s.row_num.toNat)).dirty = false := by
    rw [cache_read_miss_cache s addr rnd hwf hmiss, get_row_set_row_eq _ _ _ _ hs hj]
  have hc := run_keeps_clean (set_id s addr) (rnd % s.row_num.toNat) ops
    (cache_read s addr rnd).2 hwf1 h0 hrun
  obtain ⟨c1, _, _, _⟩ := cache_read_config s addr rnd
  obtain ⟨r1, _, _, _⟩ := run_config ops (cache_read s addr rnd).2
  apply replace_mem_clean
  rw [r1, c1, hsel]
  exact hc

/-- Witness of C5 on the two-by-two cache: the line `(1, 1)` is allocated by a
read miss, read again, another line of the set is written, and the line is
evicted. -/
theorem clean_eviction_witness :
    Reachable sample_state ∧ hit_row sample_state 0x44 = none ∧
    RunAvoids (writes_line (set_id sample_state 0x44) (3 % sample_state.row_num.toNat))
      (cache_read sample_state 0x44 3).2 [Op.read 0x48 0, Op.write 0x1040 1 0xFF 0] ∧
    5 % sample_state.row_num.toNat = 3 % sample_state.row_num.toNat ∧
    ((replace (run (cache_read sample_state 0x44 3).2
        [Op.read 0x48 0, Op.write 0x1040 1 0xFF 0]) 9 (set_id sample_state 0x44) 5).2.mem
      = (run (cache_read sample_state 0x44 3).2 [Op.read 0x48 0, Op.write 0x1040 1 0xFF 0]).mem ∧
    (replace (run (cache_read sample_state 0x44 3).2
        [Op.read 0x48 0, Op.write 0x1040 1 0xFF 0]) 9 (set_id sample_state 0x44) 5).2.mem_calls
      = (run (cache_read sample_state 0x44 3).2
          [Op.read 0x48 0, Op.write 0x1040 1 0xFF 0]).mem_calls ++ [MemEvent.read 9]) :=
  ⟨sample_reachable, by decide, by simp only [RunAvoids, writes_line]; decide, by decide,
    clean_eviction sample_state 0x44 3 [Op.read 0x48 0, Op.write 0x1040 1 0xFF 0] 9 5
      sample_reachable (by decide) (by simp only [RunAvoids, writes_line]; decide) (by decide)⟩

/-- C6 (statistics accounting): from a well-formed state, a sequence of `N`
`cache_read` / `cache_write` calls increases the access counter by exactly `N`
and the hit counter by exactly the number of calls for which, when they are
made, the addressed set contains a valid line whose tag is the decoded tag. -/
theorem statistics_accounting (ops : List Op) (s : CacheState) (h : WellFormed s) :
    (run s ops).try_count = s.try_count + ops.length ∧
    (run s ops).hit_count = s.hit_count + count_matches s ops := by
  induction ops generalizing s with
  | nil => exact ⟨rfl, rfl⟩
  | cons op ops ih =>
    obtain ⟨i1, i2⟩ := ih (step s op) (wf_step s op h)
    obtain ⟨s1, s2⟩ := step_counters s op
    rw [hit_row_isSome s op.addr h] at s2
    show (run (step s op) ops).try_count = _ ∧ (run (step s op) ops).hit_count = _
    rw [i1, i2, s1, s2]
    simp only [List.length_cons, count_matches]
    constructor <;> omega

/-- Witness of C6 on the two-by-two cache: five requests, two of which hit. -/
theorem statistics_accounting_witness :
    WellFormed sample_state ∧
    ((run sample_state [Op.read 0x44 0, Op.write 0x48 1 0xFF 0, Op.read 0x1044 0,
        Op.read 0x44 1, Op.read 0x1048 1]).try_count = sample_state.try_count + 5 ∧
      (run sample_state [Op.read 0x44 0, Op.write 0x48 1 0xFF 0, Op.read 0x1044 0,
        Op.read 0x44 1, Op.read 0x1048 1]).hit_count = sample_state.hit_count + 2) :=
  ⟨sample_wf, statistics_accounting [Op.read 0x44 0, Op.write 0x48 1 0xFF 0, Op.read 0x1044 0,
    Op.read 0x44 1, Op.read 0x1048 1] sample_state sample_wf⟩

/-- C7 (scenario): over a backing memory of 64-byte blocks, `init_cache(10, 1)`
gives a cache of 8 sets of 2 ways; the address `0x40` decodes to block number
1, set 1, tag 0 (offset 0); the first `cache_read(0x40)` is a miss (one more
access, no more hit), reads block 1 from the backing memory, which it leaves
as it is, and returns the four bytes at offset 0 of that block; a second
`cache_read(0x40)` is a hit and returns the same value, for every victim
choice. -/
theorem scenario (heap : Nat → Nat → Nat → Nat) (s0 : CacheState) (rnd rnd' : Nat)
    (hm : MemOk s0.mem) :
    ∃ s, init_cache 10 1 heap s0 = some s ∧
      s.group_num = 8 ∧ s.row_num = 2 ∧ s.cache.length = 8 ∧
      (∀ i < 8, (s.cache.getD i []).length = 2) ∧
      addr_temp 0x40 >>> BLOCK_WIDTH = 1 ∧ set_id s 0x40 = 1 ∧ tag_of s 0x40 = 0 ∧
      block_offset 0x40 = 0 ∧
      hit_row s 0x40 = none ∧
      (cache_read s 0x40 rnd).2.try_count = s0.try_count + 1 ∧
      (cache_read s 0x40 rnd).2.hit_count = s0.hit_count ∧
      (cache_read s 0x40 rnd).2.mem_calls = s0.mem_calls ++ [MemEvent.read 1] ∧
      (cache_read s 0x40 rnd).2.mem = s0.mem ∧
      (cache_read s 0x40 rnd).1 =
        (s0.mem 1).getD 0 0 + (s0.mem 1).getD 1 0 * 2 ^ 8 + (s0.mem 1).getD 2 0 * 2 ^ 16
          + (s0.mem 1).getD 3 0 * 2 ^ 24 ∧
      (hit_row (cache_read s 0x40 rnd).2 0x40).isSome = true ∧
      (cache_read (cache_read s 0x40 rnd).2 0x40 rnd').1 = (cache_read s 0x40 rnd).1 ∧
      (cache_read (cache_read s 0x40 rnd).2 0x40 rnd').2.try_count = s0.try_count + 2 ∧
      (cache_read (cache_read s 0x40 rnd).2 0x40 rnd').2.hit_count = s0.hit_count + 1 ∧
      (cache_read (cache_read s 0x40 rnd).2 0x40 rnd').2.mem_calls
        = (cache_read s 0x40 rnd).2.mem_calls := by
  have hc : valid_config 10 1 := ⟨by decide, by decide, by decide⟩
  have hinit := init_cache_some 10 1 heap s0 (by decide) (by decide) (by decide) (by decide)
  refine ⟨_, hinit, ?_⟩
  generalize hs : ({ s0 with
      row_num := 2 ^ (1 : Int).toNat
      group_num := 2 ^ (10 - 6 - 1 : Int).toNat
      group_id_width := 10 - 6 - 1
      tag_width := 32 - 6 - (10 - 6 - 1)
      cache := (List.range (2 ^ (10 - 6 - 1 : Int).toNat)).map fun i =>
        (List.range (2 ^ (1 : Int).toNat)).map fun j => fresh_row (heap i j) } : CacheState) = s
      at hinit
  have hwf := (init_cache_inv 10 1 heap s0 s hc hm hinit).wf
  have hgn : s.group_num = 8 := by rw [← hs]; rfl
  have hrn : s.row_num = 2 := by rw [← hs]; rfl
  have hgw : s.group_id_width = 3 := by rw [← hs]; rfl
  have htw : s.tag_width = 23 := by rw [← hs]; rfl
  obtain ⟨e1, e2, e3, e4⟩ := init_cache_mem 10 1 heap s0 s hinit
  have hbn : addr_temp 0x40 >>> BLOCK_WIDTH = 1 := by decide
  have hsid : set_id s 0x40 = 1 := by unfold set_id; rw [hgw]; decide
  have htag : tag_of s 0x40 = 0 := by unfold tag_of; rw [hgw, htw]; decide
  have hoff : block_offset 0x40 = 0 := by decide
  have hmiss := init_cache_miss 10 1 heap s0 s hc hm hinit 0x40
  have hlen : s.cache.length = 8 := by rw [hwf.sets, hgn]; rfl
  have hvic : (get_row s.cache (set_id s 0x40) (rnd % s.row_num.toNat)).dirty = false := by
    rw [init_cache_fresh 10 1 heap s0 s hc hinit _ (by rw [hsid, hgn]; decide) _
      (wf_victim_lt s hwf rnd)]
    rfl
  obtain ⟨m1, m2⟩ := replace_mem_clean s (addr_temp 0x40 >>> BLOCK_WIDTH) (set_id s 0x40) rnd hvic
  obtain ⟨t1, t2⟩ := step_counters s (Op.read 0x40 rnd)
  have t1' : (cache_read s 0x40 rnd).2.try_count = s.try_count + 1 := t1
  have t2' : (cache_read s 0x40 rnd).2.hit_count = s.hit_count := by
    have := t2
    simp only [Op.addr, hmiss] at this
    exact this
  have hcalls : (cache_read s 0x40 rnd).2.mem_calls = s0.mem_calls ++ [MemEvent.read 1] := by
    rw [cache_read_miss s 0x40 rnd hmiss]
    show (replace s _ _ rnd).2.mem_calls = _
    rw [m2, hbn, e2]
  have hmem : (cache_read s 0x40 rnd).2.mem = s0.mem := by
    rw [cache_read_miss s 0x40 rnd hmiss]
    exact m1.trans e1
  have hval : (cache_read s 0x40 rnd).1 =
      (s0.mem 1).getD 0 0 + (s0.mem 1).getD 1 0 * 2 ^ 8 + (s0.mem 1).getD 2 0 * 2 ^ 16
        + (s0.mem 1).getD 3 0 * 2 ^ 24 := by
    rw [cache_read_miss_value s 0x40 rnd hwf hmiss, m1, hbn, hoff, e1]
    rfl
  obtain ⟨w1, w2⟩ := cache_read_twice s 0x40 rnd rnd' hwf
  refine ⟨hgn, hrn, hlen, ?_, hbn, hsid, htag, hoff, hmiss, by rw [t1', e3], by rw [t2', e4],
    hcalls, hmem, hval, w1, by rw [w2], ?_, ?_, by rw [w2]; rfl⟩
  · intro i hi
    rw [hwf.rows i (by rw [hlen]; exact hi), hrn]; rfl
  · rw [w2]
    show (cache_read s 0x40 rnd).2.try_count + 1 = _
    rw [t1', e3]
  · rw [w2]
    show (cache_read s 0x40 rnd).2.hit_count + 1 = _
    rw [t2', e4]

/-- Witness of C7 over `sample_mem`, with the victims `3` and `4`. -/
theorem scenario_witness :
    MemOk blank_state.mem ∧
    ∃ s, init_cache 10 1 sample_heap blank_state = some s ∧
      s.group_num = 8 ∧ s.row_num = 2 ∧ s.cache.length = 8 ∧
      (∀ i < 8, (s.cache.getD i []).length = 2) ∧
      addr_temp 0x40 >>> BLOCK_WIDTH = 1 ∧ set_id s 0x40 = 1 ∧ tag_of s 0x40 = 0 ∧
      block_offset 0x40 = 0 ∧
      hit_row s 0x40 = none ∧
      (cache_read s 0x40 3).2.try_count = blank_state.try_count + 1 ∧
      (cache_read s 0x40 3).2.hit_count = blank_state.hit_count ∧
      (cache_read s 0x40 3).2.mem_calls = blank_state.mem_calls ++ [MemEvent.read 1] ∧
      (cache_read s 0x40 3).2.mem = blank_state.mem ∧
      (cache_read s 0x40 3).1 =
        (blank_state.mem 1).getD 0 0 + (blank_state.mem 1).getD 1 0 * 2 ^ 8
          + (blank_state.mem 1).getD 2 0 * 2 ^ 16 + (blank_state.mem 1).getD 3 0 * 2 ^ 24 ∧
      (hit_row (cache_read s 0x40 3).2 0x40).isSome = true ∧
      (cache_read (cache_read s 0x40 3).2 0x40 4).1 = (cache_read s 0x40 3).1 ∧
      (cache_read (cache_read s 0x40 3).2 0x40 4).2.try_count = blank_state.try_count + 2 ∧
      (cache_read (cache_read s 0x40 3).2 0x40 4).2.hit_count = blank_state.hit_count + 1 ∧
      (cache_read (cache_read s 0x40 3).2 0x40 4).2.mem_calls
        = (cache_read s 0x40 3).2.mem_calls :=
  ⟨sample_mem_ok, scenario sample_heap blank_state 3 4 sample_mem_ok⟩

/-- C8 (write-back policy): `cache_read` and `cache_write` change the backing
memory only by evicting a dirty victim.  A call that hits leaves the memory
unchanged and makes no memory call; a call that misses with a clean victim
leaves the memory unchanged and only calls `mem_read` for the new block; and if
a call changes the memory, it missed and its victim was dirty. -/
theorem write_back_policy (s : CacheState) (addr data wmask rnd : Nat) :
    (hit_row s addr ≠ none →
      ((cache_read s addr rnd).2.mem = s.mem ∧
        (cache_read s addr rnd).2.mem_calls = s.mem_calls) ∧
      ((cache_write s addr data wmask rnd).mem = s.mem ∧
        (cache_write s addr data wmask rnd).mem_calls = s.mem_calls)) ∧
    (hit_row s addr = none →
      (get_row s.cache (set_id s addr) (rnd % s.row_num.toNat)).dirty = false →
      ((cache_read s addr rnd).2.mem = s.mem ∧
        (cache_read s addr rnd).2.mem_calls
          = s.mem_calls ++ [MemEvent.read (addr_temp addr >>> BLOCK_WIDTH)]) ∧
      ((cache_write s addr data wmask rnd).mem = s.mem ∧
        (cache_write s addr data wmask rnd).mem_calls
          = s.mem_calls ++ [MemEvent.read (addr_temp addr >>> BLOCK_WIDTH)])) ∧
    ((cache_read s addr rnd).2.mem ≠ s.mem ∨ (cache_write s addr data wmask rnd).mem ≠ s.mem →
      hit_row s addr = none ∧
      (get_row s.cache (set_id s addr) (rnd % s.row_num.toNat)).dirty = true) := by
  have hhit : hit_row s addr ≠ none →
      ((cache_read s addr rnd).2.mem = s.mem ∧
        (cache_read s addr rnd).2.mem_calls = s.mem_calls) ∧
      ((cache_write s addr data wmask rnd).mem = s.mem ∧
        (cache_write s addr data wmask rnd).mem_calls = s.mem_calls) := by
    intro h
    cases hh : hit_row s addr with
    | none => exact absurd hh h
    | some i => exact hit_mem s addr data wmask rnd i hh
  have hclean : hit_row s addr = none →
      (get_row s.cache (set_id s addr) (rnd % s.row_num.toNat)).dirty = false →
      ((cache_read s addr rnd).2.mem = s.mem ∧
        (cache_read s addr rnd).2.mem_calls
          = s.mem_calls ++ [MemEvent.read (addr_temp addr >>> BLOCK_WIDTH)]) ∧
      ((cache_write s addr data wmask rnd).mem = s.mem ∧
        (cache_write s addr data wmask rnd).mem_calls
          = s.mem_calls ++ [MemEvent.read (addr_temp addr >>> BLOCK_WIDTH)]) := by
    intro hh hd
    obtain ⟨⟨r1, r2⟩, ⟨w1, w2⟩⟩ := miss_mem s addr data wmask rnd hh
    obtain ⟨m1, m2⟩ := replace_mem_clean s (addr_temp addr >>> BLOCK_WIDTH) (set_id s addr) rnd hd
    exact ⟨⟨r1.trans m1, r2.trans m2⟩, ⟨w1.trans m1, w2.trans m2⟩⟩
  refine ⟨hhit, hclean, ?_⟩
  intro hchg
  by_cases hh : hit_row s addr = none
  · refine ⟨hh, ?_⟩
    by_contra hd
    have hd' : (get_row s.cache (set_id s addr) (rnd % s.row_num.toNat)).dirty = false := by
      simpa using hd
    obtain ⟨⟨r1, _⟩, ⟨w1, _⟩⟩ := hclean hh hd'
    rcases hchg with h | h
    · exact h r1
    · exact h w1
  · obtain ⟨⟨r1, _⟩, ⟨w1, _⟩⟩ := hhit hh
    rcases hchg with h | h
    · exact absurd r1 h
    · exact absurd w1 h

/-- Witness of C8 on the two-by-two cache: `0x44` hits after it has been read,
and misses with a clean victim in the fresh cache. -/
theorem write_back_policy_witness :
    (hit_row (cache_read sample_state 0x44 3).2 0x44 ≠ none ∧
      (cache_write (cache_read sample_state 0x44 3).2 0x44 7 0xFF 0).mem
        = (cache_read sample_state 0x44 3).2.mem) ∧
    (hit_row sample_state 0x44 = none ∧
      (get_row sample_state.cache (set_id sample_state 0x44)
        (3 % sample_state.row_num.toNat)).dirty = false ∧
      (cache_write sample_state 0x44 7 0xFF 3).mem = sample_state.mem) :=
  ⟨⟨by decide,
      ((write_back_policy (cache_read sample_state 0x44 3).2 0x44 7 0xFF 0).1 (by decide)).2.1⟩,
    ⟨by decide, by decide,
      ((write_back_policy sample_state 0x44 7 0xFF 3).2.1 (by decide) (by decide)).2.1⟩⟩

/-- C9 (unaligned addresses are truncated to the containing word): for every
state, address and victim choice, `cache_read(addr)` returns the same value
and the same state as `cache_read(addr & ~0x3)`, and `cache_write(addr, ..)`
gives the same state as `cache_write(addr & ~0x3, ..)`.  The mask is written
both on 32 bits and as `addr - addr % 4`, for an `addr` of any width. -/
theorem unaligned_truncated (s : CacheState) (addr data wmask rnd : Nat) :
    cache_read s addr rnd = cache_read s (addr &&& 0xFFFFFFFC) rnd ∧
    cache_write s addr data wmask rnd = cache_write s (addr &&& 0xFFFFFFFC) data wmask rnd ∧
    cache_read s addr rnd = cache_read s (addr - addr % 4) rnd ∧
    cache_write s addr data wmask rnd = cache_write s (addr - addr % 4) data wmask rnd :=
  ⟨cache_read_congr s _ _ rnd (and_mask_idem addr).symm,
    cache_write_congr s _ _ data wmask rnd (and_mask_idem addr).symm,
    cache_read_congr s _ _ rnd (sub_mod_four_idem addr).symm,
    cache_write_congr s _ _ data wmask rnd (sub_mod_four_idem addr).symm⟩

/-! ### `init_cache` with the calls of `exp2` left open -/

theorem to_int_eq_some (x y : Int) (h : to_int x = some y) :
    y = x ∧ -(2 ^ 31) ≤ x ∧ x < 2 ^ 31 := by
  unfold to_int at h
  by_cases hx : -(2 ^ 31) ≤ x ∧ x < 2 ^ 31
  · rw [if_pos hx] at h
    exact ⟨(Option.some.inj h).symm, hx.1, hx.2⟩
  · rw [if_neg hx] at h
    exact Option.noConfusion h

theorem double_to_int_range (num den : Nat) (v : Int) (h : double_to_int num den = some v) :
    to_int v = some v := by
  unfold double_to_int at h
  by_cases hd : den = 0
  · rw [if_pos hd] at h
    exact Option.noConfusion h
  · rw [if_neg hd] at h
    obtain ⟨e, h1, h2⟩ := to_int_eq_some _ _ h
    rw [e]
    exact to_int_some _ h1 h2

theorem init_cache_eq_of (t a : Int) (heap : Nat → Nat → Nat → Nat) (s0 : CacheState) :
    init_cache t a heap s0 =
      (double_to_int (exp2 a).1 (exp2 a).2).bind fun rn =>
      (double_to_int (exp2 t).1 ((exp2 t).2 * rn.toNat * BLOCK_SIZE)).bind fun gn =>
      init_cache_of rn gn t a heap s0 := by
  unfold init_cache init_cache_of
  cases hr : double_to_int (exp2 a).1 (exp2 a).2 with
  | none => rfl
  | some rn =>
    rw [Option.some_bind, Option.some_bind]
    cases hg : double_to_int (exp2 t).1 ((exp2 t).2 * rn.toNat * BLOCK_SIZE) with
    | none => rfl
    | some gn =>
      rw [Option.some_bind, Option.some_bind, double_to_int_range _ _ _ hr,
        double_to_int_range _ _ _ hg, Option.some_bind, Option.some_bind]

theorem init_cache_of_fields (rn gn t a : Int) (heap : Nat → Nat → Nat → Nat)
    (s0 s : CacheState) (h : init_cache_of rn gn t a heap s0 = some s) :
    s.row_num = rn ∧ s.group_num = gn ∧ s.group_id_width = t - 6 - a ∧
    s.tag_width = 32 - 6 - (t - 6 - a) ∧
    (-(2 ^ 31) ≤ rn ∧ rn < 2 ^ 31) ∧ (-(2 ^ 31) ≤ gn ∧ gn < 2 ^ 31) := by
  unfold init_cache_of at h
  cases h1 : to_int rn with
  | none => rw [h1] at h; exact Option.noConfusion h
  | some row_num =>
    rw [h1, Option.some_bind] at h
    cases h2 : to_int gn with
    | none => rw [h2] at h; exact Option.noConfusion h
    | some group_num =>
      rw [h2, Option.some_bind] at h
      cases h3 : to_int (t - (BLOCK_WIDTH : Nat)) with
      | none => rw [h3] at h; exact Option.noConfusion h
      | some w =>
        rw [h3, Option.some_bind] at h
        cases h4 : to_int (w - a) with
        | none => rw [h4] at h; exact Option.noConfusion h
        | some g =>
          rw [h4, Option.some_bind] at h
          cases h5 : to_int (32 - (BLOCK_WIDTH : Nat) - g) with
          | none => rw [h5] at h; exact Option.noConfusion h
          | some tw =>
            rw [h5, Option.some_bind] at h
            have hs := Option.some.inj h
            subst hs
            obtain ⟨e1, r1, r1'⟩ := to_int_eq_some _ _ h1
            obtain ⟨e2, r2, r2'⟩ := to_int_eq_some _ _ h2
            obtain ⟨e3, _, _⟩ := to_int_eq_some _ _ h3
            obtain ⟨e4, _, _⟩ := to_int_eq_some _ _ h4
            obtain ⟨e5, _, _⟩ := to_int_eq_some _ _ h5
            have hb : ((BLOCK_WIDTH : Nat) : Int) = 6 := rfl
            rw [hb] at e3 e5
            refine ⟨e1, e2, ?_, ?_, ⟨r1, r1'⟩, ⟨r2, r2'⟩⟩
            · show g = t - 6 - a
              rw [e4, e3]
            · show tw = 32 - 6 - (t - 6 - a)
              rw [e5, e4, e3]

/-- C10, counterexample: `total_size_width = 37` and `associativity_width = 0`
satisfy `associativity_width ≥ 0` and `6 + associativity_width ≤
total_size_width`.  `init_cache` sets `group_id_width = 37 - 6 - 0 = 31`, and
`group_num` is an `int`, which is below `2 ^ 31`: whatever the two statements
that call `exp2` store in `row_num` and `group_num`, the state fails
`group_num = 2 ^ group_id_width`.  Such states exist, for instance with the
values `1` and `-2 ^ 31`. -/
theorem config_invariant_counterexample :
    (0 : Int) ≤ 0 ∧ (BLOCK_WIDTH : Int) + 0 ≤ 37 ∧
    (¬ ∃ rn gn s, init_cache_of rn gn 37 0 sample_heap blank_state = some s ∧
      s.group_num = 2 ^ s.group_id_width.toNat) ∧
    ∃ s, init_cache_of 1 (-(2 ^ 31)) 37 0 sample_heap blank_state = some s ∧
      s.group_id_width = 31 ∧ s.group_num ≠ 2 ^ s.group_id_width.toNat := by
  refine ⟨by decide, by decide, ?_, _, rfl, rfl, by decide⟩
  rintro ⟨rn, gn, s, h, hg⟩
  obtain ⟨_, e2, e3, _, _, r2⟩ := init_cache_of_fields rn gn 37 0 sample_heap blank_state s h
  rw [e2, e3] at hg
  have e : (37 - 6 - 0 : Int).toNat = 31 := by decide
  rw [e] at hg
  omega

/-- C10 as amended (configuration invariant): for `0 ≤ associativity_width` and
`6 + associativity_width ≤ total_size_width ≤ 30`, the widths on which `exp2`
is applied to arguments from `0` to `30` only, `init_cache` computes fields with
`BLOCK_WIDTH + group_id_width + tag_width = 32`, `group_num = 2 ^ group_id_width`,
`row_num = 2 ^ associativity_width` and
`row_num * group_num * BLOCK_SIZE = 2 ^ total_size_width`. -/
theorem config_invariant (t a : Int) (heap : Nat → Nat → Nat → Nat) (s0 : CacheState)
    (ha : 0 ≤ a) (ht : (BLOCK_WIDTH : Int) + a ≤ t) (ht' : t ≤ 30) :
    ∃ s, init_cache t a heap s0 = some s ∧
      (BLOCK_WIDTH : Int) + s.group_id_width + s.tag_width = 32 ∧
      s.group_num = 2 ^ s.group_id_width.toNat ∧
      s.row_num = 2 ^ a.toNat ∧
      s.row_num * s.group_num * (BLOCK_SIZE : Int) = 2 ^ t.toNat := by
  have ht2 : 6 + a ≤ t := ht
  refine ⟨_, init_cache_some t a heap s0 ha (by omega) ht2 (by omega), ?_, rfl, rfl, ?_⟩
  · show (6 : Int) + (t - 6 - a) + (32 - 6 - (t - 6 - a)) = 32
    omega
  · show (2 : Int) ^ a.toNat * 2 ^ (t - 6 - a).toNat * 64 = 2 ^ t.toNat
    have e : t.toNat = a.toNat + (t - 6 - a).toNat + 6 := by omega
    rw [e, pow_add, pow_add]
    norm_num

/-- Witness of C10 as amended, at the widths 10 and 1. -/
theorem config_invariant_witness :
    (0 : Int) ≤ 1 ∧ (BLOCK_WIDTH : Int) + 1 ≤ 10 ∧ (10 : Int) ≤ 30 ∧
    ∃ s, init_cache 10 1 sample_heap blank_state = some s ∧
      (BLOCK_WIDTH : Int) + s.group_id_width + s.tag_width = 32 ∧
      s.group_num = 2 ^ s.group_id_width.toNat ∧
      s.row_num = 2 ^ (1 : Int).toNat ∧
      s.row_num * s.group_num * (BLOCK_SIZE : Int) = 2 ^ (10 : Int).toNat :=
  ⟨by decide, by decide, by decide,
    config_invariant 10 1 sample_heap blank_state (by decide) (by decide) (by decide)⟩

/-! ### The store as `init_cache` leaves it -/

theorem mem_rows (c : List (List CacheRow)) (set : List CacheRow) (r : CacheRow)
    (hs : set ∈ c) (hr : r ∈ set) :
    ∃ i j, i < c.length ∧ j < (c.getD i []).length ∧ c.getD i [] = set ∧ get_row c i j = r := by
  obtain ⟨i, hi, hiset⟩ := List.getElem_of_mem hs
  obtain ⟨j, hj, hjr⟩ := List.getElem_of_mem hr
  have e1 : c.getD i [] = set := by rw [getD_eq_getElem c i [] hi]; exact hiset
  refine ⟨i, j, hi, by rw [e1]; exact hj, e1, ?_⟩
  unfold get_row
  rw [e1, getD_eq_getElem set j default hj]
  exact hjr

theorem init_cache_store (t a : Int) (heap : Nat → Nat → Nat → Nat) (s0 s : CacheState)
    (ha : 0 ≤ a) (ha' : a ≤ 30) (ht : 6 + a ≤ t) (ht' : t - a ≤ 36)
    (h : init_cache t a heap s0 = some s) :
    s.row_num = 2 ^ a.toNat ∧ s.group_num = 2 ^ (t - 6 - a).toNat ∧
    s.cache = (List.range (2 ^ (t - 6 - a).toNat)).map fun i =>
      (List.range (2 ^ a.toNat)).map fun j => fresh_row (heap i j) := by
  rw [init_cache_some t a heap s0 ha ha' ht ht'] at h
  have hs := Option.some.inj h
  subst hs
  exact ⟨rfl, rfl, rfl⟩

theorem fresh_row_byte (junk : Nat → Nat) (k : Nat) (hk : k < BLOCK_SIZE) :
    (fresh_row junk).data.getD k 0 = junk k % 256 := by
  unfold fresh_row
  exact getD_map_range (fun k => junk k % 256) BLOCK_SIZE k 0 hk

/-! ### `init_cache` on widths that give no set -/

theorem set_count_zero (t a : Int) (ha : 0 ≤ a) (ht0 : 0 ≤ t) (ht : t < 6 + a) :
    (exp2 t).2 * ((2 : Int) ^ a.toNat).toNat * BLOCK_SIZE ≠ 0 ∧
    (exp2 t).1 / ((exp2 t).2 * ((2 : Int) ^ a.toNat).toNat * BLOCK_SIZE) = 0 := by
  rw [pow_two_toNat]
  have hb : BLOCK_SIZE = 2 ^ 6 := by decide
  have hpa : 0 < 2 ^ a.toNat := Nat.pos_of_ne_zero (by positivity)
  have e : exp2 t = (2 ^ t.toNat, 1) := by unfold exp2; rw [if_pos ht0]
  rw [e]
  constructor
  · rw [hb]; positivity
  · apply Nat.div_eq_of_lt
    rw [hb, Nat.one_mul, ← pow_add]
    exact Nat.pow_lt_pow_right (by norm_num) (by omega)

theorem init_cache_no_set (t a : Int) (heap : Nat → Nat → Nat → Nat) (s0 : CacheState)
    (ha : 0 ≤ a) (ha' : a ≤ 30) (ht0 : 0 ≤ t) (ht : t < 6 + a) :
    init_cache t a heap s0 = some { s0 with
      row_num := 2 ^ a.toNat
      group_num := 0
      group_id_width := t - 6 - a
      tag_width := 32 - 6 - (t - 6 - a)
      cache := [] } := by
  have hexa : exp2 a = (2 ^ a.toNat, 1) := by unfold exp2; rw [if_pos ha]
  have hrow : double_to_int (exp2 a).1 (exp2 a).2 = some (2 ^ a.toNat) := by
    rw [hexa]
    unfold double_to_int
    simp only [Nat.div_one, one_ne_zero, if_false]
    rw [pow_two_cast]
    exact to_int_some _ (pow_two_nonneg_int _) (pow_two_lt_int _ (by omega))
  obtain ⟨hne, hq⟩ := set_count_zero t a ha ht0 ht
  have hgrp : double_to_int (exp2 t).1 ((exp2 t).2 * ((2 : Int) ^ a.toNat).toNat * BLOCK_SIZE)
      = some 0 := by
    unfold double_to_int
    simp only [hne, if_false]
    rw [hq]
    rfl
  have hw : to_int (t - (BLOCK_WIDTH : Nat)) = some (t - 6) := by
    have : ((BLOCK_WIDTH : Nat) : Int) = 6 := rfl
    rw [this]
    exact to_int_some _ (by norm_num; omega) (by norm_num; omega)
  have hg : to_int (t - 6 - a) = some (t - 6 - a) :=
    to_int_some _ (by norm_num; omega) (by norm_num; omega)
  have htw : to_int (32 - (BLOCK_WIDTH : Nat) - (t - 6 - a)) = some (32 - 6 - (t - 6 - a)) := by
    have : ((BLOCK_WIDTH : Nat) : Int) = 6 := rfl
    rw [this]
    exact to_int_some _ (by norm_num; omega) (by norm_num; omega)
  unfold init_cache
  rw [hrow, Option.some_bind, hgrp, Option.some_bind, hw, Option.some_bind, hg, Option.some_bind,
    htw, Option.some_bind]
  rfl

/-! ### Bytes of a word -/

theorem getD_of_getElem? {α : Type} (l : List α) (i : Nat) (d x : α) (h : l[i]? = some x) :
    l.getD i d = x := by
  rw [List.getD_eq_getElem?_getD, h]; rfl

theorem block_write_bytes (row : CacheRow) (off data wmask : Nat)
    (hlen : off + 4 ≤ row.data.length) :
    (block_write row off data wmask).data[off]?
      = some (((block_read row off &&& not32 wmask) ||| (data &&& wmask)) % 256) ∧
    (block_write row off data wmask).data[off + 1]?
      = some (((block_read row off &&& not32 wmask) ||| (data &&& wmask)) / 2 ^ 8 % 256) ∧
    (block_write row off data wmask).data[off + 2]?
      = some (((block_read row off &&& not32 wmask) ||| (data &&& wmask)) / 2 ^ 16 % 256) ∧
    (block_write row off data wmask).data[off + 3]?
      = some (((block_read row off &&& not32 wmask) ||| (data &&& wmask)) / 2 ^ 24 % 256) ∧
    ∀ x, x < off ∨ off + 4 ≤ x → (block_write row off data wmask).data[x]? = row.data[x]? := by
  unfold block_write
  generalize (block_read row off &&& not32 wmask) ||| (data &&& wmask) = v
  simp only [List.getElem?_set, List.length_set]
  refine ⟨?_, ?_, ?_, ?_, ?_⟩
  · have h1 : ¬ (off + 3 = off) := by omega
    have h2 : ¬ (off + 2 = off) := by omega
    have h3 : ¬ (off + 1 = off) := by omega
    have h4 : off < row.data.length := by omega
    simp [h1, h2, h3, h4]
  · have h1 : ¬ (off + 3 = off + 1) := by omega
    have h2 : ¬ (off + 2 = off + 1) := by omega
    have h4 : off + 1 < row.data.length := by omega
    simp [h1, h2, h4]
  · have h1 : ¬ (off + 3 = off + 2) := by omega
    have h4 : off + 2 < row.data.length := by omega
    simp [h1, h4]
  · have h4 : off + 3 < row.data.length := by omega
    simp [h4]
  · intro x hx
    have h1 : ¬ (off + 3 = x) := by omega
    have h2 : ¬ (off + 2 = x) := by omega
    have h3 : ¬ (off + 1 = x) := by omega
    have h4 : ¬ (off = x) := by omega
    simp [h1, h2, h3, h4]

theorem word_byte_split (b0 b1 b2 b3 : Nat) (h0 : b0 < 256) (h1 : b1 < 256) (h2 : b2 < 256)
    (h3 : b3 < 256) :
    (b0 + b1 * 2 ^ 8 + b2 * 2 ^ 16 + b3 * 2 ^ 24) % 256 = b0 ∧
    (b0 + b1 * 2 ^ 8 + b2 * 2 ^ 16 + b3 * 2 ^ 24) / 2 ^ 8 % 256 = b1 ∧
    (b0 + b1 * 2 ^ 8 + b2 * 2 ^ 16 + b3 * 2 ^ 24) / 2 ^ 16 % 256 = b2 ∧
    (b0 + b1 * 2 ^ 8 + b2 * 2 ^ 16 + b3 * 2 ^ 24) / 2 ^ 24 % 256 = b3 := by
  norm_num
  omega

/-! ### The shape of the store after a request -/

theorem step_cache_shape (s : CacheState) (op : Op) (h : WellFormed s) :
    (step s op).cache = s.cache ∨
    ∃ r, (step s op).cache = set_row s.cache (accessed s op).1 (accessed s op).2 r := by
  cases hh : hit_row s op.addr with
  | some k =>
    have ha := accessed_eq_hit s op k hh
    cases op with
    | read addr rnd =>
      left
      show (cache_read s addr rnd).2.cache = _
      rw [cache_read_hit s addr rnd k hh]; rfl
    | write addr data wmask rnd =>
      right
      rw [ha]
      exact ⟨_, cache_write_hit_cache s addr data wmask rnd k h hh⟩
  | none =>
    have ha := accessed_eq_miss s op hh
    right
    rw [ha]
    cases op with
    | read addr rnd => exact ⟨_, cache_read_miss_cache s addr rnd h hh⟩
    | write addr data wmask rnd => exact ⟨_, cache_write_miss_cache s addr data wmask rnd h hh⟩

theorem accessed_in_store (s : CacheState) (op : Op) (h : WellFormed s) :
    (accessed s op).1 = set_id s op.addr ∧ (accessed s op).1 < s.cache.length ∧
    (accessed s op).2 < s.row_num.toNat := by
  refine ⟨rfl, wf_set_id_lt s h op.addr, ?_⟩
  cases hh : hit_row s op.addr with
  | some k => rw [accessed_eq_hit s op k hh]; exact (hit_row_lt s op.addr k hh).1
  | none => rw [accessed_eq_miss s op hh]; exact wf_victim_lt s h op.rnd

theorem getD_set_row_ne (c : List (List CacheRow)) (i j k : Nat) (r : CacheRow) (h : k ≠ i) :
    (set_row c i j r).getD k [] = c.getD k [] := by
  unfold set_row
  exact getD_set_ne _ _ _ _ _ h

/-! ### Preservation of coherence -/

theorem get_row_set_row_ite (c : List (List CacheRow)) (a b i j : Nat) (r : CacheRow)
    (ha : a < c.length) (hb : b < (c.getD a []).length) :
    get_row (set_row c a b r) i j = if i = a ∧ j = b then r else get_row c i j := by
  by_cases h : i = a ∧ j = b
  · rw [if_pos h, h.1, h.2]
    exact get_row_set_row_eq c a b r ha hb
  · rw [if_neg h]
    apply get_row_set_row_ne
    by_contra hc
    push_neg at hc
    exact h hc

theorem block_number_inj (p a b i k : Nat) (hi : i < p) (hk : k < p)
    (h : a * p + i = b * p + k) : a = b ∧ i = k := by
  have hp : 0 < p := by omega
  have h1 : (a * p + i) / p = a := by
    rw [Nat.mul_comm, Nat.mul_add_div hp, Nat.div_eq_of_lt hi, Nat.add_zero]
  have h2 : (b * p + k) / p = b := by
    rw [Nat.mul_comm, Nat.mul_add_div hp, Nat.div_eq_of_lt hk, Nat.add_zero]
  have hab : a = b := by rw [← h1, ← h2, h]
  subst hab
  exact ⟨rfl, Nat.add_left_cancel h⟩

theorem coh_try_increase (s : CacheState) (n : Nat) (h : Coherent s) :
    Coherent (try_increase s n) :=
  ⟨inv_try_increase s n h.inv, h.no_dup, h.mirror⟩

theorem coh_hit_increase (s : CacheState) (n : Nat) (h : Coherent s) :
    Coherent (hit_increase s n) :=
  ⟨inv_hit_increase s n h.inv, h.no_dup, h.mirror⟩

/-- The block a dirty line is written back to. -/
theorem victim_block (s : CacheState) (h : Inv s) (sid j : Nat) (hs : sid < s.cache.length)
    (hj : j < s.row_num.toNat) (hv : (get_row s.cache sid j).valid = true) :
    ((get_row s.cache sid j).tag <<< s.group_id_width.toNat + sid) % 2 ^ 32
      = (get_row s.cache sid j).tag * 2 ^ s.group_id_width.toNat + sid := by
  have hs' : sid < 2 ^ s.group_id_width.toNat := by
    have h2 := h.wf.sets
    have h3 := h.wf.group_num_eq
    have : s.group_num.toNat = 2 ^ s.group_id_width.toNat := by
      rw [h3]; exact pow_two_toNat _
    omega
  exact write_back_block s h.wf sid _ hs' (h.tag_lt sid hs j hj hv)

theorem wf_set_lt_pow (s : CacheState) (h : WellFormed s) (i : Nat) (hi : i < s.cache.length) :
    i < 2 ^ s.group_id_width.toNat := by
  have h2 := h.sets
  have h3 := h.group_num_eq
  have : s.group_num.toNat = 2 ^ s.group_id_width.toNat := by
    rw [h3]; exact pow_two_toNat _
  omega

theorem coh_replace (s : CacheState) (addr rnd : Nat) (h : Coherent s)
    (hh : hit_row s addr = none) :
    Coherent (replace s (addr_temp addr >>> BLOCK_WIDTH) (set_id s addr) rnd).2 := by
  have hwf := h.inv.wf
  have hs := wf_set_id_lt s hwf addr
  have hw := wf_victim_lt s hwf rnd
  have hj : rnd % s.row_num.toNat < (s.cache.getD (set_id s addr) []).length := by
    rw [hwf.rows _ hs]; exact hw
  have hnone := hit_row_none s addr hh
  obtain ⟨c1, c2, c3, c4, _, _⟩ := replace_config s (addr_temp addr >>> BLOCK_WIDTH)
    (set_id s addr) rnd
  have hrc := replace_cache s (addr_temp addr >>> BLOCK_WIDTH) (set_id s addr) rnd
  rw [wf_block_num_tag s hwf addr] at hrc
  have hbn := wf_block_num_eq s hwf addr
  have hrow : ∀ i j, get_row (replace s (addr_temp addr >>> BLOCK_WIDTH) (set_id s addr)
      rnd).2.cache i j = if i = set_id s addr ∧ j = rnd % s.row_num.toNat
        then ⟨true, false, tag_of s addr, (replace s (addr_temp addr >>> BLOCK_WIDTH)
          (set_id s addr) rnd).2.mem (addr_temp addr >>> BLOCK_WIDTH)⟩
        else get_row s.cache i j := by
    intro i j
    rw [hrc]
    exact get_row_set_row_ite _ _ _ _ _ _ hs hj
  have hlen : (replace s (addr_temp addr >>> BLOCK_WIDTH) (set_id s addr) rnd).2.cache.length
      = s.cache.length := by rw [hrc, length_set_row]
  refine ⟨inv_replace s _ _ rnd h.inv hs (block_num_lt addr), ?_, ?_⟩
  · intro i hi j hj' k hk' vj vk tjk
    rw [hlen] at hi
    rw [c1] at hj' hk'
    rw [hrow i j] at vj tjk
    rw [hrow i k] at vk tjk
    by_cases ej : i = set_id s addr ∧ j = rnd % s.row_num.toNat
    · by_cases ek : i = set_id s addr ∧ k = rnd % s.row_num.toNat
      · rw [ej.2, ek.2]
      · rw [if_pos ej, if_neg ek] at tjk
        rw [if_neg ek] at vk
        rw [ej.1] at vk tjk
        exact absurd ⟨vk, tjk.symm⟩ (hnone k hk')
    · by_cases ek : i = set_id s addr ∧ k = rnd % s.row_num.toNat
      · rw [if_neg ej, if_pos ek] at tjk
        rw [if_neg ej] at vj
        rw [ek.1] at vj tjk
        exact absurd ⟨vj, tjk⟩ (hnone j hj')
      · rw [if_neg ej] at vj tjk
        rw [if_neg ek] at vk tjk
        exact h.no_dup i hi j hj' k hk' vj vk tjk
  · intro i hi j hj' v d
    rw [hlen] at hi
    rw [c1] at hj'
    rw [c3]
    rw [hrow i j] at v d ⊢
    by_cases ej : i = set_id s addr ∧ j = rnd % s.row_num.toNat
    · rw [if_pos ej, ej.1]
      show _ = (replace s _ _ rnd).2.mem (tag_of s addr * 2 ^ s.group_id_width.toNat + _)
      rw [← hbn]
    · rw [if_neg ej] at v d ⊢
      rw [h.mirror i hi j hj' v d]
      by_cases hd : (get_row s.cache (set_id s addr) (rnd % s.row_num.toNat)).dirty = true
      · rw [(replace_mem_dirty s _ _ rnd hd).1]
        have hvic := h.inv.dirty_valid _ hs _ hw hd
        rw [victim_block s h.inv _ _ hs hw hvic]
        show _ = if _ then _ else _
        rw [if_neg]
        intro e
        obtain ⟨et, ei⟩ := block_number_inj _ _ _ _ _ (wf_set_lt_pow s hwf i hi)
          (wf_set_lt_pow s hwf _ hs) e
        apply ej
        refine ⟨ei, ?_⟩
        subst ei
        exact h.no_dup _ hi j hj' _ hw v hvic et
      · rw [(replace_mem_clean s _ _ rnd (by simpa using hd)).1]

theorem coh_mark_and_write (s : CacheState) (sid i off data wmask : Nat) (h : Coherent s)
    (hs : sid < s.cache.length) (hi : i < s.row_num.toNat)
    (hv : (get_row s.cache sid i).valid = true) :
    Coherent (mark_and_write s sid i off data wmask) := by
  have hwf := h.inv.wf
  have hj : i < (s.cache.getD sid []).length := by rw [hwf.rows sid hs]; exact hi
  have hc := mark_and_write_cache s sid i off data wmask hs hj
  obtain ⟨f1, f2, f3, _⟩ := block_write_flags
    { get_row s.cache sid i with dirty := true } off data wmask
  have hrow : ∀ a b, get_row (mark_and_write s sid i off data wmask).cache a b =
      if a = sid ∧ b = i
        then block_write { get_row s.cache sid i with dirty := true } off data wmask
        else get_row s.cache a b := by
    intro a b
    rw [hc]
    exact get_row_set_row_ite _ _ _ _ _ _ hs hj
  have hvt : ∀ a b, (get_row (mark_and_write s sid i off data wmask).cache a b).valid
        = (get_row s.cache a b).valid ∧
      (get_row (mark_and_write s sid i off data wmask).cache a b).tag
        = (get_row s.cache a b).tag := by
    intro a b
    rw [hrow a b]
    by_cases e : a = sid ∧ b = i
    · rw [if_pos e, f1, f3, e.1, e.2]
      exact ⟨rfl, rfl⟩
    · rw [if_neg e]
      exact ⟨rfl, rfl⟩
  have hlen : (mark_and_write s sid i off data wmask).cache.length = s.cache.length := by
    rw [hc, length_set_row]
  refine ⟨inv_mark_and_write s sid i off data wmask h.inv hs hi hv, ?_, ?_⟩
  · intro a ha j hj' k hk' vj vk tjk
    rw [hlen] at ha
    rw [(hvt a j).1] at vj
    rw [(hvt a k).1] at vk
    rw [(hvt a j).2, (hvt a k).2] at tjk
    exact h.no_dup a ha j hj' k hk' vj vk tjk
  · intro a ha b hb v d
    rw [hlen] at ha
    rw [hrow a b] at v d ⊢
    by_cases e : a = sid ∧ b = i
    · rw [if_pos e, f2] at d
      exact absurd d (by simp)
    · rw [if_neg e] at v d ⊢
      exact h.mirror a ha b hb v d

theorem coh_cache_read (s : CacheState) (addr rnd : Nat) (h : Coherent s) :
    Coherent (cache_read s addr rnd).2 := by
  cases hh : hit_row s addr with
  | some i =>
    rw [cache_read_hit s addr rnd i hh]
    exact coh_hit_increase _ _ (coh_try_increase _ _ h)
  | none =>
    rw [cache_read_miss s addr rnd hh]
    exact coh_try_increase _ _ (coh_replace s addr rnd h hh)

theorem coh_cache_write (s : CacheState) (addr data wmask rnd : Nat) (h : Coherent s) :
    Coherent (cache_write s addr data wmask rnd) := by
  have hwf := h.inv.wf
  cases hh : hit_row s addr with
  | some i =>
    rw [cache_write_hit s addr data wmask rnd i hh]
    exact coh_hit_increase _ _ (coh_try_increase _ _ (coh_mark_and_write _ _ _ _ _ _ h
      (wf_set_id_lt s hwf addr) (hit_row_lt s addr i hh).1 (hit_row_lt s addr i hh).2.1.1))
  | none =>
    rw [cache_write_miss s addr data wmask rnd hh]
    have hs := wf_set_id_lt s hwf addr
    have hw := wf_victim_lt s hwf rnd
    have hc := coh_replace s addr rnd h hh
    have hrc := replace_cache s (addr_temp addr >>> BLOCK_WIDTH) (set_id s addr) rnd
    have hj : rnd % s.row_num.toNat < (s.cache.getD (set_id s addr) []).length := by
      rw [hwf.rows _ hs]; exact hw
    refine coh_try_increase _ _ (coh_mark_and_write _ _ _ _ _ _ hc ?_ ?_ ?_)
    · rw [hrc, length_set_row]; exact hs
    · rw [(replace_config _ _ _ _).1]; exact hw
    · rw [hrc, get_row_set_row_eq s.cache (set_id s addr) (rnd % s.row_num.toNat) _ hs hj]

theorem coh_step (s : CacheState) (op : Op) (h : Coherent s) : Coherent (step s op) := by
  cases op with
  | read addr rnd => exact coh_cache_read s addr rnd h
  | write addr data wmask rnd => exact coh_cache_write s addr data wmask rnd h

theorem init_cache_coherent (t a : Int) (heap : Nat → Nat → Nat → Nat) (s0 s : CacheState)
    (hc : valid_config t a) (hm : MemOk s0.mem) (h : init_cache t a heap s0 = some s) :
    Coherent s := by
  have hinv := init_cache_inv t a heap s0 s hc hm h
  have hfresh := init_cache_fresh t a heap s0 s hc h
  refine ⟨hinv, ?_, ?_⟩
  · intro i hi j hj k _ vj _ _
    rw [hinv.wf.sets] at hi
    rw [hfresh i hi j hj] at vj
    exact absurd vj (by simp [fresh_row])
  · intro i hi j hj v _
    rw [hinv.wf.sets] at hi
    rw [hfresh i hi j hj] at v
    exact absurd v (by simp [fresh_row])

theorem reachable_coherent (s : CacheState) (h : Reachable s) : Coherent s := by
  induction h with
  | init t a heap s0 s hc hm hi => exact init_cache_coherent t a heap s0 s hc hm hi
  | step s op _ ih => exact coh_step s op ih

/-! ### The block a cache holds -/

theorem block_view_of_match (s : CacheState) (h : Coherent s) (b i : Nat)
    (hi : i < s.row_num.toNat)
    (hm : Matches s.cache (b % 2 ^ s.group_id_width.toNat) (b / 2 ^ s.group_id_width.toNat) i) :
    block_view s b = (get_row s.cache (b % 2 ^ s.group_id_width.toNat) i).data := by
  have hwf := h.inv.wf
  have hsb : b % 2 ^ s.group_id_width.toNat < s.cache.length := by
    have h3 : s.group_num.toNat = 2 ^ s.group_id_width.toNat := by
      rw [hwf.group_num_eq]; exact pow_two_toNat _
    rw [hwf.sets, h3]
    exact Nat.mod_lt _ (Nat.pos_of_ne_zero (by positivity))
  unfold block_view
  cases hf : find_row s.cache (b % 2 ^ s.group_id_width.toNat)
      (b / 2 ^ s.group_id_width.toNat) 0 s.row_num.toNat with
  | none =>
    exact absurd hm ((find_row_none _ _ _ _ _).1 hf i (Nat.zero_le _) (by omega))
  | some k =>
    obtain ⟨_, hk, hmk, _⟩ := find_row_some _ _ _ _ _ _ hf
    have e : k = i := h.no_dup _ hsb k (by omega) i hi hmk.1 hm.1 (hmk.2.trans hm.2.symm)
    rw [e]

theorem block_view_of_no_match (s : CacheState) (b : Nat)
    (hm : ∀ i < s.row_num.toNat,
      ¬ Matches s.cache (b % 2 ^ s.group_id_width.toNat) (b / 2 ^ s.group_id_width.toNat) i) :
    block_view s b = s.mem b := by
  unfold block_view
  have hf : find_row s.cache (b % 2 ^ s.group_id_width.toNat)
      (b / 2 ^ s.group_id_width.toNat) 0 s.row_num.toNat = none := by
    apply (find_row_none _ _ _ _ _).2
    intro m _ hm2
    exact hm m (by omega)
  rw [hf]

theorem block_split (p b : Nat) : b / p * p + b % p = b := by
  rw [Nat.mul_comm]; exact Nat.div_add_mod b p

theorem block_of_set_tag (p sid tag : Nat) (hs : sid < p) :
    (tag * p + sid) % p = sid ∧ (tag * p + sid) / p = tag := by
  have hp : 0 < p := by omega
  constructor
  · rw [Nat.mul_comm, Nat.mul_add_mod, Nat.mod_eq_of_lt hs]
  · rw [Nat.mul_comm, Nat.mul_add_div hp, Nat.div_eq_of_lt hs, Nat.add_zero]

theorem block_view_length (s : CacheState) (h : Coherent s) (b : Nat) :
    (block_view s b).length = BLOCK_SIZE := by
  have hwf := h.inv.wf
  have hsb : b % 2 ^ s.group_id_width.toNat < s.cache.length := by
    have h3 : s.group_num.toNat = 2 ^ s.group_id_width.toNat := by
      rw [hwf.group_num_eq]; exact pow_two_toNat _
    rw [hwf.sets, h3]
    exact Nat.mod_lt _ (Nat.pos_of_ne_zero (by positivity))
  unfold block_view
  cases hf : find_row s.cache (b % 2 ^ s.group_id_width.toNat)
      (b / 2 ^ s.group_id_width.toNat) 0 s.row_num.toNat with
  | none => exact (hwf.mem_ok b).1
  | some k =>
    obtain ⟨_, hk, _, _⟩ := find_row_some _ _ _ _ _ _ hf
    exact hwf.data_len _ hsb k (by omega)

/-- The address of a request in terms of its block: set, tag and number. -/
theorem addr_block (s : CacheState) (h : WellFormed s) (addr : Nat) :
    (addr_temp addr >>> BLOCK_WIDTH) % 2 ^ s.group_id_width.toNat = set_id s addr ∧
    (addr_temp addr >>> BLOCK_WIDTH) / 2 ^ s.group_id_width.toNat = tag_of s addr := by
  rw [wf_block_num_eq s h addr]
  exact block_of_set_tag _ _ _ (set_id_lt s addr)

/-! ### A replacement does not change the blocks the cache holds -/

theorem block_view_replace (s : CacheState) (addr rnd : Nat) (h : Coherent s)
    (hh : hit_row s addr = none) (b : Nat) :
    block_view (replace s (addr_temp addr >>> BLOCK_WIDTH) (set_id s addr) rnd).2 b
      = block_view s b := by
  have hwf := h.inv.wf
  have hs := wf_set_id_lt s hwf addr
  have hw := wf_victim_lt s hwf rnd
  have hj : rnd % s.row_num.toNat < (s.cache.getD (set_id s addr) []).length := by
    rw [hwf.rows _ hs]; exact hw
  have hnone := hit_row_none s addr hh
  have h' := coh_replace s addr rnd h hh
  obtain ⟨c1, _, c3, _, _, _⟩ := replace_config s (addr_temp addr >>> BLOCK_WIDTH)
    (set_id s addr) rnd
  have hrc := replace_cache s (addr_temp addr >>> BLOCK_WIDTH) (set_id s addr) rnd
  rw [wf_block_num_tag s hwf addr] at hrc
  have hbn := wf_block_num_eq s hwf addr
  obtain ⟨hbs, hbt⟩ := addr_block s hwf addr
  have hrow : ∀ i j, get_row (replace s (addr_temp addr >>> BLOCK_WIDTH) (set_id s addr)
      rnd).2.cache i j = if i = set_id s addr ∧ j = rnd % s.row_num.toNat
        then ⟨true, false, tag_of s addr, (replace s (addr_temp addr >>> BLOCK_WIDTH)
          (set_id s addr) rnd).2.mem (addr_temp addr >>> BLOCK_WIDTH)⟩
        else get_row s.cache i j := by
    intro i j
    rw [hrc]
    exact get_row_set_row_ite _ _ _ _ _ _ hs hj
  have hsb : b % 2 ^ s.group_id_width.toNat < s.cache.length := by
    have h3 : s.group_num.toNat = 2 ^ s.group_id_width.toNat := by
      rw [hwf.group_num_eq]; exact pow_two_toNat _
    rw [hwf.sets, h3]
    exact Nat.mod_lt _ (Nat.pos_of_ne_zero (by positivity))
  have hsplit := block_split (2 ^ s.group_id_width.toNat) b
  -- the memory after the write-back, away from the victim's block
  have hmem : (∀ i < s.row_num.toNat, ¬ Matches s.cache (b % 2 ^ s.group_id_width.toNat)
        (b / 2 ^ s.group_id_width.toNat) i) →
      (replace s (addr_temp addr >>> BLOCK_WIDTH) (set_id s addr) rnd).2.mem b = s.mem b := by
    intro hno
    by_cases hd : (get_row s.cache (set_id s addr) (rnd % s.row_num.toNat)).dirty = true
    · have hvic := h.inv.dirty_valid _ hs _ hw hd
      rw [(replace_mem_dirty s _ _ rnd hd).1, victim_block s h.inv _ _ hs hw hvic]
      show (if _ then _ else _) = _
      rw [if_neg]
      intro e
      rw [← hsplit] at e
      obtain ⟨et, ei⟩ := block_number_inj _ _ _ _ _ (wf_set_lt_pow s hwf _ hsb)
        (wf_set_lt_pow s hwf _ hs) e
      apply hno _ hw
      rw [ei, et]
      exact ⟨hvic, rfl⟩
    · rw [(replace_mem_clean s _ _ rnd (by simpa using hd)).1]
  by_cases hex : ∃ i, i < s.row_num.toNat ∧
      Matches (replace s (addr_temp addr >>> BLOCK_WIDTH) (set_id s addr) rnd).2.cache
        (b % 2 ^ s.group_id_width.toNat) (b / 2 ^ s.group_id_width.toNat) i
  · obtain ⟨i, hi, hm⟩ := hex
    have hv' : block_view (replace s (addr_temp addr >>> BLOCK_WIDTH) (set_id s addr) rnd).2 b
        = (get_row (replace s (addr_temp addr >>> BLOCK_WIDTH) (set_id s addr) rnd).2.cache
          (b % 2 ^ s.group_id_width.toNat) i).data := by
      have := block_view_of_match _ h' b i (by rw [c1]; exact hi) (by rw [c3]; exact hm)
      rw [c3] at this
      exact this
    rw [hv']
    unfold Matches at hm
    rw [hrow] at hm ⊢
    by_cases e : b % 2 ^ s.group_id_width.toNat = set_id s addr ∧ i = rnd % s.row_num.toNat
    · rw [if_pos e] at hm ⊢
      have htag : tag_of s addr = b / 2 ^ s.group_id_width.toNat := hm.2
      have hb : b = addr_temp addr >>> BLOCK_WIDTH := by
        rw [hbn, htag, ← e.1]
        exact hsplit.symm
      have hno : ∀ m < s.row_num.toNat, ¬ Matches s.cache (b % 2 ^ s.group_id_width.toNat)
          (b / 2 ^ s.group_id_width.toNat) m := by
        intro m hm'
        rw [e.1, ← htag]
        exact hnone m hm'
      rw [block_view_of_no_match s b hno, hb]
      exact miss_mem_block s h.inv addr rnd hh
    · rw [if_neg e] at hm ⊢
      exact (block_view_of_match s h b i hi hm).symm
  · have hno' : ∀ i < (replace s (addr_temp addr >>> BLOCK_WIDTH) (set_id s addr)
          rnd).2.row_num.toNat,
        ¬ Matches (replace s (addr_temp addr >>> BLOCK_WIDTH) (set_id s addr) rnd).2.cache
          (b % 2 ^ (replace s (addr_temp addr >>> BLOCK_WIDTH) (set_id s addr)
            rnd).2.group_id_width.toNat)
          (b / 2 ^ (replace s (addr_temp addr >>> BLOCK_WIDTH) (set_id s addr)
            rnd).2.group_id_width.toNat) i := by
      intro i hi hm
      rw [c1] at hi
      rw [c3] at hm
      exact hex ⟨i, hi, hm⟩
    rw [block_view_of_no_match _ b hno']
    by_cases hold : ∃ i, i < s.row_num.toNat ∧ Matches s.cache (b % 2 ^ s.group_id_width.toNat)
        (b / 2 ^ s.group_id_width.toNat) i
    · obtain ⟨i, hi, hm⟩ := hold
      have e : b % 2 ^ s.group_id_width.toNat = set_id s addr ∧ i = rnd % s.row_num.toNat := by
        by_contra hne
        apply hex
        refine ⟨i, hi, ?_⟩
        unfold Matches
        rw [hrow, if_neg hne]
        exact hm
      rw [block_view_of_match s h b i hi hm, e.1, e.2]
      rw [e.1, e.2] at hm
      have hbv : (get_row s.cache (set_id s addr) (rnd % s.row_num.toNat)).tag
          * 2 ^ s.group_id_width.toNat + set_id s addr = b := by
        rw [hm.2, ← e.1]
        exact hsplit
      by_cases hd : (get_row s.cache (set_id s addr) (rnd % s.row_num.toNat)).dirty = true
      · rw [(replace_mem_dirty s _ _ rnd hd).1, victim_block s h.inv _ _ hs hw hm.1, hbv]
        show (if b = b then _ else _) = _
        rw [if_pos rfl]
      · have hd' : (get_row s.cache (set_id s addr) (rnd % s.row_num.toNat)).dirty = false := by
          simpa using hd
        rw [(replace_mem_clean s _ _ rnd hd').1, h.mirror _ hs _ hw hm.1 hd', hbv]
    · have hno : ∀ i < s.row_num.toNat, ¬ Matches s.cache (b % 2 ^ s.group_id_width.toNat)
          (b / 2 ^ s.group_id_width.toNat) i := by
        intro i hi hm
        exact hold ⟨i, hi, hm⟩
      rw [block_view_of_no_match s b hno]
      exact hmem hno

/-! ### The blocks after a write -/

theorem block_write_data_congr (r r' : CacheRow) (off data wmask : Nat) (h : r.data = r'.data) :
    (block_write r off data wmask).data = (block_write r' off data wmask).data := by
  unfold block_write
  simp only [block_read_congr r r' off h, h]

theorem block_view_mark_and_write (s : CacheState) (sid i off data wmask : Nat) (h : Coherent s)
    (hs : sid < s.cache.length) (hi : i < s.row_num.toNat)
    (hv : (get_row s.cache sid i).valid = true) (b : Nat) :
    block_view (mark_and_write s sid i off data wmask) b =
      if b = (get_row s.cache sid i).tag * 2 ^ s.group_id_width.toNat + sid
        then (block_write ⟨true, true, 0, block_view s b⟩ off data wmask).data
        else block_view s b := by
  have hwf := h.inv.wf
  have hj : i < (s.cache.getD sid []).length := by rw [hwf.rows sid hs]; exact hi
  have h' := coh_mark_and_write s sid i off data wmask h hs hi hv
  have hc := mark_and_write_cache s sid i off data wmask hs hj
  obtain ⟨f1, _, f3, _⟩ := block_write_flags
    { get_row s.cache sid i with dirty := true } off data wmask
  have hrow : ∀ a c, get_row (mark_and_write s sid i off data wmask).cache a c =
      if a = sid ∧ c = i
        then block_write { get_row s.cache sid i with dirty := true } off data wmask
        else get_row s.cache a c := by
    intro a c
    rw [hc]
    exact get_row_set_row_ite _ _ _ _ _ _ hs hj
  have hmatch : ∀ a t c, Matches (mark_and_write s sid i off data wmask).cache a t c ↔
      Matches s.cache a t c := by
    intro a t c
    unfold Matches
    rw [hrow a c]
    by_cases e : a = sid ∧ c = i
    · rw [if_pos e, f1, f3, e.1, e.2]
    · rw [if_neg e]
  have hsp := wf_set_lt_pow s hwf sid hs
  obtain ⟨b1, b2⟩ := block_of_set_tag (2 ^ s.group_id_width.toNat) sid
    (get_row s.cache sid i).tag hsp
  have hsplit := block_split (2 ^ s.group_id_width.toNat) b
  by_cases hb : b = (get_row s.cache sid i).tag * 2 ^ s.group_id_width.toNat + sid
  · rw [if_pos hb]
    have hm : Matches s.cache (b % 2 ^ s.group_id_width.toNat)
        (b / 2 ^ s.group_id_width.toNat) i := by
      rw [hb, b1, b2]; exact ⟨hv, rfl⟩
    have e1 := block_view_of_match _ h' b i hi ((hmatch _ _ _).2 hm)
    have e2 := block_view_of_match s h b i hi hm
    have hbs : b % 2 ^ s.group_id_width.toNat = sid := by rw [hb, b1]
    rw [e1]
    show (get_row (mark_and_write s sid i off data wmask).cache
      (b % 2 ^ s.group_id_width.toNat) i).data = _
    rw [hrow, if_pos ⟨hbs, rfl⟩]
    apply block_write_data_congr
    rw [e2, hbs]
  · rw [if_neg hb]
    by_cases hex : ∃ k, k < s.row_num.toNat ∧ Matches s.cache (b % 2 ^ s.group_id_width.toNat)
        (b / 2 ^ s.group_id_width.toNat) k
    · obtain ⟨k, hk, hm⟩ := hex
      have e1 := block_view_of_match _ h' b k hk ((hmatch _ _ _).2 hm)
      rw [e1, block_view_of_match s h b k hk hm]
      show (get_row (mark_and_write s sid i off data wmask).cache
        (b % 2 ^ s.group_id_width.toNat) k).data = _
      rw [hrow, if_neg]
      intro e
      apply hb
      rw [e.1, e.2] at hm
      have ht : (get_row s.cache sid i).tag = b / 2 ^ s.group_id_width.toNat := hm.2
      rw [ht, ← e.1]
      exact hsplit.symm
    · have hno : ∀ k < s.row_num.toNat, ¬ Matches s.cache (b % 2 ^ s.group_id_width.toNat)
          (b / 2 ^ s.group_id_width.toNat) k := fun k hk hm => hex ⟨k, hk, hm⟩
      have hno' : ∀ k < (mark_and_write s sid i off data wmask).row_num.toNat,
          ¬ Matches (mark_and_write s sid i off data wmask).cache
            (b % 2 ^ (mark_and_write s sid i off data wmask).group_id_width.toNat)
            (b / 2 ^ (mark_and_write s sid i off data wmask).group_id_width.toNat) k :=
        fun k hk hm => hno k hk ((hmatch _ _ _).1 hm)
      rw [block_view_of_no_match _ b hno', block_view_of_no_match s b hno]
      rfl

theorem block_view_counters (s : CacheState) (n m : Nat) (b : Nat) :
    block_view (try_increase s n) b = block_view s b ∧
    block_view (hit_increase s m) b = block_view s b := ⟨rfl, rfl⟩

/-- A `cache_read` leaves the blocks the cache holds as they are. -/
theorem block_view_cache_read (s : CacheState) (addr rnd : Nat) (h : Coherent s) (b : Nat) :
    block_view (cache_read s addr rnd).2 b = block_view s b := by
  cases hh : hit_row s addr with
  | some i =>
    rw [cache_read_hit s addr rnd i hh]
    rfl
  | none =>
    rw [cache_read_miss s addr rnd hh]
    exact block_view_replace s addr rnd h hh b

/-- The block of the address a request names, as the cache holds it. -/
theorem block_view_hit (s : CacheState) (addr i : Nat) (h : Coherent s)
    (hh : hit_row s addr = some i) :
    block_view s (addr_temp addr >>> BLOCK_WIDTH) = (get_row s.cache (set_id s addr) i).data := by
  obtain ⟨hbs, hbt⟩ := addr_block s h.inv.wf addr
  obtain ⟨hi, hm, _⟩ := hit_row_lt s addr i hh
  have := block_view_of_match s h (addr_temp addr >>> BLOCK_WIDTH) i hi (by rw [hbs, hbt]; exact hm)
  rw [hbs] at this
  exact this

theorem block_view_miss (s : CacheState) (addr : Nat) (h : Coherent s)
    (hh : hit_row s addr = none) :
    block_view s (addr_temp addr >>> BLOCK_WIDTH) = s.mem (addr_temp addr >>> BLOCK_WIDTH) := by
  obtain ⟨hbs, hbt⟩ := addr_block s h.inv.wf addr
  apply block_view_of_no_match
  intro i hi
  rw [hbs, hbt]
  exact hit_row_none s addr hh i hi

/-- A `cache_read` returns the word of the block the cache holds. -/
theorem cache_read_view (s : CacheState) (addr rnd : Nat) (h : Coherent s) :
    (cache_read s addr rnd).1 =
      block_read ⟨true, true, 0, block_view s (addr_temp addr >>> BLOCK_WIDTH)⟩
        (block_offset addr) := by
  cases hh : hit_row s addr with
  | some i =>
    rw [cache_read_hit s addr rnd i hh]
    apply block_read_congr
    exact (block_view_hit s addr i h hh).symm
  | none =>
    rw [cache_read_miss_value s addr rnd h.inv.wf hh]
    apply block_read_congr
    exact (miss_mem_block s h.inv addr rnd hh).trans (block_view_miss s addr h hh).symm

/-- A `cache_write` changes the block of its address by a `block_write`, and
no other block the cache holds. -/
theorem block_view_cache_write (s : CacheState) (addr data wmask rnd : Nat) (h : Coherent s)
    (b : Nat) :
    block_view (cache_write s addr data wmask rnd) b =
      if b = addr_temp addr >>> BLOCK_WIDTH
        then (block_write ⟨true, true, 0, block_view s b⟩ (block_offset addr) data wmask).data
        else block_view s b := by
  have hwf := h.inv.wf
  have hs := wf_set_id_lt s hwf addr
  have hbn := wf_block_num_eq s hwf addr
  cases hh : hit_row s addr with
  | some i =>
    obtain ⟨hi, hm, _⟩ := hit_row_lt s addr i hh
    rw [cache_write_hit s addr data wmask rnd i hh]
    have e := block_view_mark_and_write s (set_id s addr) i (block_offset addr) data wmask h
      hs hi hm.1 b
    rw [hm.2, ← hbn] at e
    exact e
  | none =>
    have hw := wf_victim_lt s hwf rnd
    have hj : rnd % s.row_num.toNat < (s.cache.getD (set_id s addr) []).length := by
      rw [hwf.rows _ hs]; exact hw
    have hc := coh_replace s addr rnd h hh
    obtain ⟨c1, _, c3, _, _, _⟩ := replace_config s (addr_temp addr >>> BLOCK_WIDTH)
      (set_id s addr) rnd
    have hrc := replace_cache s (addr_temp addr >>> BLOCK_WIDTH) (set_id s addr) rnd
    rw [wf_block_num_tag s hwf addr] at hrc
    have hline : get_row (replace s (addr_temp addr >>> BLOCK_WIDTH) (set_id s addr) rnd).2.cache
        (set_id s addr) (rnd % s.row_num.toNat) = ⟨true, false, tag_of s addr,
          (replace s (addr_temp addr >>> BLOCK_WIDTH) (set_id s addr) rnd).2.mem
            (addr_temp addr >>> BLOCK_WIDTH)⟩ := by
      rw [hrc]; exact get_row_set_row_eq _ _ _ _ hs hj
    rw [cache_write_miss s addr data wmask rnd hh]
    have e := block_view_mark_and_write _ (set_id s addr) (rnd % s.row_num.toNat)
      (block_offset addr) data wmask hc (by rw [hrc, length_set_row]; exact hs)
      (by rw [c1]; exact hw) (by rw [hline]) b
    rw [hline, c3] at e
    have e' : block_view (try_increase (mark_and_write (replace s (addr_temp addr >>> BLOCK_WIDTH)
        (set_id s addr) rnd).2 (set_id s addr) (rnd % s.row_num.toNat) (block_offset addr)
        data wmask) 1) b = _ := e
    rw [e', block_view_replace s addr rnd h hh b]
    show (if b = tag_of s addr * 2 ^ s.group_id_width.toNat + set_id s addr then _ else _) = _
    rw [← hbn]

/-! ### The cache and the flat memory -/

theorem word_addr (addr : Nat) (h : addr < 2 ^ 32) : addr - addr % 4 = addr_temp addr := by
  rw [addr_temp_eq_arith, Nat.mod_eq_of_lt h]
  omega

theorem addr_temp_split (addr : Nat) :
    addr_temp addr = (addr_temp addr >>> BLOCK_WIDTH) * BLOCK_SIZE + block_offset addr := by
  rw [block_offset_eq, Nat.shiftRight_eq_div_pow]
  have e : (2 : Nat) ^ BLOCK_WIDTH = 64 := by decide
  have e2 : BLOCK_SIZE = 64 := rfl
  rw [e, e2]
  omega

theorem flat_byte (view : Nat → List Nat) (bn k : Nat) (hk : k < BLOCK_SIZE) :
    flat_of_blocks view (bn * BLOCK_SIZE + k) = (view bn).getD k 0 := by
  unfold flat_of_blocks
  have hpos : 0 < BLOCK_SIZE := by decide
  have e1 : (bn * BLOCK_SIZE + k) / BLOCK_SIZE = bn := by
    rw [Nat.mul_comm, Nat.mul_add_div hpos, Nat.div_eq_of_lt hk, Nat.add_zero]
  have e2 : (bn * BLOCK_SIZE + k) % BLOCK_SIZE = k := by
    rw [Nat.mul_comm, Nat.mul_add_mod, Nat.mod_eq_of_lt hk]
  rw [e1, e2]

theorem block_read_flat (view : Nat → List Nat) (bn off : Nat) (v d : Bool) (t : Nat)
    (hoff : off + 4 ≤ BLOCK_SIZE) :
    block_read ⟨v, d, t, view bn⟩ off = flat_read (flat_of_blocks view) (bn * BLOCK_SIZE + off) := by
  unfold block_read flat_read
  have a1 : bn * BLOCK_SIZE + off + 1 = bn * BLOCK_SIZE + (off + 1) := by omega
  have a2 : bn * BLOCK_SIZE + off + 2 = bn * BLOCK_SIZE + (off + 2) := by omega
  have a3 : bn * BLOCK_SIZE + off + 3 = bn * BLOCK_SIZE + (off + 3) := by omega
  rw [a1, a2, a3, flat_byte view bn off (by omega), flat_byte view bn (off + 1) (by omega),
    flat_byte view bn (off + 2) (by omega), flat_byte view bn (off + 3) (by omega)]

/-- A `cache_read` returns the word of the flat memory the cache stands for. -/
theorem cache_read_flat (s : CacheState) (addr rnd : Nat) (h : Coherent s)
    (ha : addr < 2 ^ 32) :
    (cache_read s addr rnd).1 = flat_read (flat_of_blocks (block_view s)) (addr - addr % 4) := by
  rw [cache_read_view s addr rnd h, word_addr addr ha,
    block_read_flat (block_view s) _ _ _ _ _ (block_offset_bound addr), ← addr_temp_split]

theorem flat_cache_read (s : CacheState) (addr rnd : Nat) (h : Coherent s) :
    flat_of_blocks (block_view (cache_read s addr rnd).2) = flat_of_blocks (block_view s) := by
  funext x
  unfold flat_of_blocks
  rw [block_view_cache_read s addr rnd h]

/-- A `cache_write` is a masked write of the flat memory the cache stands
for. -/
theorem flat_cache_write (s : CacheState) (addr data wmask rnd : Nat) (h : Coherent s)
    (ha : addr < 2 ^ 32) (hm : wmask < 2 ^ 32) :
    flat_of_blocks (block_view (cache_write s addr data wmask rnd))
      = flat_write (flat_of_blocks (block_view s)) (addr - addr % 4) data wmask := by
  have hoff := block_offset_bound addr
  have hsplit := addr_temp_split addr
  have hlen := block_view_length s h (addr_temp addr >>> BLOCK_WIDTH)
  have hl : block_offset addr + 4 ≤
      (⟨true, true, 0, block_view s (addr_temp addr >>> BLOCK_WIDTH)⟩ : CacheRow).data.length := by
    show _ ≤ (block_view s (addr_temp addr >>> BLOCK_WIDTH)).length
    rw [hlen]; exact hoff
  obtain ⟨w0, w1, w2, w3, w4⟩ := block_write_bytes
    ⟨true, true, 0, block_view s (addr_temp addr >>> BLOCK_WIDTH)⟩ (block_offset addr)
    data wmask hl
  have hword : (block_read ⟨true, true, 0, block_view s (addr_temp addr >>> BLOCK_WIDTH)⟩
        (block_offset addr) &&& not32 wmask) ||| (data &&& wmask)
      = merged_word (flat_of_blocks (block_view s)) (addr_temp addr) data wmask := by
    unfold merged_word
    rw [not32_of_lt wmask hm, block_read_flat (block_view s) _ _ _ _ _ hoff, ← hsplit]
  rw [hword] at w0 w1 w2 w3
  have e256 : (256 : Nat) = 2 ^ 8 := by norm_num
  rw [e256] at w0 w1 w2 w3
  rw [word_addr addr ha]
  funext x
  have hx : x = x / BLOCK_SIZE * BLOCK_SIZE + x % BLOCK_SIZE := by
    rw [Nat.mul_comm]; exact (Nat.div_add_mod x BLOCK_SIZE).symm
  have hxk : x % BLOCK_SIZE < BLOCK_SIZE := Nat.mod_lt _ (by decide)
  have hlhs : flat_of_blocks (block_view (cache_write s addr data wmask rnd)) x =
      (block_view (cache_write s addr data wmask rnd) (x / BLOCK_SIZE)).getD
        (x % BLOCK_SIZE) 0 := rfl
  have hold : flat_of_blocks (block_view s) x =
      (block_view s (x / BLOCK_SIZE)).getD (x % BLOCK_SIZE) 0 := rfl
  rw [hlhs, block_view_cache_write s addr data wmask rnd h]
  unfold flat_write
  by_cases hb : x / BLOCK_SIZE = addr_temp addr >>> BLOCK_WIDTH
  · rw [if_pos hb, hb]
    have hxa : x = addr_temp addr + (x % BLOCK_SIZE) - block_offset addr := by
      rw [hsplit, ← hb]; omega
    by_cases h0 : x % BLOCK_SIZE = block_offset addr
    · have : x = addr_temp addr := by omega
      rw [if_pos this, h0]
      exact getD_of_getElem? _ _ _ _ w0
    · have n0 : x ≠ addr_temp addr := by omega
      rw [if_neg n0]
      by_cases h1 : x % BLOCK_SIZE = block_offset addr + 1
      · have : x = addr_temp addr + 1 := by omega
        rw [if_pos this, h1]
        exact getD_of_getElem? _ _ _ _ w1
      · have n1 : x ≠ addr_temp addr + 1 := by omega
        rw [if_neg n1]
        by_cases h2 : x % BLOCK_SIZE = block_offset addr + 2
        · have : x = addr_temp addr + 2 := by omega
          rw [if_pos this, h2]
          exact getD_of_getElem? _ _ _ _ w2
        · have n2 : x ≠ addr_temp addr + 2 := by omega
          rw [if_neg n2]
          by_cases h3 : x % BLOCK_SIZE = block_offset addr + 3
          · have : x = addr_temp addr + 3 := by omega
            rw [if_pos this, h3]
            exact getD_of_getElem? _ _ _ _ w3
          · have n3 : x ≠ addr_temp addr + 3 := by omega
            rw [if_neg n3, hold, hb]
            have hout : x % BLOCK_SIZE < block_offset addr ∨
                block_offset addr + 4 ≤ x % BLOCK_SIZE := by omega
            rw [List.getD_eq_getElem?_getD, w4 _ hout, ← List.getD_eq_getElem?_getD]
  · rw [if_neg hb]
    have hne : ∀ j, j < 4 → x ≠ addr_temp addr + j := by
      intro j hj e
      apply hb
      rw [e, hsplit]
      have hpos : 0 < BLOCK_SIZE := by decide
      have : (addr_temp addr >>> BLOCK_WIDTH) * BLOCK_SIZE + block_offset addr + j
          = BLOCK_SIZE * (addr_temp addr >>> BLOCK_WIDTH) + (block_offset addr + j) := by
        rw [Nat.mul_comm]; omega
      rw [this, Nat.mul_add_div hpos, Nat.div_eq_of_lt (by omega), Nat.add_zero]
      rw [← hsplit]
    rw [if_neg (by simpa using hne 0 (by norm_num)), if_neg (hne 1 (by norm_num)),
      if_neg (hne 2 (by norm_num)), if_neg (hne 3 (by norm_num))]
    exact hold.symm

/-! ### Runs of the cache and of the flat memory -/

theorem run_reads_flat (ops : List Op) : ∀ s : CacheState, Coherent s →
    (∀ op ∈ ops, op.fits = true) →
    run_reads s ops = flat_reads (flat_of_blocks (block_view s)) ops := by
  induction ops with
  | nil => intro s _ _; rfl
  | cons op ops ih =>
    intro s h hfit
    have hop := hfit op (List.mem_cons_self _ _)
    have hrest : ∀ o ∈ ops, o.fits = true := fun o ho => hfit o (List.mem_cons_of_mem _ ho)
    cases op with
    | read addr rnd =>
      have ha : addr < 2 ^ 32 := by simpa [Op.fits] using hop
      show (cache_read s addr rnd).1 :: run_reads (cache_read s addr rnd).2 ops
        = flat_read (flat_of_blocks (block_view s)) (addr - addr % 4)
          :: flat_reads (flat_of_blocks (block_view s)) ops
      rw [ih _ (coh_cache_read s addr rnd h) hrest, flat_cache_read s addr rnd h,
        cache_read_flat s addr rnd h ha]
    | write addr data wmask rnd =>
      have hb : addr < 2 ^ 32 ∧ data < 2 ^ 32 ∧ wmask < 2 ^ 32 := by
        simpa [Op.fits, and_assoc] using hop
      show run_reads (cache_write s addr data wmask rnd) ops
        = flat_reads (flat_write (flat_of_blocks (block_view s)) (addr - addr % 4) data wmask) ops
      rw [ih _ (coh_cache_write s addr data wmask rnd h) hrest,
        flat_cache_write s addr data wmask rnd h hb.1 hb.2.2]

theorem init_cache_view (t a : Int) (heap : Nat → Nat → Nat → Nat) (s0 s : CacheState)
    (hc : valid_config t a) (hm : MemOk s0.mem) (h : init_cache t a heap s0 = some s) :
    block_view s = s0.mem := by
  have hwf := (init_cache_inv t a heap s0 s hc hm h).wf
  funext b
  have hsb : b % 2 ^ s.group_id_width.toNat < s.group_num.toNat := by
    have h3 : s.group_num.toNat = 2 ^ s.group_id_width.toNat := by
      rw [hwf.group_num_eq]; exact pow_two_toNat _
    rw [h3]
    exact Nat.mod_lt _ (Nat.pos_of_ne_zero (by positivity))
  rw [block_view_of_no_match s b, (init_cache_mem t a heap s0 s h).1]
  intro i hi hmatch
  unfold Matches at hmatch
  rw [init_cache_fresh t a heap s0 s hc h _ hsb i hi] at hmatch
  exact absurd hmatch.1 (by simp [fresh_row])

/-- C11, counterexample: `init_cache(8, 1)` over a heap whose bytes are not
zero leaves byte 1 of the line `cache[0][0]` at `1`: the data blocks are not
zeroed. -/
theorem initial_state_counterexample :
    valid_config 8 1 ∧ init_cache 8 1 sample_heap blank_state = some sample_state ∧
    (get_row sample_state.cache 0 0).data.getD 1 0 = 1 ∧
    ¬ ∀ b ∈ (get_row sample_state.cache 0 0).data, b = 0 :=
  ⟨⟨by decide, by decide, by decide⟩, rfl, by decide, by decide⟩

/-- C11 as amended (initial state): after `init_cache` with a valid
configuration (widths whose counts fit an `int`), the store has exactly
`group_num` sets of exactly `row_num` lines each, and every line has
`valid = false`, `dirty = false`, `tag = 0` and a data block of `BLOCK_SIZE`
bytes; the bytes are those the allocation returned, they are not written. -/
theorem initial_state (t a : Int) (heap : Nat → Nat → Nat → Nat) (s0 : CacheState)
    (ha : 0 ≤ a) (ha' : a ≤ 30) (ht : 6 + a ≤ t) (ht' : t - a ≤ 36) :
    ∃ s, init_cache t a heap s0 = some s ∧
      s.group_num = 2 ^ (t - 6 - a).toNat ∧ s.row_num = 2 ^ a.toNat ∧
      s.cache.length = s.group_num.toNat ∧
      (∀ set ∈ s.cache, set.length = s.row_num.toNat) ∧
      (∀ set ∈ s.cache, ∀ r ∈ set,
        r.valid = false ∧ r.dirty = false ∧ r.tag = 0 ∧ r.data.length = BLOCK_SIZE) ∧
      (∀ i < s.group_num.toNat, ∀ j < s.row_num.toNat, ∀ k < BLOCK_SIZE,
        (get_row s.cache i j).data.getD k 0 = heap i j k % 256) := by
  refine ⟨_, init_cache_some t a heap s0 ha ha' ht ht', rfl, rfl, ?_, ?_, ?_, ?_⟩
  · show List.length _ = Int.toNat (2 ^ (t - 6 - a).toNat)
    rw [pow_two_toNat]; simp
  · intro set hset
    show set.length = Int.toNat (2 ^ a.toNat)
    rw [pow_two_toNat]
    have hset' : set ∈ (List.range (2 ^ (t - 6 - a).toNat)).map fun i =>
        (List.range (2 ^ a.toNat)).map fun j => fresh_row (heap i j) := hset
    simp only [List.mem_map] at hset'
    obtain ⟨i, _, hi⟩ := hset'
    rw [← hi]; simp
  · intro set hset r hr
    have hset' : set ∈ (List.range (2 ^ (t - 6 - a).toNat)).map fun i =>
        (List.range (2 ^ a.toNat)).map fun j => fresh_row (heap i j) := hset
    simp only [List.mem_map] at hset'
    obtain ⟨i, _, hi⟩ := hset'
    rw [← hi] at hr
    simp only [List.mem_map] at hr
    obtain ⟨j, _, hj⟩ := hr
    rw [← hj]
    exact ⟨rfl, rfl, rfl, (fresh_row_data _).1⟩
  · intro i hi j hj k hk
    have hi' : i < 2 ^ (t - 6 - a).toNat := by
      have e : Int.toNat (2 ^ (t - 6 - a).toNat) = 2 ^ (t - 6 - a).toNat := pow_two_toNat _
      exact e ▸ hi
    have hj' : j < 2 ^ a.toNat := by
      have e : Int.toNat (2 ^ a.toNat) = 2 ^ a.toNat := pow_two_toNat _
      exact e ▸ hj
    have e : get_row ((List.range (2 ^ (t - 6 - a).toNat)).map fun i =>
        (List.range (2 ^ a.toNat)).map fun j => fresh_row (heap i j)) i j
        = fresh_row (heap i j) := by
      unfold get_row
      rw [getD_map_range _ _ _ _ hi', getD_map_range _ _ _ _ hj']
    show (get_row ((List.range (2 ^ (t - 6 - a).toNat)).map fun i =>
        (List.range (2 ^ a.toNat)).map fun j => fresh_row (heap i j)) i j).data.getD k 0 = _
    rw [e]
    exact fresh_row_byte _ k hk

/-- Witness of C11 as amended, at the widths 8 and 1. -/
theorem initial_state_witness :
    (0 : Int) ≤ 1 ∧ (1 : Int) ≤ 30 ∧ (6 : Int) + 1 ≤ 8 ∧ (8 : Int) - 1 ≤ 36 ∧
    ∃ s, init_cache 8 1 sample_heap blank_state = some s ∧
      s.group_num = 2 ^ (8 - 6 - 1 : Int).toNat ∧ s.row_num = 2 ^ (1 : Int).toNat ∧
      s.cache.length = s.group_num.toNat ∧
      (∀ set ∈ s.cache, set.length = s.row_num.toNat) ∧
      (∀ set ∈ s.cache, ∀ r ∈ set,
        r.valid = false ∧ r.dirty = false ∧ r.tag = 0 ∧ r.data.length = BLOCK_SIZE) ∧
      (∀ i < s.group_num.toNat, ∀ j < s.row_num.toNat, ∀ k < BLOCK_SIZE,
        (get_row s.cache i j).data.getD k 0 = sample_heap i j k % 256) :=
  ⟨by decide, by decide, by decide, by decide,
    initial_state 8 1 sample_heap blank_state (by decide) (by decide) (by decide) (by decide)⟩

/-- C12 (dirty implies valid): in every state reachable from `init_cache` by
`cache_read` and `cache_write` calls with any victim choices, every line of
the store with `dirty = true` has `valid = true`. -/
theorem dirty_implies_valid (s : CacheState) (hr : Reachable s) :
    ∀ set ∈ s.cache, ∀ r ∈ set, r.dirty = true → r.valid = true := by
  intro set hset r hrow hd
  have hinv := reachable_inv s hr
  obtain ⟨i, j, hi, hj, _, e⟩ := mem_rows s.cache set r hset hrow
  rw [hinv.wf.rows i hi] at hj
  rw [← e] at hd ⊢
  exact hinv.dirty_valid i hi j hj hd

/-- Witness of C12: the two-by-two cache after two writes and a read that
evicts a dirty line. -/
theorem dirty_implies_valid_witness :
    Reachable (run sample_state [Op.write 0x44 7 0xFF 1, Op.write 0x80 9 0xFF 0,
      Op.read 0x1044 1]) ∧
    ∀ set ∈ (run sample_state [Op.write 0x44 7 0xFF 1, Op.write 0x80 9 0xFF 0,
        Op.read 0x1044 1]).cache,
      ∀ r ∈ set, r.dirty = true → r.valid = true :=
  ⟨reachable_run _ _ sample_reachable,
    dirty_implies_valid _ (reachable_run _ _ sample_reachable)⟩

/-- C13, counterexample: `init_cache(0, 0)` has `total_size_width <
BLOCK_WIDTH + associativity_width`, and it returns a state instead of failing:
one line per set, no set, a set index width of `-6` and a tag width of `32`. -/
theorem config_validation_counterexample :
    (0 : Int) < (BLOCK_WIDTH : Int) + 0 ∧
    ∃ s, init_cache 0 0 sample_heap blank_state = some s ∧
      s.row_num = 1 ∧ s.group_num = 0 ∧ s.cache = [] ∧
      s.group_id_width = -6 ∧ s.tag_width = 32 :=
  ⟨by decide, _, rfl, rfl, rfl, rfl, rfl, rfl⟩

/-- C13 as amended (no configuration validation): `init_cache` does not check
its arguments.  Called with `total_size_width < BLOCK_WIDTH +
associativity_width`, where `0 ≤ associativity_width ≤ 30` and `0 ≤
total_size_width ≤ 30` (so `exp2` is applied to arguments from `0` to `30`
only), it returns a state: `row_num = 2 ^ associativity_width`, no set
(`group_num = 0`, an empty store), the negative set index width
`total_size_width - 6 - associativity_width` and `tag_width = 26 -
group_id_width`; the other parts of the state are kept. -/
theorem config_validation (t a : Int) (heap : Nat → Nat → Nat → Nat) (s0 : CacheState)
    (ha : 0 ≤ a) (ha' : a ≤ 30) (ht0 : 0 ≤ t) (ht30 : t ≤ 30)
    (ht : t < (BLOCK_WIDTH : Int) + a) :
    ∃ s, init_cache t a heap s0 = some s ∧
      s.row_num = 2 ^ a.toNat ∧ s.group_num = 0 ∧ s.cache = [] ∧
      s.group_id_width = t - 6 - a ∧ s.group_id_width < 0 ∧
      s.tag_width = 26 - s.group_id_width ∧
      s.mem = s0.mem ∧ s.mem_calls = s0.mem_calls ∧
      s.try_count = s0.try_count ∧ s.hit_count = s0.hit_count := by
  have ht2 : t < 6 + a ∧ t ≤ 30 := ⟨ht, ht30⟩
  refine ⟨_, init_cache_no_set t a heap s0 ha ha' ht0 ht2.1, rfl, rfl, rfl, rfl, ?_, ?_,
    rfl, rfl, rfl, rfl⟩
  · show t - 6 - a < 0
    omega
  · show (32 : Int) - 6 - (t - 6 - a) = 26 - (t - 6 - a)
    omega

/-- Witness of C13 as amended, at the widths 5 and 1. -/
theorem config_validation_witness :
    (0 : Int) ≤ 1 ∧ (1 : Int) ≤ 30 ∧ (0 : Int) ≤ 5 ∧ (5 : Int) ≤ 30 ∧
    (5 : Int) < (BLOCK_WIDTH : Int) + 1 ∧
    ∃ s, init_cache 5 1 sample_heap blank_state = some s ∧
      s.row_num = 2 ^ (1 : Int).toNat ∧ s.group_num = 0 ∧ s.cache = [] ∧
      s.group_id_width = 5 - 6 - 1 ∧ s.group_id_width < 0 ∧
      s.tag_width = 26 - s.group_id_width ∧
      s.mem = blank_state.mem ∧ s.mem_calls = blank_state.mem_calls ∧
      s.try_count = blank_state.try_count ∧ s.hit_count = blank_state.hit_count :=
  ⟨by decide, by decide, by decide, by decide, by decide,
    config_validation 5 1 sample_heap blank_state (by decide) (by decide) (by decide)
      (by decide) (by decide)⟩

/-- C15 (replace postcondition): in a well-formed state, for every block
number, every set index of the store and every chosen way `w = rnd % row_num`
(which is below `row_num`), after `replace(block_num, set_id)` the line
`(set_id, w)` is valid and clean, its tag is `block_num >> group_id_width`, its
data is the block `block_num` of the backing memory as it is after the
write-back (if any), and the returned index is `w`. -/
theorem replace_postcondition (s : CacheState) (bn sid rnd w : Nat) (h : WellFormed s)
    (hs : sid < s.group_num.toNat) (hw : rnd % s.row_num.toNat = w) :
    w < s.row_num.toNat ∧
    (replace s bn sid rnd).1 = w ∧
    (get_row (replace s bn sid rnd).2.cache sid w).valid = true ∧
    (get_row (replace s bn sid rnd).2.cache sid w).dirty = false ∧
    (get_row (replace s bn sid rnd).2.cache sid w).tag = bn >>> s.group_id_width.toNat ∧
    (get_row (replace s bn sid rnd).2.cache sid w).data = (replace s bn sid rnd).2.mem bn ∧
    (replace s bn sid rnd).2.mem bn =
      (if (get_row s.cache sid w).dirty = true ∧
          bn = ((get_row s.cache sid w).tag <<< s.group_id_width.toNat + sid) % 2 ^ 32
        then (get_row s.cache sid w).data else s.mem bn) := by
  have hs' : sid < s.cache.length := by rw [h.sets]; exact hs
  have hlt := wf_victim_lt s h rnd
  rw [hw] at hlt
  have hj : w < (s.cache.getD sid []).length := by rw [h.rows _ hs']; exact hlt
  have hc := replace_cache s bn sid rnd
  rw [hw] at hc
  have hrow := get_row_set_row_eq s.cache sid w
    ⟨true, false, bn >>> s.group_id_width.toNat, (replace s bn sid rnd).2.mem bn⟩ hs' hj
  rw [← hc] at hrow
  refine ⟨hlt, hw, by rw [hrow], by rw [hrow], by rw [hrow], by rw [hrow], ?_⟩
  by_cases hd : (get_row s.cache sid w).dirty = true
  · have hd' : (get_row s.cache sid (rnd % s.row_num.toNat)).dirty = true := by rw [hw]; exact hd
    rw [(replace_mem_dirty s bn sid rnd hd').1, hw]
    by_cases hb : bn = ((get_row s.cache sid w).tag <<< s.group_id_width.toNat + sid) % 2 ^ 32
    · rw [if_pos ⟨hd, hb⟩]
      show (if _ then _ else _) = _
      rw [if_pos hb]
    · rw [if_neg (fun hc' => hb hc'.2)]
      show (if _ then _ else _) = _
      rw [if_neg hb]
  · have hd' : (get_row s.cache sid (rnd % s.row_num.toNat)).dirty = false := by
      rw [hw]; simpa using hd
    rw [(replace_mem_clean s bn sid rnd hd').1, if_neg (fun hc' => hd hc'.1)]

/-- Witness of C15: the dirty line `(1, 1)` of the two-by-two cache is
replaced by block `9`. -/
theorem replace_postcondition_witness :
    WellFormed (cache_write sample_state 0x44 7 0xFF 1) ∧
    1 < (cache_write sample_state 0x44 7 0xFF 1).group_num.toNat ∧
    5 % (cache_write sample_state 0x44 7 0xFF 1).row_num.toNat = 1 ∧
    (1 < (cache_write sample_state 0x44 7 0xFF 1).row_num.toNat ∧
    (replace (cache_write sample_state 0x44 7 0xFF 1) 9 1 5).1 = 1 ∧
    (get_row (replace (cache_write sample_state 0x44 7 0xFF 1) 9 1 5).2.cache 1 1).valid = true ∧
    (get_row (replace (cache_write sample_state 0x44 7 0xFF 1) 9 1 5).2.cache 1 1).dirty = false ∧
    (get_row (replace (cache_write sample_state 0x44 7 0xFF 1) 9 1 5).2.cache 1 1).tag
      = 9 >>> (cache_write sample_state 0x44 7 0xFF 1).group_id_width.toNat ∧
    (get_row (replace (cache_write sample_state 0x44 7 0xFF 1) 9 1 5).2.cache 1 1).data
      = (replace (cache_write sample_state 0x44 7 0xFF 1) 9 1 5).2.mem 9 ∧
    (replace (cache_write sample_state 0x44 7 0xFF 1) 9 1 5).2.mem 9 =
      (if (get_row (cache_write sample_state 0x44 7 0xFF 1).cache 1 1).dirty = true ∧
          9 = ((get_row (cache_write sample_state 0x44 7 0xFF 1).cache 1 1).tag
            <<< (cache_write sample_state 0x44 7 0xFF 1).group_id_width.toNat + 1) % 2 ^ 32
        then (get_row (cache_write sample_state 0x44 7 0xFF 1).cache 1 1).data
        else (cache_write sample_state 0x44 7 0xFF 1).mem 9)) :=
  ⟨wf_cache_write _ _ _ _ _ sample_wf, by decide, by decide,
    replace_postcondition (cache_write sample_state 0x44 7 0xFF 1) 9 1 5 1
      (wf_cache_write _ _ _ _ _ sample_wf) (by decide) (by decide)⟩

/-- C16 (all indexing is in bounds): in every state reachable from
`init_cache` with a valid configuration, for every address, the decoded set
index is below `group_num`, the decoded block offset is a multiple of 4 with
`block_offset + 4 ≤ BLOCK_SIZE`, the row the lookup loop returns and the row
`replace` returns are below `row_num`; the store has `group_num` sets, the
addressed set has `row_num` lines and each of them `BLOCK_SIZE` data bytes, so
every `cache[set_id][i]` and every `data[block_offset + k]`, `k < 4`, that
`cache_read`, `cache_write`, `block_read`, `block_write` and `replace` access
exists. -/
theorem indexing_in_bounds (s : CacheState) (addr bn rnd : Nat) (hr : Reachable s) :
    set_id s addr < s.group_num.toNat ∧
    block_offset addr % 4 = 0 ∧ block_offset addr + 4 ≤ BLOCK_SIZE ∧
    (replace s bn (set_id s addr) rnd).1 < s.row_num.toNat ∧
    (∀ i, hit_row s addr = some i → i < s.row_num.toNat) ∧
    s.cache.length = s.group_num.toNat ∧
    (∃ set, s.cache[set_id s addr]? = some set ∧ set.length = s.row_num.toNat ∧
      ∀ i < s.row_num.toNat, ∃ row, set[i]? = some row ∧ row.data.length = BLOCK_SIZE ∧
        ∀ k < 4, ∃ b, row.data[block_offset addr + k]? = some b) := by
  have hwf := (reachable_inv s hr).wf
  have hs := wf_set_id_lt s hwf addr
  have hoff := block_offset_bound addr
  have hmod : block_offset addr % 4 = 0 := by
    rw [block_offset_eq]
    have := addr_temp_mod_four addr
    omega
  refine ⟨by rw [← hwf.sets]; exact hs, hmod, hoff, wf_victim_lt s hwf rnd,
    fun i hi => (hit_row_lt s addr i hi).1, hwf.sets, ?_⟩
  have hset : s.cache.getD (set_id s addr) [] = s.cache[set_id s addr] :=
    getD_eq_getElem _ _ _ hs
  have hlen := hwf.rows _ hs
  rw [hset] at hlen
  refine ⟨s.cache[set_id s addr], List.getElem?_eq_getElem hs, hlen, ?_⟩
  intro i hi
  have hi' : i < (s.cache[set_id s addr]).length := by rw [hlen]; exact hi
  have hrow : get_row s.cache (set_id s addr) i = (s.cache[set_id s addr])[i] := by
    unfold get_row
    rw [hset]
    exact getD_eq_getElem _ _ _ hi'
  have hdl := hwf.data_len _ hs i hi
  rw [hrow] at hdl
  refine ⟨(s.cache[set_id s addr])[i], List.getElem?_eq_getElem hi', hdl, ?_⟩
  intro k hk
  have hk' : block_offset addr + k < ((s.cache[set_id s addr])[i]).data.length := by
    rw [hdl]; omega
  exact ⟨_, List.getElem?_eq_getElem hk'⟩

/-- Witness of C16 on the two-by-two cache, at the unaligned address
`0x12345677`. -/
theorem indexing_in_bounds_witness :
    Reachable sample_state ∧
    (set_id sample_state 0x12345677 < sample_state.group_num.toNat ∧
    block_offset 0x12345677 % 4 = 0 ∧ block_offset 0x12345677 + 4 ≤ BLOCK_SIZE ∧
    (replace sample_state 9 (set_id sample_state 0x12345677) 7).1
      < sample_state.row_num.toNat ∧
    (∀ i, hit_row sample_state 0x12345677 = some i → i < sample_state.row_num.toNat) ∧
    sample_state.cache.length = sample_state.group_num.toNat ∧
    (∃ set, sample_state.cache[set_id sample_state 0x12345677]? = some set ∧
      set.length = sample_state.row_num.toNat ∧
      ∀ i < sample_state.row_num.toNat, ∃ row, set[i]? = some row ∧
        row.data.length = BLOCK_SIZE ∧
        ∀ k < 4, ∃ b, row.data[block_offset 0x12345677 + k]? = some b)) :=
  ⟨sample_reachable, indexing_in_bounds sample_state 0x12345677 9 7 sample_reachable⟩

/-- C17 (`block_read` is little-endian): for a line of `BLOCK_SIZE` bytes and
`block_offset + 4 ≤ BLOCK_SIZE`, `block_read` returns
`data[off] + data[off+1] * 2^8 + data[off+2] * 2^16 + data[off+3] * 2^24`, so
byte `k` of the word is `data[off + k]`; and `block_write` stores the word
`v = (old & ~wmask) | (data & wmask)` in the same order: afterwards
`data[off + k]` is byte `k` of `v`, the other bytes are unchanged, and
`block_read` returns `v`. -/
theorem block_read_little_endian (row : CacheRow) (off data wmask v : Nat)
    (hlen : row.data.length = BLOCK_SIZE) (hoff : off + 4 ≤ BLOCK_SIZE)
    (hbyte : ∀ b ∈ row.data, b < 256) (hm : wmask < 2 ^ 32)
    (hv : v = (block_read row off &&& (0xFFFFFFFF - wmask)) ||| (data &&& wmask)) :
    (∃ b0 b1 b2 b3, row.data[off]? = some b0 ∧ row.data[off + 1]? = some b1 ∧
      row.data[off + 2]? = some b2 ∧ row.data[off + 3]? = some b3 ∧
      block_read row off = b0 + b1 * 2 ^ 8 + b2 * 2 ^ 16 + b3 * 2 ^ 24 ∧
      block_read row off % 2 ^ 8 = b0 ∧ block_read row off / 2 ^ 8 % 2 ^ 8 = b1 ∧
      block_read row off / 2 ^ 16 % 2 ^ 8 = b2 ∧ block_read row off / 2 ^ 24 % 2 ^ 8 = b3) ∧
    (block_write row off data wmask).data[off]? = some (v % 2 ^ 8) ∧
    (block_write row off data wmask).data[off + 1]? = some (v / 2 ^ 8 % 2 ^ 8) ∧
    (block_write row off data wmask).data[off + 2]? = some (v / 2 ^ 16 % 2 ^ 8) ∧
    (block_write row off data wmask).data[off + 3]? = some (v / 2 ^ 24 % 2 ^ 8) ∧
    (∀ x, x < off ∨ off + 4 ≤ x →
      (block_write row off data wmask).data[x]? = row.data[x]?) ∧
    block_read (block_write row off data wmask) off = v := by
  have hl : off + 4 ≤ row.data.length := by rw [hlen]; exact hoff
  have g0 : row.data[off]? = some (row.data[off]) := List.getElem?_eq_getElem (by omega)
  have g1 : row.data[off + 1]? = some (row.data[off + 1]) := List.getElem?_eq_getElem (by omega)
  have g2 : row.data[off + 2]? = some (row.data[off + 2]) := List.getElem?_eq_getElem (by omega)
  have g3 : row.data[off + 3]? = some (row.data[off + 3]) := List.getElem?_eq_getElem (by omega)
  have hrd : block_read row off = row.data[off] + row.data[off + 1] * 2 ^ 8
      + row.data[off + 2] * 2 ^ 16 + row.data[off + 3] * 2 ^ 24 := by
    unfold block_read
    rw [getD_of_getElem? _ _ _ _ g0, getD_of_getElem? _ _ _ _ g1, getD_of_getElem? _ _ _ _ g2,
      getD_of_getElem? _ _ _ _ g3]
  have e256 : (2 : Nat) ^ 8 = 256 := by norm_num
  obtain ⟨s0, s1, s2, s3⟩ := word_byte_split _ _ _ _
    (hbyte _ (List.getElem_mem _)) (hbyte _ (List.getElem_mem _))
    (hbyte _ (List.getElem_mem _)) (hbyte _ (List.getElem_mem _))
  have hnot : not32 wmask = 0xFFFFFFFF - wmask := not32_of_lt wmask hm
  obtain ⟨w0, w1, w2, w3, w4⟩ := block_write_bytes row off data wmask hl
  have hrw := block_read_block_write row off data wmask hl hm
  rw [hnot] at w0 w1 w2 w3 hrw
  rw [← hv] at w0 w1 w2 w3 hrw
  refine ⟨⟨_, _, _, _, g0, g1, g2, g3, hrd, ?_, ?_, ?_, ?_⟩, ?_, ?_, ?_, ?_, w4, hrw⟩
  · rw [hrd, e256]; exact s0
  · rw [hrd, e256]; exact s1
  · rw [hrd, e256]; exact s2
  · rw [hrd, e256]; exact s3
  · rw [e256]; exact w0
  · rw [e256]; exact w1
  · rw [e256]; exact w2
  · rw [e256]; exact w3

/-- Witness of C17: a line whose byte `k` is `k`, read and written at offset
`8` under the mask `0x00FFFF00`. -/
theorem block_read_little_endian_witness :
    (fresh_row fun k => k).data.length = BLOCK_SIZE ∧ 8 + 4 ≤ BLOCK_SIZE ∧
    (∀ b ∈ (fresh_row fun k => k).data, b < 256) ∧ 0x00FFFF00 < 2 ^ 32 ∧
    0x0BBBCC08 = (block_read (fresh_row fun k => k) 8 &&& (0xFFFFFFFF - 0x00FFFF00))
      ||| (0xAABBCCDD &&& 0x00FFFF00) ∧
    ((∃ b0 b1 b2 b3, (fresh_row fun k => k).data[8]? = some b0 ∧
      (fresh_row fun k => k).data[8 + 1]? = some b1 ∧
      (fresh_row fun k => k).data[8 + 2]? = some b2 ∧
      (fresh_row fun k => k).data[8 + 3]? = some b3 ∧
      block_read (fresh_row fun k => k) 8 = b0 + b1 * 2 ^ 8 + b2 * 2 ^ 16 + b3 * 2 ^ 24 ∧
      block_read (fresh_row fun k => k) 8 % 2 ^ 8 = b0 ∧
      block_read (fresh_row fun k => k) 8 / 2 ^ 8 % 2 ^ 8 = b1 ∧
      block_read (fresh_row fun k => k) 8 / 2 ^ 16 % 2 ^ 8 = b2 ∧
      block_read (fresh_row fun k => k) 8 / 2 ^ 24 % 2 ^ 8 = b3) ∧
    (block_write (fresh_row fun k => k) 8 0xAABBCCDD 0x00FFFF00).data[8]?
      = some (0x0BBBCC08 % 2 ^ 8) ∧
    (block_write (fresh_row fun k => k) 8 0xAABBCCDD 0x00FFFF00).data[8 + 1]?
      = some (0x0BBBCC08 / 2 ^ 8 % 2 ^ 8) ∧
    (block_write (fresh_row fun k => k) 8 0xAABBCCDD 0x00FFFF00).data[8 + 2]?
      = some (0x0BBBCC08 / 2 ^ 16 % 2 ^ 8) ∧
    (block_write (fresh_row fun k => k) 8 0xAABBCCDD 0x00FFFF00).data[8 + 3]?
      = some (0x0BBBCC08 / 2 ^ 24 % 2 ^ 8) ∧
    (∀ x, x < 8 ∨ 8 + 4 ≤ x →
      (block_write (fresh_row fun k => k) 8 0xAABBCCDD 0x00FFFF00).data[x]?
        = (fresh_row fun k => k).data[x]?) ∧
    block_read (block_write (fresh_row fun k => k) 8 0xAABBCCDD 0x00FFFF00) 8 = 0x0BBBCC08) :=
  ⟨by decide, by decide, by decide, by decide, by decide,
    block_read_little_endian (fresh_row fun k => k) 8 0xAABBCCDD 0x00FFFF00 0x0BBBCC08
      (by decide) (by decide) (by decide) (by decide) (by decide)⟩

/-- C20 (at most one line changes per request): in a well-formed state, a
`cache_read` or `cache_write` changes at most the line it accesses, which is
the hit line or the chosen victim of the addressed set: every other line of
every set keeps `valid`, `dirty`, `tag` and `data`, every other set is the
same list, the store keeps its shape, the configuration is unchanged, and on a
`cache_read` hit the whole store, the hit line included, is unchanged. -/
theorem one_line_per_request (s : CacheState) (op : Op) (h : WellFormed s) :
    (accessed s op).1 = set_id s op.addr ∧ (accessed s op).1 < s.cache.length ∧
    (accessed s op).2 < s.row_num.toNat ∧
    (∀ i j, (i, j) ≠ accessed s op → get_row (step s op).cache i j = get_row s.cache i j) ∧
    (∀ i, i ≠ set_id s op.addr → (step s op).cache.getD i [] = s.cache.getD i []) ∧
    (step s op).cache.length = s.cache.length ∧
    (∀ i, ((step s op).cache.getD i []).length = (s.cache.getD i []).length) ∧
    ((step s op).row_num = s.row_num ∧ (step s op).group_num = s.group_num ∧
      (step s op).group_id_width = s.group_id_width ∧ (step s op).tag_width = s.tag_width) ∧
    (op.is_write = false → hit_row s op.addr ≠ none → (step s op).cache = s.cache) := by
  obtain ⟨a1, a2, a3⟩ := accessed_in_store s op h
  refine ⟨a1, a2, a3, ?_, ?_, ?_, ?_, step_config s op, ?_⟩
  · intro i j hne
    exact step_other_rows s op i j h (Ne.symm hne)
  · intro i hi
    rcases step_cache_shape s op h with e | ⟨r, e⟩
    · rw [e]
    · rw [e, a1]
      exact getD_set_row_ne _ _ _ _ _ hi
  · rcases step_cache_shape s op h with e | ⟨r, e⟩
    · rw [e]
    · rw [e, length_set_row]
  · intro i
    rcases step_cache_shape s op h with e | ⟨r, e⟩
    · rw [e]
    · rw [e, getD_set_row_length]
  · intro hw hhit
    cases op with
    | write addr data wmask rnd => exact absurd hw (by simp [Op.is_write])
    | read addr rnd =>
      cases hh : hit_row s addr with
      | none => exact absurd hh hhit
      | some k =>
        show (cache_read s addr rnd).2.cache = _
        rw [cache_read_hit s addr rnd k hh]; rfl

/-- Witness of C20: a write miss in the two-by-two cache, and a read hit after
it. -/
theorem one_line_per_request_witness :
    WellFormed sample_state ∧
    ((accessed sample_state (Op.write 0x44 7 0xFF 1)).1 = set_id sample_state 0x44 ∧
    (accessed sample_state (Op.write 0x44 7 0xFF 1)).1 < sample_state.cache.length ∧
    (accessed sample_state (Op.write 0x44 7 0xFF 1)).2 < sample_state.row_num.toNat ∧
    (∀ i j, (i, j) ≠ accessed sample_state (Op.write 0x44 7 0xFF 1) →
      get_row (step sample_state (Op.write 0x44 7 0xFF 1)).cache i j
        = get_row sample_state.cache i j) ∧
    (∀ i, i ≠ set_id sample_state 0x44 →
      (step sample_state (Op.write 0x44 7 0xFF 1)).cache.getD i []
        = sample_state.cache.getD i []) ∧
    (step sample_state (Op.write 0x44 7 0xFF 1)).cache.length = sample_state.cache.length ∧
    (∀ i, ((step sample_state (Op.write 0x44 7 0xFF 1)).cache.getD i []).length
      = (sample_state.cache.getD i []).length) ∧
    ((step sample_state (Op.write 0x44 7 0xFF 1)).row_num = sample_state.row_num ∧
      (step sample_state (Op.write 0x44 7 0xFF 1)).group_num = sample_state.group_num ∧
      (step sample_state (Op.write 0x44 7 0xFF 1)).group_id_width
        = sample_state.group_id_width ∧
      (step sample_state (Op.write 0x44 7 0xFF 1)).tag_width = sample_state.tag_width) ∧
    ((Op.write 0x44 7 0xFF 1).is_write = false → hit_row sample_state 0x44 ≠ none →
      (step sample_state (Op.write 0x44 7 0xFF 1)).cache = sample_state.cache)) ∧
    (hit_row (step sample_state (Op.write 0x44 7 0xFF 1)) 0x44 ≠ none ∧
      (step (step sample_state (Op.write 0x44 7 0xFF 1)) (Op.read 0x44 0)).cache
        = (step sample_state (Op.write 0x44 7 0xFF 1)).cache) :=
  ⟨sample_wf, one_line_per_request sample_state (Op.write 0x44 7 0xFF 1) sample_wf,
    by decide,
    (one_line_per_request (step sample_state (Op.write 0x44 7 0xFF 1)) (Op.read 0x44 0)
      (wf_step _ _ sample_wf)).2.2.2.2.2.2.2.2 rfl (by decide)⟩

/-- C18 (no duplicate residency): in every state reachable from `init_cache`
by `cache_read` and `cache_write` calls with any victim choices, no set holds
two distinct valid lines with the same tag; so the line the lookup loop finds
is the only valid line of the addressed set with the decoded tag. -/
theorem no_duplicate_residency (s : CacheState) (hr : Reachable s) :
    (∀ set ∈ s.cache, ∀ (j k : Nat) (r1 r2 : CacheRow), set[j]? = some r1 → set[k]? = some r2 →
      r1.valid = true → r2.valid = true → r1.tag = r2.tag → j = k) ∧
    (∀ (addr i : Nat), hit_row s addr = some i →
      ∀ k < s.row_num.toNat, Matches s.cache (set_id s addr) (tag_of s addr) k → k = i) := by
  have hc := reachable_coherent s hr
  have hwf := hc.inv.wf
  constructor
  · intro set hset j k r1 r2 h1 h2 v1 v2 ht
    obtain ⟨i, hi, hiset⟩ := List.getElem_of_mem hset
    have e : s.cache.getD i [] = set := by rw [getD_eq_getElem _ _ _ hi]; exact hiset
    have hlen := hwf.rows i hi
    rw [e] at hlen
    have hj : j < set.length := by
      by_contra hn
      rw [List.getElem?_eq_none (by omega)] at h1
      exact absurd h1 (by simp)
    have hk : k < set.length := by
      by_contra hn
      rw [List.getElem?_eq_none (by omega)] at h2
      exact absurd h2 (by simp)
    have g1 : get_row s.cache i j = r1 := by
      unfold get_row; rw [e]; exact getD_of_getElem? _ _ _ _ h1
    have g2 : get_row s.cache i k = r2 := by
      unfold get_row; rw [e]; exact getD_of_getElem? _ _ _ _ h2
    rw [← g1] at v1 ht
    rw [← g2] at v2 ht
    exact hc.no_dup i hi j (by omega) k (by omega) v1 v2 ht
  · intro addr i hh k hk hm
    obtain ⟨hi, hmi, _⟩ := hit_row_lt s addr i hh
    exact hc.no_dup _ (wf_set_id_lt s hwf addr) k hk i hi hm.1 hmi.1 (hm.2.trans hmi.2.symm)

/-- Witness of C18: the two-by-two cache after both lines of set 1 have been
filled and one of them replaced. -/
theorem no_duplicate_residency_witness :
    Reachable (run sample_state [Op.write 0x44 7 0xFF 1, Op.read 0x1044 0,
      Op.read 0x2044 1]) ∧
    ((∀ set ∈ (run sample_state [Op.write 0x44 7 0xFF 1, Op.read 0x1044 0,
        Op.read 0x2044 1]).cache,
      ∀ (j k : Nat) (r1 r2 : CacheRow), set[j]? = some r1 → set[k]? = some r2 →
        r1.valid = true → r2.valid = true → r1.tag = r2.tag → j = k) ∧
    (∀ (addr i : Nat), hit_row (run sample_state [Op.write 0x44 7 0xFF 1, Op.read 0x1044 0,
        Op.read 0x2044 1]) addr = some i →
      ∀ k < (run sample_state [Op.write 0x44 7 0xFF 1, Op.read 0x1044 0,
          Op.read 0x2044 1]).row_num.toNat,
        Matches (run sample_state [Op.write 0x44 7 0xFF 1, Op.read 0x1044 0,
            Op.read 0x2044 1]).cache
          (set_id (run sample_state [Op.write 0x44 7 0xFF 1, Op.read 0x1044 0,
            Op.read 0x2044 1]) addr)
          (tag_of (run sample_state [Op.write 0x44 7 0xFF 1, Op.read 0x1044 0,
            Op.read 0x2044 1]) addr) k → k = i)) :=
  ⟨reachable_run _ _ sample_reachable,
    no_duplicate_residency _ (reachable_run _ _ sample_reachable)⟩

/-- C19 (clean lines mirror memory): in every state reachable from
`init_cache` by `cache_read` and `cache_write` calls, every line with
`valid = true` and `dirty = false` at `(set, way)` has the data of the block
of the backing memory whose number is `(tag << group_id_width) + set`. -/
theorem clean_lines_mirror_memory (s : CacheState) (hr : Reachable s) :
    ∀ (i j : Nat) (set : List CacheRow) (r : CacheRow), s.cache[i]? = some set → set[j]? = some r →
      r.valid = true → r.dirty = false →
      r.data = s.mem (r.tag <<< s.group_id_width.toNat + i) := by
  intro i j set r h1 h2 v d
  have hc := reachable_coherent s hr
  have hwf := hc.inv.wf
  have hi : i < s.cache.length := by
    by_contra hn
    rw [List.getElem?_eq_none (by omega)] at h1
    exact absurd h1 (by simp)
  have e : s.cache.getD i [] = set := getD_of_getElem? _ _ _ _ h1
  have hlen := hwf.rows i hi
  rw [e] at hlen
  have hj : j < set.length := by
    by_contra hn
    rw [List.getElem?_eq_none (by omega)] at h2
    exact absurd h2 (by simp)
  have g : get_row s.cache i j = r := by
    unfold get_row; rw [e]; exact getD_of_getElem? _ _ _ _ h2
  have hm := hc.mirror i hi j (by omega)
  rw [g] at hm
  rw [hm v d, Nat.shiftLeft_eq]

/-- Witness of C19: the two-by-two cache after a write, a read that fills the
other line of the set and a read that evicts the dirty line. -/
theorem clean_lines_mirror_memory_witness :
    Reachable (run sample_state [Op.write 0x44 7 0xFF 1, Op.read 0x1044 0,
      Op.read 0x2044 1]) ∧
    ∀ (i j : Nat) (set : List CacheRow) (r : CacheRow),
      (run sample_state [Op.write 0x44 7 0xFF 1, Op.read 0x1044 0,
        Op.read 0x2044 1]).cache[i]? = some set →
      set[j]? = some r → r.valid = true → r.dirty = false →
      r.data = (run sample_state [Op.write 0x44 7 0xFF 1, Op.read 0x1044 0,
        Op.read 0x2044 1]).mem
          (r.tag <<< (run sample_state [Op.write 0x44 7 0xFF 1, Op.read 0x1044 0,
            Op.read 0x2044 1]).group_id_width.toNat + i) :=
  ⟨reachable_run _ _ sample_reachable,
    clean_lines_mirror_memory _ (reachable_run _ _ sample_reachable)⟩

/-- C14 (transparency): over any initial backing memory of `BLOCK_SIZE`-byte
blocks, after `init_cache` with a valid configuration, for every sequence of
`cache_read` and `cache_write` calls with 32-bit operands and every sequence
of victim choices, the `cache_read` calls return exactly the words that a
plain little-endian byte-addressed memory, started with the content of the
backing memory, returns at `addr & ~0x3` when the same masked writes are
applied to it in the same order. -/
theorem transparency (t a : Int) (heap : Nat → Nat → Nat → Nat) (s0 s : CacheState)
    (ops : List Op) (hc : valid_config t a) (hm : MemOk s0.mem)
    (hinit : init_cache t a heap s0 = some s) (hfit : ∀ op ∈ ops, op.fits = true) :
    run_reads s ops = flat_reads (flat_of_blocks s0.mem) ops := by
  have hcoh := init_cache_coherent t a heap s0 s hc hm hinit
  rw [run_reads_flat ops s hcoh hfit, init_cache_view t a heap s0 s hc hm hinit]

/-- Witness of C14 on the two-by-two cache: three blocks compete for the two
lines of set 1, with write-backs in between; the four reads return the words
of the flat memory. -/
theorem transparency_witness :
    valid_config 8 1 ∧ MemOk blank_state.mem ∧
    init_cache 8 1 sample_heap blank_state = some sample_state ∧
    (∀ op ∈ [Op.write 0x44 0xAABBCCDD 0x00FFFF00 1, Op.read 0x1047 1, Op.read 0x44 0,
      Op.write 0x2046 0x11223344 0xFFFFFFFF 1, Op.read 0x1044 0, Op.read 0x2044 1],
      op.fits = true) ∧
    run_reads sample_state [Op.write 0x44 0xAABBCCDD 0x00FFFF00 1, Op.read 0x1047 1,
        Op.read 0x44 0, Op.write 0x2046 0x11223344 0xFFFFFFFF 1, Op.read 0x1044 0,
        Op.read 0x2044 1]
      = flat_reads (flat_of_blocks blank_state.mem) [Op.write 0x44 0xAABBCCDD 0x00FFFF00 1,
        Op.read 0x1047 1, Op.read 0x44 0, Op.write 0x2046 0x11223344 0xFFFFFFFF 1,
        Op.read 0x1044 0, Op.read 0x2044 1] :=
  ⟨⟨by decide, by decide, by decide⟩, sample_mem_ok, sample_init, by decide,
    transparency 8 1 sample_heap blank_state sample_state _
      ⟨by decide, by decide, by decide⟩ sample_mem_ok sample_init (by decide)⟩

end CacheLab
